import Mathlib

/-!
# polyclip: the Martinez-Rueda-Feito sweep of `booleanop.inl`

A shallow embedding of `src/src/booleanop.inl`.

* Events live in an arena (`eventHolder`); a `SweepEvent*` is the index of the
  event in the arena, so pointer equality is index equality.
* Coordinates (`double` in the source) are exact rationals.
* The event queue `eq` (a `std::priority_queue`) is a list whose head is
  `top ()`; the status line `sl` (a `std::set`) is a list in status order.
* The geometric primitives and the two comparators of `booleanop.h`, which
  `booleanop.inl` only calls, are the fields of `Primitives`; every definition
  of the sweep takes them as its first argument.
* Reads outside an array, a failed `assert` and a loop that exhausts its fuel
  make the functions that can meet them return `none`.
-/

namespace polyclip

/-! ## Geometric value types -/

/-- A point of the plane. -/
structure Point_2 where
  x : ℚ
  y : ℚ
deriving DecidableEq, Repr

/-- A line segment, from `source` to `target`. -/
structure Segment_2 where
  source : Point_2
  target : Point_2
deriving DecidableEq, Repr

/-- An axis-aligned bounding box. -/
structure Bbox_2 where
  xmin : ℚ
  ymin : ℚ
  xmax : ℚ
  ymax : ℚ
deriving DecidableEq, Repr

/-- A contour: its boundary points, the ids of its holes and the external flag
(a fresh `Contour ()` is external). -/
structure Contour where
  points : List Point_2
  holes : List Nat
  external : Bool
deriving DecidableEq, Repr

/-- A polygon is a sequence of contours. -/
structure Polygon where
  contours : List Contour
deriving DecidableEq, Repr

inductive BooleanOpType where
  | INTERSECTION
  | UNION
  | DIFFERENCE
  | XOR
deriving DecidableEq, Repr

inductive EdgeType where
  | NORMAL
  | NON_CONTRIBUTING
  | SAME_TRANSITION
  | DIFFERENT_TRANSITION
deriving DecidableEq, Repr

inductive PolygonType where
  | SUBJECT
  | CLIPPING
deriving DecidableEq, Repr

/-- The enumeration order used by `le1->pol < le2->pol`: SUBJECT comes before
CLIPPING. -/
def PolygonType.lt : PolygonType → PolygonType → Bool
  | .SUBJECT, .CLIPPING => true
  | _, _ => false

/-- The fresh contour `Contour ()`. -/
def Contour.empty : Contour := { points := [], holes := [], external := true }

/-- Member `Contour::add`: append a boundary point. -/
def Contour.add (c : Contour) (p : Point_2) : Contour := { c with points := c.points ++ [p] }

/-- Member `Contour::addHole`: append a hole id. -/
def Contour.addHole (c : Contour) (h : Nat) : Contour := { c with holes := c.holes ++ [h] }

/-- Member `Contour::setExternal`. -/
def Contour.setExternal (c : Contour) (b : Bool) : Contour := { c with external := b }

/-- Modelled from the spec: `Contour::changeOrientation` is declared in the
polygon header, which is not among the sources; section 6 lists it as
"reverse orientation", the boundary sequence is reversed. -/
def Contour.changeOrientation (c : Contour) : Contour := { c with points := c.points.reverse }

/-- Member `Contour::nvertices`. -/
def Contour.nvertices (c : Contour) : Nat := c.points.length

/-- Modelled from the spec: `Contour::segment` ("indexed edge access", section
6) is not among the sources; edge `j` joins vertex `j` to the next
vertex, the last edge closing the contour. -/
def Contour.segment (c : Contour) (j : Nat) : Segment_2 :=
  if j + 1 = c.points.length then
    { source := c.points.getD j ⟨0, 0⟩, target := c.points.getD 0 ⟨0, 0⟩ }
  else
    { source := c.points.getD j ⟨0, 0⟩, target := c.points.getD (j + 1) ⟨0, 0⟩ }

/-- Modelled from the spec: `Segment_2::min` is not among the sources;
section 6: "lexicographically smaller endpoint". -/
def Segment_2.min (s : Segment_2) : Point_2 :=
  if s.source.x < s.target.x ∨ (s.source.x = s.target.x ∧ s.source.y < s.target.y) then s.source
  else s.target

/-- Member `Polygon::ncontours`. -/
def Polygon.ncontours (p : Polygon) : Nat := p.contours.length

/-- Member `Polygon::contour`. -/
def Polygon.contour (p : Polygon) (i : Nat) : Contour := p.contours.getD i Contour.empty

/-- Member `Polygon::push_back`. -/
def Polygon.push_back (p : Polygon) (c : Contour) : Polygon := { contours := p.contours ++ [c] }

/-- Modelled from the spec: `Polygon::join` is not among the sources;
section 6: "append all contours of another polygon". -/
def Polygon.join (p q : Polygon) : Polygon := { contours := p.contours ++ q.contours }

/-! ## Sweep events -/

/-- One endpoint of one segment. `otherEvent` is the arena index of the event at
the other endpoint; `prevInResult` and `posSL` are nullable. -/
structure SweepEvent where
  left : Bool
  point : Point_2
  otherEvent : Nat
  pol : PolygonType
  type : EdgeType
  posSL : Option Nat
  inOut : Bool
  otherInOut : Bool
  prevInResult : Option Nat
  inResult : Bool
  pos : Nat
  resultInOut : Bool
  contourId : Nat
deriving DecidableEq, Repr

/-- The constructor `SweepEvent (b, p, other, pt, et)`: it initialises `left`,
`point`, `otherEvent`, `pol`, `type`, `prevInResult (0)` and `inResult (false)`;
the fields it leaves uninitialised are given fixed values here. -/
def SweepEvent.new (b : Bool) (p : Point_2) (other : Nat) (pt : PolygonType) (et : EdgeType) :
    SweepEvent :=
  { left := b, point := p, otherEvent := other, pol := pt, type := et, posSL := none,
    inOut := false, otherInOut := false, prevInResult := none, inResult := false,
    pos := 0, resultInOut := false, contourId := 0 }

instance : Inhabited SweepEvent := ⟨SweepEvent.new true ⟨0, 0⟩ 0 .SUBJECT .NORMAL⟩

/-- Dereference an event pointer. -/
def getEv (evs : List SweepEvent) (i : Nat) : SweepEvent := evs.getD i default

/-- Apply `f` to the event at index `i`. -/
def modEv (evs : List SweepEvent) (i : Nat) (f : SweepEvent → SweepEvent) : List SweepEvent :=
  evs.set i (f (getEv evs i))

/-- The point of the other endpoint: `e->otherEvent->point`. -/
def otherPoint (evs : List SweepEvent) (i : Nat) : Point_2 :=
  (getEv evs (getEv evs i).otherEvent).point

/-- Modelled from the spec: `SweepEvent::vertical` is declared in the header,
which is not among the sources; the segment is vertical when both
endpoints have the same x. -/
def vertical (evs : List SweepEvent) (i : Nat) : Bool :=
  decide ((getEv evs i).point.x = (otherPoint evs i).x)

/-- Modelled from the spec: `SweepEvent::segment` is declared in the header;
the segment from the event's point to the paired event's point. -/
def segment (evs : List SweepEvent) (i : Nat) : Segment_2 :=
  { source := (getEv evs i).point, target := otherPoint evs i }

/-- What `booleanop.inl` calls and does not define: the numeric primitives and
the comparators of the header. `sec a b` is `SweepEventComp`: true when `a` is
processed after `b`. `findIntersection` returns the number of intersection points
and the points `ip1`, `ip2`. -/
structure Primitives where
  signedArea : Point_2 → Point_2 → Point_2 → ℚ
  findIntersection : Segment_2 → Segment_2 → Nat × Point_2 × Point_2
  bbox : Polygon → Bbox_2
  sec : List SweepEvent → Nat → Nat → Bool
  below : List SweepEvent → Nat → Point_2 → Bool
  above : List SweepEvent → Nat → Point_2 → Bool

/-- The status-line comparator `SegmentComp::operator()`; `le1 < le2` on
pointers is the order of creation in the arena. -/
def SegmentComp (P : Primitives) (evs : List SweepEvent) (le1 le2 : Nat) : Bool :=
  if le1 = le2 then false
  else if P.signedArea (getEv evs le1).point (otherPoint evs le1) (getEv evs le2).point ≠ 0 ∨
      P.signedArea (getEv evs le1).point (otherPoint evs le1) (otherPoint evs le2) ≠ 0 then
    if (getEv evs le1).point = (getEv evs le2).point then
      P.below evs le1 (otherPoint evs le2)
    else if (getEv evs le1).point.x = (getEv evs le2).point.x then
      decide ((getEv evs le1).point.y < (getEv evs le2).point.y)
    else if P.sec evs le1 le2 then
      P.above evs le2 (getEv evs le1).point
    else
      P.below evs le1 (getEv evs le2).point
  else if (getEv evs le1).pol ≠ (getEv evs le2).pol then
    PolygonType.lt (getEv evs le1).pol (getEv evs le2).pol
  else if (getEv evs le1).point = (getEv evs le2).point then
    decide (le1 < le2)
  else
    P.sec evs le1 le2

/-! ## The state of one operation -/

/-- The members of `BooleanOpImp`. -/
structure BooleanOpImp where
  subject : Polygon
  clipping : Polygon
  result : Polygon
  operation : BooleanOpType
  eq : List Nat
  sl : List Nat
  eventHolder : List SweepEvent
  sortedEvents : List Nat
deriving DecidableEq, Repr

/-- The constructor `BooleanOpImp (subj, clip, res, op)`; `res` is a reference to
the caller's polygon, so its current value is part of the initial state. -/
def BooleanOpImp.new (subj clip res : Polygon) (op : BooleanOpType) : BooleanOpImp :=
  { subject := subj, clipping := clip, result := res, operation := op,
    eq := [], sl := [], eventHolder := [], sortedEvents := [] }

/-- Member `storeSweepEvent`: append to the arena and return the address. -/
def storeSweepEvent (s : BooleanOpImp) (e : SweepEvent) : BooleanOpImp × Nat :=
  ({ s with eventHolder := s.eventHolder ++ [e] }, s.eventHolder.length)

/-- Insert `e` in an event list whose head is processed first: `e` goes before
the first event that `after` places after it. -/
def pqInsert (after : Nat → Nat → Bool) (e : Nat) : List Nat → List Nat
  | [] => [e]
  | x :: xs => if after x e then e :: x :: xs else x :: pqInsert after e xs

/-- The call `eq.push (e)`. -/
def eqPush (P : Primitives) (s : BooleanOpImp) (e : Nat) : BooleanOpImp :=
  { s with eq := pqInsert (P.sec s.eventHolder) e s.eq }

/-- The call `sl.insert (k)`: `k` is placed before the first element it
precedes; when the element before that place does not precede `k` the two are
equivalent and nothing is inserted. Returns the new status line and the element
the returned iterator points to. -/
def slInsert (lt : Nat → Nat → Bool) (k : Nat) : Option Nat → List Nat → List Nat × Nat
  | none, [] => ([k], k)
  | some j, [] => if lt j k then ([k], k) else ([], j)
  | none, x :: xs =>
    if lt k x then (k :: x :: xs, k)
    else ((x :: (slInsert lt k (some x) xs).1), (slInsert lt k (some x) xs).2)
  | some j, x :: xs =>
    if lt k x then (if lt j k then (k :: x :: xs, k) else (x :: xs, j))
    else ((x :: (slInsert lt k (some x) xs).1), (slInsert lt k (some x) xs).2)

/-- The element before position `i` of the status line (`--prev`, or `sl.end ()`
at the beginning). -/
def slPrev (sl : List Nat) (i : Nat) : Option Nat :=
  if i = 0 then none else sl.get? (i - 1)

/-- The element after position `i` of the status line (`++next`). -/
def slNext (sl : List Nat) (i : Nat) : Option Nat := sl.get? (i + 1)

/-! ## Registration, field computation and subdivision -/

/-- Member `processSegment`. The first event is created with a null
`otherEvent`, overwritten two lines later and never read in between; the null
is stored here as the event's own address. The omitted constructor argument is
the edge type, `NORMAL`. -/
def processSegment (P : Primitives) (s : BooleanOpImp) (seg : Segment_2) (pt : PolygonType) :
    BooleanOpImp :=
  let a := storeSweepEvent s (SweepEvent.new true seg.source s.eventHolder.length pt .NORMAL)
  let e1 := a.2
  let b := storeSweepEvent a.1 (SweepEvent.new true seg.target e1 pt .NORMAL)
  let e2 := b.2
  let s2 := { b.1 with eventHolder := modEv b.1.eventHolder e1 (fun e => { e with otherEvent := e2 }) }
  let s3 :=
    if seg.min = seg.source then
      { s2 with eventHolder := modEv s2.eventHolder e2 (fun e => { e with left := false }) }
    else
      { s2 with eventHolder := modEv s2.eventHolder e1 (fun e => { e with left := false }) }
  eqPush P (eqPush P s3 e1) e2

/-- Member `inResult`, on the operation and the fields of the event. -/
def inResult (op : BooleanOpType) (le : SweepEvent) : Bool :=
  match le.type with
  | .NORMAL =>
    match op with
    | .INTERSECTION => !le.otherInOut
    | .UNION => le.otherInOut
    | .DIFFERENCE =>
      (decide (le.pol = .SUBJECT) && le.otherInOut) || (decide (le.pol = .CLIPPING) && !le.otherInOut)
    | .XOR => true
  | .SAME_TRANSITION => decide (op = .INTERSECTION) || decide (op = .UNION)
  | .DIFFERENT_TRANSITION => decide (op = .DIFFERENCE)
  | .NON_CONTRIBUTING => false

/-- The first statement of `computeFields`: the fields `inOut` and `otherInOut`,
assigned in the order of the source. `prev` is `none` for `sl.end ()`. -/
def computeInOut (evs : List SweepEvent) (le : Nat) (prev : Option Nat) : List SweepEvent :=
  match prev with
  | none =>
    modEv (modEv evs le (fun e => { e with inOut := false })) le (fun e => { e with otherInOut := true })
  | some p =>
    if (getEv evs le).pol = (getEv evs p).pol then
      let a := modEv evs le (fun e => { e with inOut := !(getEv evs p).inOut })
      modEv a le (fun e => { e with otherInOut := (getEv a p).otherInOut })
    else
      let a := modEv evs le (fun e => { e with inOut := !(getEv evs p).otherInOut })
      modEv a le (fun e =>
        { e with otherInOut := if vertical a p then !(getEv a p).inOut else (getEv a p).inOut })

/-- The second statement of `computeFields`: the field `prevInResult`. -/
def computePrevInResult (op : BooleanOpType) (evs : List SweepEvent) (le : Nat)
    (prev : Option Nat) : List SweepEvent :=
  match prev with
  | none => evs
  | some p =>
    modEv evs le (fun e =>
      { e with prevInResult :=
          if !inResult op (getEv evs p) || vertical evs p then (getEv evs p).prevInResult
          else some p })

/-- Member `computeFields`. -/
def computeFields (s : BooleanOpImp) (le : Nat) (prev : Option Nat) : BooleanOpImp :=
  let a := computeInOut s.eventHolder le prev
  let b := computePrevInResult s.operation a le prev
  { s with eventHolder := modEv b le (fun e => { e with inResult := inResult s.operation (getEv b le) }) }

/-- Member `divideSegment`. -/
def divideSegment (P : Primitives) (s : BooleanOpImp) (le : Nat) (p : Point_2) : BooleanOpImp :=
  let a := storeSweepEvent s (SweepEvent.new false p le (getEv s.eventHolder le).pol .NORMAL)
  let r := a.2
  let b := storeSweepEvent a.1
    (SweepEvent.new true p (getEv a.1.eventHolder le).otherEvent (getEv a.1.eventHolder le).pol .NORMAL)
  let l := b.2
  let evs0 := b.1.eventHolder
  let evs1 :=
    if P.sec evs0 l (getEv evs0 le).otherEvent then
      modEv (modEv evs0 (getEv evs0 le).otherEvent (fun e => { e with left := true })) l
        (fun e => { e with left := false })
    else evs0
  let evs2 := modEv evs1 (getEv evs1 le).otherEvent (fun e => { e with otherEvent := l })
  let evs3 := modEv evs2 le (fun e => { e with otherEvent := r })
  eqPush P (eqPush P { b.1 with eventHolder := evs3 } l) r

/-- The local vector `sortedEvents` of `possibleIntersection`; a null entry is
`none`. -/
def overlapOrder (P : Primitives) (evs : List SweepEvent) (le1 le2 : Nat) : List (Option Nat) :=
  (if (getEv evs le1).point = (getEv evs le2).point then [none]
   else if P.sec evs le1 le2 then [some le2, some le1]
   else [some le1, some le2]) ++
  (if otherPoint evs le1 = otherPoint evs le2 then [none]
   else if P.sec evs (getEv evs le1).otherEvent (getEv evs le2).otherEvent then
     [some (getEv evs le2).otherEvent, some (getEv evs le1).otherEvent]
   else [some (getEv evs le1).otherEvent, some (getEv evs le2).otherEvent])

/-- The statements of `possibleIntersection` that mark an overlap whose left
endpoints coincide. -/
def markOverlap (evs : List SweepEvent) (le1 le2 : Nat) : List SweepEvent :=
  let a := modEv evs le1 (fun e => { e with type := .NON_CONTRIBUTING })
  modEv a le2 (fun e =>
    { e with type := if (getEv a le1).inOut = (getEv a le2).inOut then .SAME_TRANSITION
                     else .DIFFERENT_TRANSITION })

/-- The part of `possibleIntersection` after `nintersections == 1` has been
handled: the segments overlap. -/
def overlapCase (P : Primitives) (s : BooleanOpImp) (le1 le2 : Nat) : BooleanOpImp × Option Nat :=
  let evs := s.eventHolder
  match overlapOrder P evs le1 le2 with
  | [_, _] =>
    ({ s with eventHolder := markOverlap evs le1 le2 }, some 2)
  | [_, some e1, some e2] =>
    let s1 := { s with eventHolder := markOverlap evs le1 le2 }
    (divideSegment P s1 (getEv s1.eventHolder e2).otherEvent (getEv s1.eventHolder e1).point, some 2)
  | [some e0, some e1, _] =>
    (divideSegment P s e0 (getEv evs e1).point, some 3)
  | [some e0, some e1, some e2, some e3] =>
    if e0 ≠ (getEv evs e3).otherEvent then
      let s1 := divideSegment P s e0 (getEv evs e1).point
      (divideSegment P s1 e1 (getEv s1.eventHolder e2).point, some 3)
    else
      let s1 := divideSegment P s e0 (getEv evs e1).point
      (divideSegment P s1 (getEv s1.eventHolder e3).otherEvent (getEv s1.eventHolder e2).point, some 3)
  | _ => (s, none)

/-- Member `possibleIntersection`. The second component is the returned code;
it is `none` when the assertion fails, and the first component is then the state
at the time of the failure. -/
def possibleIntersection (P : Primitives) (s : BooleanOpImp) (le1 le2 : Nat) :
    BooleanOpImp × Option Nat :=
  let evs := s.eventHolder
  let f := P.findIntersection (segment evs le1) (segment evs le2)
  let nintersections := f.1
  let ip1 := f.2.1
  if nintersections = 0 then (s, some 0)
  else if nintersections = 1 ∧
      ((getEv evs le1).point = (getEv evs le2).point ∨ otherPoint evs le1 = otherPoint evs le2) then
    (s, some 0)
  else if nintersections = 2 ∧ (getEv evs le1).pol = (getEv evs le2).pol then (s, none)
  else if nintersections = 1 then
    let s1 :=
      if (getEv evs le1).point ≠ ip1 ∧ otherPoint evs le1 ≠ ip1 then divideSegment P s le1 ip1 else s
    let s2 :=
      if (getEv s1.eventHolder le2).point ≠ ip1 ∧ otherPoint s1.eventHolder le2 ≠ ip1 then
        divideSegment P s1 le2 ip1
      else s1
    (s2, some 1)
  else overlapCase P s le1 le2

/-- Member `trivialOperation`. -/
def trivialOperation (s : BooleanOpImp) (subjectBB clippingBB : Bbox_2) : BooleanOpImp × Bool :=
  if s.subject.ncontours * s.clipping.ncontours = 0 then
    let s1 := if s.operation = .DIFFERENCE then { s with result := s.subject } else s
    let s2 :=
      if s1.operation = .UNION ∨ s1.operation = .XOR then
        { s1 with result := if s1.subject.ncontours = 0 then s1.clipping else s1.subject }
      else s1
    (s2, true)
  else if subjectBB.xmin > clippingBB.xmax ∨ clippingBB.xmin > subjectBB.xmax ∨
      subjectBB.ymin > clippingBB.ymax ∨ clippingBB.ymin > subjectBB.ymax then
    let s1 := if s.operation = .DIFFERENCE then { s with result := s.subject } else s
    let s2 :=
      if s1.operation = .UNION ∨ s1.operation = .XOR then
        { s1 with result := Polygon.join s1.subject s1.clipping }
      else s1
    (s2, true)
  else (s, false)

/-! ## The result builder -/

/-- The locals of `connectEdges` next to the state: `processed`, `depth` and
`holeOf`. -/
structure ConnectState where
  s : BooleanOpImp
  processed : List Bool
  depth : List Int
  holeOf : List Int
deriving DecidableEq, Repr

/-- The test of the first loop of `connectEdges`: the event is in the result. -/
def inResultEvents (evs : List SweepEvent) (e : Nat) : Bool :=
  ((getEv evs e).left && (getEv evs e).inResult) ||
    (!(getEv evs e).left && (getEv evs (getEv evs e).otherEvent).inResult)

/-- One run of the inner `for` of the stabilisation loop, from an index whose
element is `a` over the elements after it; the flag is `sorted`. -/
def bubblePass (after : Nat → Nat → Bool) (a : Nat) : List Nat → List Nat × Bool
  | [] => ([a], true)
  | b :: rest =>
    if after a b then (b :: (bubblePass after a rest).1, false)
    else (a :: (bubblePass after b rest).1, (bubblePass after b rest).2)

/-- The loop `while (!sorted)` of `connectEdges`. -/
def stabilize (after : Nat → Nat → Bool) : Nat → List Nat → Option (List Nat)
  | 0, _ => none
  | _ + 1, [] => some []
  | fuel + 1, a :: rest =>
    if (bubblePass after a rest).2 then some (bubblePass after a rest).1
    else stabilize after fuel (bubblePass after a rest).1

/-- One iteration of the loop that assigns `pos`. -/
def assignPosStep (r : List Nat) (evs : List SweepEvent) (i : Nat) : List SweepEvent :=
  let e := r.getD i 0
  let a := modEv evs e (fun x => { x with pos := i })
  if !(getEv a e).left then
    let o := (getEv a e).otherEvent
    let pe := (getEv a e).pos
    let po := (getEv a o).pos
    modEv (modEv a e (fun x => { x with pos := po })) o (fun x => { x with pos := pe })
  else a

/-- The loop that assigns `pos`. -/
def assignPos (r : List Nat) (evs : List SweepEvent) : List SweepEvent :=
  (List.range r.length).foldl (assignPosStep r) evs

/-- The first `while` of `nextPos`, at index `newPos` with `k` indices left
before the end of the array; `none` when the loop ends without a return. -/
def nextPosForward (r : List Nat) (evs : List SweepEvent) (processed : List Bool) (pt : Point_2) :
    Nat → Nat → Option Nat
  | _, 0 => none
  | newPos, k + 1 =>
    if (getEv evs (r.getD newPos 0)).point = pt then
      if !processed.getD newPos false then some newPos
      else nextPosForward r evs processed pt (newPos + 1) k
    else none

/-- The second `while` of `nextPos`, started at `newPos = n - 1`; `none` when it
runs below index zero. -/
def nextPosBackward (processed : List Bool) : Nat → Option Nat
  | 0 => none
  | n + 1 => if processed.getD n false then nextPosBackward processed n else some n

/-- Member `nextPos`. -/
def nextPos (pos : Nat) (r : List Nat) (evs : List SweepEvent) (processed : List Bool) : Option Nat :=
  match nextPosForward r evs processed (getEv evs (r.getD pos 0)).point (pos + 1)
      (r.length - (pos + 1)) with
  | some n => some n
  | none => nextPosBackward processed pos

/-- Write `v` at index `i`; `none` outside the array. -/
def setAt {α : Type} (l : List α) (i : Nat) (v : α) : Option (List α) :=
  if i < l.length then some (l.set i v) else none

/-- Read index `i`; `none` outside the array, also for a negative index. -/
def getAt {α : Type} (l : List α) (i : Int) : Option α :=
  if 0 ≤ i then l.get? i.toNat else none

/-- Apply `f` to contour `i` of the polygon; `none` outside the array. -/
def modContour (p : Polygon) (i : Int) (f : Contour → Contour) : Option Polygon :=
  match getAt p.contours i with
  | some c => some { contours := p.contours.set i.toNat (f c) }
  | none => none

/-- The head of one iteration of the contour loop of `connectEdges`: the new
contour is pushed and its nesting is decided from `prevInResult` of the start
event `e`. Returns the contour id with the new locals. -/
def startContour (c : ConnectState) (e : Nat) : Option (Nat × ConnectState) :=
  let evs := c.s.eventHolder
  let res := c.s.result.push_back Contour.empty
  let contourId := res.ncontours - 1
  let depth := c.depth ++ [0]
  let holeOf := c.holeOf ++ [-1]
  match (getEv evs e).prevInResult with
  | none => some (contourId, { c with s := { c.s with result := res }, depth := depth, holeOf := holeOf })
  | some pir =>
    let lowerContourId := (getEv evs pir).contourId
    if !(getEv evs pir).resultInOut then
      match modContour res lowerContourId (fun k => k.addHole contourId),
          setAt holeOf contourId (lowerContourId : Int), getAt depth lowerContourId with
      | some res1, some holeOf1, some d =>
        match setAt depth contourId (d + 1), modContour res1 contourId (fun k => k.setExternal false) with
        | some depth1, some res2 =>
          some (contourId, { c with s := { c.s with result := res2 }, depth := depth1, holeOf := holeOf1 })
        | _, _ => none
      | _, _, _ => none
    else
      match getAt res.contours lowerContourId with
      | none => none
      | some lower =>
        if !lower.external then
          match getAt holeOf lowerContourId, getAt depth lowerContourId with
          | some h, some d =>
            match modContour res h (fun k => k.addHole contourId), setAt holeOf contourId h,
                setAt depth contourId d with
            | some res1, some holeOf1, some depth1 =>
              match modContour res1 contourId (fun k => k.setExternal false) with
              | some res2 =>
                some (contourId,
                  { c with s := { c.s with result := res2 }, depth := depth1, holeOf := holeOf1 })
              | none => none
            | _, _, _ => none
          | _, _ => none
        else
          some (contourId, { c with s := { c.s with result := res }, depth := depth, holeOf := holeOf })

/-- The statements that record, for the event at `resultEvents[pos]`, the
contour and the direction in which its edge is walked. -/
def markWalked (evs : List SweepEvent) (e contourId : Nat) : List SweepEvent :=
  if (getEv evs e).left then
    modEv (modEv evs e (fun x => { x with resultInOut := false })) e
      (fun x => { x with contourId := contourId })
  else
    modEv (modEv evs (getEv evs e).otherEvent (fun x => { x with resultInOut := true }))
      (getEv (modEv evs (getEv evs e).otherEvent (fun x => { x with resultInOut := true })) e).otherEvent
      (fun x => { x with contourId := contourId })

/-- The loop `while (resultEvents[pos]->otherEvent->point != initial)`; returns
the final `pos`. -/
def walkContour (r : List Nat) (initial : Point_2) (contourId : Nat) :
    Nat → Nat → ConnectState → Option (Nat × ConnectState)
  | 0, _, _ => none
  | fuel + 1, pos, c =>
    match r.get? pos with
    | none => none
    | some e =>
      if otherPoint c.s.eventHolder e ≠ initial then
        match setAt c.processed pos true with
        | none => none
        | some processed1 =>
          let evs1 := markWalked c.s.eventHolder e contourId
          let pos1 := (getEv evs1 e).pos
          match setAt processed1 pos1 true, r.get? pos1 with
          | some processed2, some e1 =>
            match modContour c.s.result contourId (fun k => k.add (getEv evs1 e1).point),
                nextPos pos1 r evs1 processed2 with
            | some res1, some pos2 =>
              walkContour r initial contourId fuel pos2
                { c with s := { c.s with eventHolder := evs1, result := res1 }, processed := processed2 }
            | _, _ => none
          | _, _ => none
      else some (pos, c)

/-- One iteration of the contour loop of `connectEdges`, for index `i`. -/
def contourStep (r : List Nat) (fuel : Nat) (c : ConnectState) (i : Nat) : Option ConnectState :=
  if c.processed.getD i false then some c
  else
    match startContour c (r.getD i 0) with
    | none => none
    | some (contourId, c1) =>
      let initial := (getEv c1.s.eventHolder (r.getD i 0)).point
      match modContour c1.s.result contourId (fun k => k.add initial) with
      | none => none
      | some res1 =>
        match walkContour r initial contourId fuel i { c1 with s := { c1.s with result := res1 } } with
        | none => none
        | some (pos, c2) =>
          let e := r.getD pos 0
          let evs := c2.s.eventHolder
          match setAt c2.processed (getEv evs e).pos true with
          | none => none
          | some processed1 =>
            match setAt processed1 pos true with
            | none => none
            | some processed2 =>
              let evs1 := modEv evs (getEv evs e).otherEvent (fun x => { x with resultInOut := true })
              let evs2 := modEv evs1 (getEv evs1 e).otherEvent (fun x => { x with contourId := contourId })
              match getAt c2.depth contourId with
              | none => none
              | some d =>
                let res2 :=
                  if d % 2 ≠ 0 then modContour c2.s.result contourId Contour.changeOrientation
                  else some c2.s.result
                match res2 with
                | none => none
                | some res3 =>
                  some { c2 with s := { c2.s with eventHolder := evs2, result := res3 },
                                 processed := processed2 }

/-- The contour loop of `connectEdges` over the indices `is`. -/
def contourLoop (r : List Nat) (fuel : Nat) : List Nat → ConnectState → Option ConnectState
  | [], c => some c
  | i :: is, c =>
    match contourStep r fuel c i with
    | none => none
    | some c1 => contourLoop r fuel is c1

/-- The array `resultEvents` after the first two loops of `connectEdges`. -/
def resultEventsOf (P : Primitives) (fuel : Nat) (s : BooleanOpImp) : Option (List Nat) :=
  stabilize (P.sec s.eventHolder) fuel (s.sortedEvents.filter (inResultEvents s.eventHolder))

/-- Member `connectEdges`, with its locals at the end. -/
def connectEdgesLocals (P : Primitives) (fuel : Nat) (s : BooleanOpImp) : Option ConnectState :=
  match resultEventsOf P fuel s with
  | none => none
  | some r =>
    contourLoop r fuel (List.range r.length)
      { s := { s with eventHolder := assignPos r s.eventHolder },
        processed := List.replicate r.length false, depth := [], holeOf := [] }

/-- Member `connectEdges`. -/
def connectEdges (P : Primitives) (fuel : Nat) (s : BooleanOpImp) : Option BooleanOpImp :=
  (connectEdgesLocals P fuel s).map (fun c => c.s)

/-! ## The sweep -/

/-- The two nested loops of `run` that register the edges of one polygon. -/
def processPolygon (P : Primitives) (s : BooleanOpImp) (pol : Polygon) (pt : PolygonType) :
    BooleanOpImp :=
  pol.contours.foldl
    (fun st c => (List.range c.nvertices).foldl (fun st2 j => processSegment P st2 (c.segment j) pt) st)
    s

/-- The branch `if (se->left)` of the main loop of `run`; `none` when an
assertion fails. -/
def processLeft (P : Primitives) (s : BooleanOpImp) (se : Nat) : Option BooleanOpImp :=
  let ins := slInsert (SegmentComp P s.eventHolder) se none s.sl
  let it := ins.2
  let s1 := { s with sl := ins.1,
                     eventHolder := modEv s.eventHolder se (fun e => { e with posSL := some it }) }
  let idx := s1.sl.indexOf it
  let prev := slPrev s1.sl idx
  let next := slNext s1.sl idx
  let s2 := computeFields s1 se prev
  let s3 : Option BooleanOpImp :=
    match next with
    | none => some s2
    | some n =>
      match possibleIntersection P s2 se n with
      | (_, none) => none
      | (t, some code) =>
        if code = 2 then some (computeFields (computeFields t se prev) n (some it)) else some t
  match s3 with
  | none => none
  | some s4 =>
    match prev with
    | none => some s4
    | some p =>
      match possibleIntersection P s4 p se with
      | (_, none) => none
      | (t, some code) =>
        if code = 2 then
          some (computeFields (computeFields t p (slPrev t.sl (idx - 1))) se prev)
        else some t

/-- The branch `else` of the main loop of `run`, for a right event; `none` when
the iterator `posSL` is not valid or an assertion fails. -/
def processRight (P : Primitives) (s : BooleanOpImp) (se0 : Nat) : Option BooleanOpImp :=
  let se := (getEv s.eventHolder se0).otherEvent
  match (getEv s.eventHolder se).posSL with
  | none => none
  | some it =>
    let idx := s.sl.indexOf it
    if idx < s.sl.length then
      let prev := slPrev s.sl idx
      let next := slNext s.sl idx
      let s1 := { s with sl := s.sl.eraseIdx idx }
      match prev, next with
      | some p, some n =>
        match possibleIntersection P s1 p n with
        | (_, none) => none
        | (t, some _) => some t
      | _, _ => some s1
    else none

/-- The loop `while (! eq.empty ())` of `run`. It returns the state in which
`connectEdges` is called: at the early exit of the loop or when the queue is
empty. -/
def sweepLoop (P : Primitives) (MINMAXX subjectXmax : ℚ) : Nat → BooleanOpImp → Option BooleanOpImp
  | 0, _ => none
  | fuel + 1, s =>
    match s.eq with
    | [] => some s
    | se :: rest =>
      if (s.operation = .INTERSECTION ∧ (getEv s.eventHolder se).point.x > MINMAXX) ∨
          (s.operation = .DIFFERENCE ∧ (getEv s.eventHolder se).point.x > subjectXmax) then
        some s
      else
        let s1 := { s with sortedEvents := s.sortedEvents ++ [se], eq := rest }
        match (if (getEv s1.eventHolder se).left then processLeft P s1 se else processRight P s1 se) with
        | none => none
        | some s2 => sweepLoop P MINMAXX subjectXmax fuel s2

/-- The part of `run` between the test of the trivial cases and the call of
`connectEdges`: the edges are registered and the plane is swept. -/
def sweep (P : Primitives) (fuel : Nat) (s : BooleanOpImp) : Option BooleanOpImp :=
  let subjectBB := P.bbox s.subject
  let clippingBB := P.bbox s.clipping
  let MINMAXX := Min.min subjectBB.xmax clippingBB.xmax
  let s1 := processPolygon P s s.subject .SUBJECT
  let s2 := processPolygon P s1 s1.clipping .CLIPPING
  sweepLoop P MINMAXX subjectBB.xmax fuel s2

/-- Member `run`; `fuel` bounds the iterations of each loop. -/
def run (P : Primitives) (fuel : Nat) (s : BooleanOpImp) : Option BooleanOpImp :=
  let t := trivialOperation s (P.bbox s.subject) (P.bbox s.clipping)
  if t.2 then some t.1
  else
    match sweep P fuel t.1 with
    | none => none
    | some s3 => connectEdges P fuel s3

/-- The entry point: the operation on `subj` and `clip`, writing to `res`. -/
def compute (P : Primitives) (fuel : Nat) (subj clip res : Polygon) (op : BooleanOpType) :
    Option Polygon :=
  (run P fuel (BooleanOpImp.new subj clip res op)).map (fun s => s.result)

/-! ## Exact primitives

The primitives of the header and of the geometry layer, in exact arithmetic. -/

/-- Modelled from the spec: `signedArea` is not among the sources; section 6:
"sign of twice the signed triangle area, positive when `r` is left of the
directed line `p→q`". -/
def signedArea (p q r : Point_2) : ℚ :=
  (p.x - r.x) * (q.y - r.y) - (q.x - r.x) * (p.y - r.y)

/-- Modelled from the spec: `SweepEvent::below` is declared in the header, which
is not among the sources: the segment of the event is below the point `p`. -/
def below (evs : List SweepEvent) (e : Nat) (p : Point_2) : Bool :=
  if (getEv evs e).left then decide (signedArea (getEv evs e).point (otherPoint evs e) p > 0)
  else decide (signedArea (otherPoint evs e) (getEv evs e).point p > 0)

/-- Modelled from the spec: `SweepEvent::above` is declared in the header; the
negation of `below`. -/
def above (evs : List SweepEvent) (e : Nat) (p : Point_2) : Bool := !below evs e p

/-- Modelled from the spec: `SweepEventComp` is declared in the header, which is
not among the sources. Section 4.1: ascending x, then ascending y; at one point a
right endpoint before a left endpoint, then the cross-product test on the other
endpoints (the lower segment first), then the polygon (SUBJECT first). True when
`e1` is processed after `e2`. -/
def SweepEventComp (evs : List SweepEvent) (e1 e2 : Nat) : Bool :=
  if (getEv evs e1).point.x > (getEv evs e2).point.x then true
  else if (getEv evs e2).point.x > (getEv evs e1).point.x then false
  else if (getEv evs e1).point.y ≠ (getEv evs e2).point.y then
    decide ((getEv evs e1).point.y > (getEv evs e2).point.y)
  else if (getEv evs e1).left ≠ (getEv evs e2).left then (getEv evs e1).left
  else if signedArea (getEv evs e1).point (otherPoint evs e1) (otherPoint evs e2) ≠ 0 then
    above evs e1 (otherPoint evs e2)
  else PolygonType.lt (getEv evs e2).pol (getEv evs e1).pol

/-- Modelled from the spec: `findIntersection` is not among the sources; section
6: "`intersect(segmentA, segmentB) -> 0 | (1, point) | (2, point, point)`", 2
meaning collinear overlap. The exact intersection of two segments, the points
expressed along the first segment. -/
def findIntersection (seg0 seg1 : Segment_2) : Nat × Point_2 × Point_2 :=
  let p0 := seg0.source
  let d0x := seg0.target.x - p0.x
  let d0y := seg0.target.y - p0.y
  let p1 := seg1.source
  let d1x := seg1.target.x - p1.x
  let d1y := seg1.target.y - p1.y
  let ex := p1.x - p0.x
  let ey := p1.y - p0.y
  let kross := d0x * d1y - d0y * d1x
  if kross ≠ 0 then
    let u := (ex * d1y - ey * d1x) / kross
    let t := (ex * d0y - ey * d0x) / kross
    if u < 0 ∨ u > 1 ∨ t < 0 ∨ t > 1 then (0, p0, p0)
    else (1, ⟨p0.x + u * d0x, p0.y + u * d0y⟩, p0)
  else if ex * d0y - ey * d0x ≠ 0 then (0, p0, p0)
  else
    let sqrLen0 := d0x * d0x + d0y * d0y
    let s0 := (d0x * ex + d0y * ey) / sqrLen0
    let s1 := s0 + (d0x * d1x + d0y * d1y) / sqrLen0
    let smin := Min.min s0 s1
    let smax := Max.max s0 s1
    if 1 < smin ∨ 0 > smax then (0, p0, p0)
    else if 1 > smin then
      if 0 < smax then
        let w0 := Max.max 0 smin
        let w1 := Min.min 1 smax
        (2, ⟨p0.x + w0 * d0x, p0.y + w0 * d0y⟩, ⟨p0.x + w1 * d0x, p0.y + w1 * d0y⟩)
      else (1, p0, p0)
    else (1, ⟨p0.x + d0x, p0.y + d0y⟩, p0)

/-- The smallest and the largest element of a list of numbers, `0` for none. -/
def minOf (l : List ℚ) : ℚ := l.foldl Min.min (l.headD 0)

/-- The largest element of a list of numbers, `0` for none. -/
def maxOf (l : List ℚ) : ℚ := l.foldl Max.max (l.headD 0)

/-- All boundary points of a polygon. -/
def Polygon.allPoints (p : Polygon) : List Point_2 := (p.contours.map (fun c => c.points)).flatten

/-- Modelled from the spec: `Polygon::bbox` is not among the sources; section 6:
"bounding box". The box of all boundary points. -/
def bbox (p : Polygon) : Bbox_2 :=
  { xmin := minOf (p.allPoints.map (fun q => q.x)), ymin := minOf (p.allPoints.map (fun q => q.y)),
    xmax := maxOf (p.allPoints.map (fun q => q.x)), ymax := maxOf (p.allPoints.map (fun q => q.y)) }

/-- The exact primitives. -/
def exact : Primitives :=
  { signedArea := signedArea, findIntersection := findIntersection, bbox := bbox,
    sec := SweepEventComp, below := below, above := above }

/-- A contour with the given boundary and no holes. -/
def ring (pts : List (ℚ × ℚ)) : Contour :=
  { points := pts.map (fun p => ⟨p.1, p.2⟩), holes := [], external := true }

/-! ## The polygons of the scenarios -/

/-- The square (0,0)-(4,4). -/
def squareA : Polygon := ⟨[ring [(0, 0), (4, 0), (4, 4), (0, 4)]]⟩

/-- The square (2,2)-(6,6). -/
def squareB : Polygon := ⟨[ring [(2, 2), (6, 2), (6, 6), (2, 6)]]⟩

/-- The polygon without contours. -/
def emptyPolygon : Polygon := ⟨[]⟩

/-- The square (0,0)-(10,10) with the square hole (3,3)-(7,7), the hole listed
counter-clockwise. -/
def holedSquare : Polygon :=
  ⟨[ring [(0, 0), (10, 0), (10, 10), (0, 10)], ring [(3, 3), (7, 3), (7, 7), (3, 7)]]⟩

/-- The same polygon with the hole listed clockwise. -/
def holedSquareCW : Polygon :=
  ⟨[ring [(0, 0), (10, 0), (10, 10), (0, 10)], ring [(3, 3), (3, 7), (7, 7), (7, 3)]]⟩

/-- The square (3,3)-(7,7). -/
def innerSquare : Polygon := ⟨[ring [(3, 3), (7, 3), (7, 7), (3, 7)]]⟩

/-- An arena with two left events of different polygons, paired with themselves:
a subject event on a vertical segment and a clipping event. -/
def twoEvents : List SweepEvent :=
  [{ SweepEvent.new true ⟨0, 0⟩ 0 .SUBJECT .NORMAL with inOut := true },
   SweepEvent.new true ⟨0, 1⟩ 1 .CLIPPING .NORMAL]

/-! ## Properties of the result -/

/-- The nesting data of a polygon: the hole list and the external flag of each
contour. -/
def Polygon.nesting (p : Polygon) : List (List Nat × Bool) :=
  p.contours.map (fun c => (c.holes, c.external))

/-- The hole lists, the external flags and the vectors `depth` and `holeOf` agree:
a contour is external exactly when its depth is 0, exactly when its `holeOf` is
-1; a contour that is not external is named in the hole list of the contour
`holeOf` gives for it; every id in the hole list of contour `k` names a contour
that is not external and whose `holeOf` is `k`. -/
def NestingOK (ng : List (List Nat × Bool)) (depth holeOf : List Int) : Prop :=
  depth.length = ng.length ∧ holeOf.length = ng.length ∧
  ∀ (k : Nat) (hs : List Nat) (e : Bool) (d h : Int),
    ng[k]? = some (hs, e) → depth[k]? = some d → holeOf[k]? = some h →
    0 ≤ d ∧ (e = true ↔ d = 0) ∧ (e = true ↔ h = -1) ∧
    (e = false → 0 ≤ h ∧ ∃ hs' e', ng[h.toNat]? = some (hs', e') ∧ k ∈ hs') ∧
    (∀ x ∈ hs, ∃ hs', ng[x]? = some (hs', false) ∧ holeOf[x]? = some (k : Int))

/-- The triangle (0,0),(12,0),(0,12) with the triangular hole (1,1),(7,1),(1,7). -/
def holedTriangle : Polygon :=
  ⟨[ring [(0, 0), (12, 0), (0, 12)], ring [(1, 1), (7, 1), (1, 7)]]⟩

/-- The triangle (2,2),(4,2),(2,4), inside the hole of `holedTriangle`. -/
def island : Polygon := ⟨[ring [(2, 2), (4, 2), (2, 4)]]⟩

/-- The state in which `run` calls `connectEdges` for the union of `holedTriangle`
and `island` on an empty result. -/
def islandSweep : BooleanOpImp :=
  (sweep exact 100 (BooleanOpImp.new holedTriangle island emptyPolygon .UNION)).getD
    (BooleanOpImp.new emptyPolygon emptyPolygon emptyPolygon .UNION)

/-- The locals of `connectEdges` at its end, called in the state `islandSweep`. -/
def islandLocals : ConnectState :=
  (connectEdgesLocals exact 100 islandSweep).getD
    { s := islandSweep, processed := [], depth := [], holeOf := [] }

/-- Two boundaries are the same cycle of vertices, up to start point and
orientation. -/
def sameCycle (a b : List Point_2) : Bool :=
  decide (a.length = b.length) &&
    (List.range (b.length + 1)).any (fun i => decide (a = b.rotate i) || decide (a = b.reverse.rotate i))

/-- Two polygons have the same contour set, up to contour order, orientation and
start point. -/
def sameContours (p q : Polygon) : Bool :=
  decide (p.contours.length = q.contours.length) &&
    p.contours.all (fun c => q.contours.any (fun d => sameCycle c.points d.points)) &&
    q.contours.all (fun d => p.contours.any (fun c => sameCycle c.points d.points))

/-- The edges of a contour. -/
def Contour.edges (c : Contour) : List Segment_2 := (List.range c.nvertices).map c.segment

/-- The pairs of distinct positions of a list, with the elements there. -/
def pairsOf {α : Type} (l : List α) : List ((Nat × α) × (Nat × α)) :=
  (l.enum.flatMap (fun a => l.enum.map (fun b => (a, b)))).filter (fun ab => decide (ab.1.1 < ab.2.1))

/-- No edge of the contour has equal endpoints. -/
def noZeroLengthEdge (c : Contour) : Bool := c.edges.all (fun e => decide (e.source ≠ e.target))

/-- The contour is simple: two consecutive edges meet in one point, two other
edges do not meet. -/
def simpleContour (c : Contour) : Bool :=
  (pairsOf c.edges).all (fun ab =>
    if ab.1.1 + 1 = ab.2.1 ∨ (ab.1.1 = 0 ∧ ab.2.1 + 1 = c.nvertices) then
      decide ((findIntersection ab.1.2 ab.2.2).1 = 1)
    else decide ((findIntersection ab.1.2 ab.2.2).1 = 0))

/-- No two edges of the polygon overlap. -/
def noOverlappingEdges (p : Polygon) : Bool :=
  (pairsOf (p.contours.flatMap Contour.edges)).all (fun ab =>
    decide ((findIntersection ab.1.2 ab.2.2).1 ≠ 2))

/-- The hypotheses on the polygon `A` of the idempotence property. -/
def validForIdempotence (p : Polygon) : Bool :=
  p.contours.all simpleContour && p.contours.all noZeroLengthEdge && noOverlappingEdges p

/-- The triangles (0,0),(4,0),(2,2) and (2,2),(4,4),(0,4), which share the vertex
(2,2) and nothing else. -/
def touchingTriangles : Polygon :=
  ⟨[ring [(0, 0), (4, 0), (2, 2)], ring [(2, 2), (4, 4), (0, 4)]]⟩

/-- The arena of `divideSegment (le, p)` after its two calls of `storeSweepEvent`:
the new right event `r` and the new left event `l` are at the end. -/
def divideBase (evs : List SweepEvent) (le : Nat) (p : Point_2) : List SweepEvent :=
  (evs ++ [SweepEvent.new false p le (getEv evs le).pol .NORMAL]) ++
    [SweepEvent.new true p (getEv evs le).otherEvent (getEv evs le).pol .NORMAL]

/-- The test `sec (l, le->otherEvent)` of `divideSegment (le, p)`: the roles of
the new left event and of the former partner of `le` are swapped. -/
def divideSwaps (P : Primitives) (evs : List SweepEvent) (le : Nat) (p : Point_2) : Bool :=
  P.sec (divideBase evs le p) (evs.length + 1) (getEv evs le).otherEvent

/-- An arena with two equal segments from (0,0) to (4,0): events 0 and 1 are the
left and the right event of the subject's segment, events 2 and 3 those of the
clipping polygon's segment. -/
def overlapArena : List SweepEvent :=
  [SweepEvent.new true ⟨0, 0⟩ 1 .SUBJECT .NORMAL, SweepEvent.new false ⟨4, 0⟩ 0 .SUBJECT .NORMAL,
   SweepEvent.new true ⟨0, 0⟩ 3 .CLIPPING .NORMAL, SweepEvent.new false ⟨4, 0⟩ 2 .CLIPPING .NORMAL]

/-- A state of the operation whose arena is `evs`, everything else empty. -/
def stateOf (evs : List SweepEvent) : BooleanOpImp :=
  { BooleanOpImp.new emptyPolygon emptyPolygon emptyPolygon .UNION with eventHolder := evs }

/-- An arena with two crossing segments: events 0 and 1 are the left and the right
event of the subject's segment from (0,0) to (4,4), events 2 and 3 those of the
clipping polygon's segment from (0,4) to (4,0). -/
def crossArena : List SweepEvent :=
  [SweepEvent.new true ⟨0, 0⟩ 1 .SUBJECT .NORMAL, SweepEvent.new false ⟨4, 4⟩ 0 .SUBJECT .NORMAL,
   SweepEvent.new true ⟨0, 4⟩ 3 .CLIPPING .NORMAL, SweepEvent.new false ⟨4, 0⟩ 2 .CLIPPING .NORMAL]

/-- The sweep order of points: ascending x, then ascending y. -/
def lexLt (p q : Point_2) : Bool :=
  decide (p.x < q.x) || (decide (p.x = q.x) && decide (p.y < q.y))

/-- The events `a` and `b` of the arena are the left and the right event of one
segment of polygon `t` from `pa` to `pb`, each the partner of the other. -/
def IsSegment (evs : List SweepEvent) (a b : Nat) (t : PolygonType) (pa pb : Point_2) : Prop :=
  a < evs.length ∧ b < evs.length ∧ (getEv evs a).left = true ∧ (getEv evs b).left = false ∧
  (getEv evs a).otherEvent = b ∧ (getEv evs b).otherEvent = a ∧
  (getEv evs a).pol = t ∧ (getEv evs b).pol = t ∧
  (getEv evs a).point = pa ∧ (getEv evs b).point = pb

instance (evs : List SweepEvent) (a b : Nat) (t : PolygonType) (pa pb : Point_2) :
    Decidable (IsSegment evs a b t pa pb) := by
  unfold IsSegment
  infer_instance

/-- An arena with two segments on one line that overlap in part: events 0 and 1
are the left and the right event of the subject's segment from (0,0) to (4,0),
events 2 and 3 those of the clipping polygon's segment from (2,0) to (6,0). -/
def shiftedArena : List SweepEvent :=
  [SweepEvent.new true ⟨0, 0⟩ 1 .SUBJECT .NORMAL, SweepEvent.new false ⟨4, 0⟩ 0 .SUBJECT .NORMAL,
   SweepEvent.new true ⟨2, 0⟩ 3 .CLIPPING .NORMAL, SweepEvent.new false ⟨6, 0⟩ 2 .CLIPPING .NORMAL]

/-- The number of pairs of positions of a list whose first element comes after
the second. -/
def inversions (after : Nat → Nat → Bool) : List Nat → Nat
  | [] => 0
  | a :: l => l.countP (fun b => after a b) + inversions after l

/-- A state at the call of `connectEdges`: the two diagonals of `crossArena`, all
events in the result, logged in the order 2, 0, 3, 1. -/
def loggedState : BooleanOpImp :=
  { stateOf (crossArena.map (fun e => { e with inResult := true })) with
    sortedEvents := [2, 0, 3, 1] }

/-- The position of the leading binary digit of `n`, `0` for `n < 2`; `fuel` bounds
the number of halvings. -/
def log2Aux : Nat → Nat → Nat
  | 0, _ => 0
  | fuel + 1, n => if n < 2 then 0 else log2Aux fuel (n / 2) + 1

/-- The exponent `e` with `2 ^ e ≤ a < 2 ^ (e + 1)`, for a positive `a`. -/
def binade (a : ℚ) : ℤ :=
  if (2 : ℚ) ^ ((log2Aux a.num.natAbs a.num.natAbs : ℤ) - (log2Aux a.den a.den : ℤ)) ≤ a then
    (log2Aux a.num.natAbs a.num.natAbs : ℤ) - (log2Aux a.den a.den : ℤ)
  else (log2Aux a.num.natAbs a.num.natAbs : ℤ) - (log2Aux a.den a.den : ℤ) - 1

/-- The integer nearest to `q`, the even one of the two when `q` is half way. -/
def roundHalfEven (q : ℚ) : ℤ :=
  if q - ⌊q⌋ < 1 / 2 then ⌊q⌋
  else if 1 / 2 < q - ⌊q⌋ then ⌊q⌋ + 1
  else if ⌊q⌋ % 2 = 0 then ⌊q⌋ else ⌊q⌋ + 1

/-- Modelled from the spec: section 1 has the operation work "on standard
floating-point coordinates", `double` in the source. The value of double
precision nearest to `q`: 53 binary digits, a tie goes to the even last digit;
the range of the exponent is not bounded. -/
def toDouble (q : ℚ) : ℚ :=
  if q = 0 then 0
  else (roundHalfEven (q / 2 ^ (binade |q| - 52)) : ℚ) * 2 ^ (binade |q| - 52)

/-- Modelled from the spec: `signedArea` is not among the sources; the cross
product of `signedArea` with every difference and product rounded to double
precision. -/
def signedAreaDouble (p q r : Point_2) : ℚ :=
  toDouble (toDouble (toDouble (p.x - r.x) * toDouble (q.y - r.y)) -
    toDouble (toDouble (q.x - r.x) * toDouble (p.y - r.y)))

/-- Modelled from the spec: `SweepEvent::below` on `signedAreaDouble`. -/
def belowDouble (evs : List SweepEvent) (e : Nat) (p : Point_2) : Bool :=
  if (getEv evs e).left then decide (signedAreaDouble (getEv evs e).point (otherPoint evs e) p > 0)
  else decide (signedAreaDouble (otherPoint evs e) (getEv evs e).point p > 0)

/-- Modelled from the spec: `SweepEventComp` on `signedAreaDouble`. -/
def SweepEventCompDouble (evs : List SweepEvent) (e1 e2 : Nat) : Bool :=
  if (getEv evs e1).point.x > (getEv evs e2).point.x then true
  else if (getEv evs e2).point.x > (getEv evs e1).point.x then false
  else if (getEv evs e1).point.y ≠ (getEv evs e2).point.y then
    decide ((getEv evs e1).point.y > (getEv evs e2).point.y)
  else if (getEv evs e1).left ≠ (getEv evs e2).left then (getEv evs e1).left
  else if signedAreaDouble (getEv evs e1).point (otherPoint evs e1) (otherPoint evs e2) ≠ 0 then
    !belowDouble evs e1 (otherPoint evs e2)
  else PolygonType.lt (getEv evs e2).pol (getEv evs e1).pol

/-- The primitives that `SegmentComp` calls, in double precision; the other two
are the exact ones. -/
def doubleOrder : Primitives :=
  { signedArea := signedAreaDouble, findIntersection := findIntersection, bbox := bbox,
    sec := SweepEventCompDouble, below := belowDouble,
    above := fun evs e p => !belowDouble evs e p }

/-- An arena with the clipping polygon's segment from (0,0) to (1,0), events 0 and
1, and the subject's segment from (-2^53, 1) to (5,0), events 2 and 3, which
passes above (0,0). -/
def nearArena : List SweepEvent :=
  [SweepEvent.new true ⟨0, 0⟩ 1 .CLIPPING .NORMAL, SweepEvent.new false ⟨1, 0⟩ 0 .CLIPPING .NORMAL,
   SweepEvent.new true ⟨-9007199254740992, 1⟩ 3 .SUBJECT .NORMAL,
   SweepEvent.new false ⟨5, 0⟩ 2 .SUBJECT .NORMAL]

/-- The invariant of the sweep on the field `prevInResult`: it is empty in every
event that is not in the log `sortedEvents`; the events of the status line are in
the log; the events of the queue are distinct events of the arena that are not in
the log; the events of the log are events of the arena. -/
def Unwritten (s : BooleanOpImp) : Prop :=
  (∀ e, e ∉ s.sortedEvents → (getEv s.eventHolder e).prevInResult = none) ∧
  (∀ e, e ∈ s.sl → e ∈ s.sortedEvents) ∧
  s.eq.Nodup ∧
  (∀ e, e ∈ s.eq → e < s.eventHolder.length ∧ e ∉ s.sortedEvents) ∧
  (∀ e, e ∈ s.sortedEvents → e < s.eventHolder.length)

/-- A step from the state `s` to the state `t` that leaves the status line and the
log as they are and keeps the invariant `Unwritten`. -/
def KeepsUnwritten (s t : BooleanOpImp) : Prop :=
  (Unwritten s → Unwritten t) ∧ t.sl = s.sl ∧ t.sortedEvents = s.sortedEvents

/-- The states of `run` at the head of the loop `while (! eq.empty ())` that
starts in the state `s0`: `s0` itself, and the state after one more iteration
that does not leave the loop; `m` is `MINMAXX` and `x` is `subjectBB.xmax ()`. -/
inductive AtLoopHead (P : Primitives) (m x : ℚ) (s0 : BooleanOpImp) : BooleanOpImp → Prop
  | start : AtLoopHead P m x s0 s0
  | next (s t : BooleanOpImp) (se : Nat) (rest : List Nat) :
      AtLoopHead P m x s0 s → s.eq = se :: rest →
      ¬((s.operation = .INTERSECTION ∧ (getEv s.eventHolder se).point.x > m) ∨
        (s.operation = .DIFFERENCE ∧ (getEv s.eventHolder se).point.x > x)) →
      (if (getEv s.eventHolder se).left then
          processLeft P { s with sortedEvents := s.sortedEvents ++ [se], eq := rest } se
        else processRight P { s with sortedEvents := s.sortedEvents ++ [se], eq := rest } se) =
        some t →
      AtLoopHead P m x s0 t

/-! ## Theorems -/

/-- C1: with subject the square (0,0)-(4,4) and clip the square (2,2)-(6,6), the
operation INTERSECTION on an empty result returns one contour, whose boundary is
the four vertices (2,2), (4,2), (4,4), (2,4) in this order, the first vertex not
repeated at the end. -/
theorem scenario1_intersection :
    compute exact 100 squareA squareB emptyPolygon .INTERSECTION =
      some ⟨[ring [(2, 2), (4, 2), (4, 4), (2, 4)]]⟩ := by
  decide!

/-- C2: when one of the polygons has no contours or the bounding boxes do not
overlap, `run` returns with the arena, the queue, the status line and the log
untouched; the result is the subject for DIFFERENCE and the contours of the
subject followed by those of the clipping polygon for UNION and XOR. -/
theorem run_trivial (P : Primitives) (fuel : Nat) (s : BooleanOpImp)
    (h : s.subject.ncontours = 0 ∨ s.clipping.ncontours = 0 ∨
      (P.bbox s.subject).xmin > (P.bbox s.clipping).xmax ∨
      (P.bbox s.clipping).xmin > (P.bbox s.subject).xmax ∨
      (P.bbox s.subject).ymin > (P.bbox s.clipping).ymax ∨
      (P.bbox s.clipping).ymin > (P.bbox s.subject).ymax) :
    ∃ t, run P fuel s = some t ∧
      t.eventHolder = s.eventHolder ∧ t.eq = s.eq ∧ t.sl = s.sl ∧ t.sortedEvents = s.sortedEvents ∧
      (s.operation = .DIFFERENCE → t.result = s.subject) ∧
      (s.operation = .UNION ∨ s.operation = .XOR →
        t.result.contours = s.subject.contours ++ s.clipping.contours) := by
  obtain ⟨subj, clip, res, op, eq, sl, evs, sorted⟩ := s
  obtain ⟨sc⟩ := subj
  obtain ⟨cc⟩ := clip
  simp only [Polygon.ncontours] at h
  by_cases h1 : sc.length * cc.length = 0
  · rcases Nat.mul_eq_zero.mp h1 with h0 | h0
    · have hs : sc = [] := List.length_eq_zero.mp h0
      subst hs
      cases op <;> simp [run, trivialOperation, Polygon.ncontours]
    · have hc : cc = [] := List.length_eq_zero.mp h0
      subst hc
      cases op <;> simp [run, trivialOperation, Polygon.ncontours] <;> split <;> simp_all
  · have hs : sc.length ≠ 0 := fun h0 => h1 (by simp [h0])
    have hc : cc.length ≠ 0 := fun h0 => h1 (by simp [h0])
    have h2 : (P.bbox ⟨sc⟩).xmin > (P.bbox ⟨cc⟩).xmax ∨ (P.bbox ⟨cc⟩).xmin > (P.bbox ⟨sc⟩).xmax ∨
        (P.bbox ⟨sc⟩).ymin > (P.bbox ⟨cc⟩).ymax ∨ (P.bbox ⟨cc⟩).ymin > (P.bbox ⟨sc⟩).ymax := by
      rcases h with h | h | h
      · exact absurd h hs
      · exact absurd h hc
      · exact h
    cases op <;> simp [run, trivialOperation, Polygon.ncontours, h1, h2, Polygon.join]

/-- An instance of `run_trivial`: an empty subject, UNION. -/
theorem run_trivial_witness :
    ∃ t, run exact 0 (BooleanOpImp.new emptyPolygon squareB emptyPolygon .UNION) = some t ∧
      t.eventHolder = [] ∧ t.eq = [] ∧ t.sl = [] ∧ t.sortedEvents = [] ∧
      (BooleanOpType.UNION = .DIFFERENCE → t.result = emptyPolygon) ∧
      (BooleanOpType.UNION = .UNION ∨ BooleanOpType.UNION = .XOR →
        t.result.contours = emptyPolygon.contours ++ squareB.contours) :=
  run_trivial exact 0 (BooleanOpImp.new emptyPolygon squareB emptyPolygon .UNION) (Or.inl rfl)

/-- C3, refuted as stated: the subject has no contours, the result polygon holds
the square (0,0)-(4,4) before the call, and it still holds it after `run` with
INTERSECTION. -/
theorem run_trivial_intersection_counterexample :
    emptyPolygon.ncontours = 0 ∧
      compute exact 0 emptyPolygon squareB squareA .INTERSECTION = some squareA ∧
      squareA.ncontours ≠ 0 := by
  decide!

/-- C3, amended: when one of the polygons has no contours or the bounding boxes
do not overlap, `run` with INTERSECTION returns and leaves the result polygon as
it was before the call; it has no contours when it had none before. -/
theorem run_trivial_intersection (P : Primitives) (fuel : Nat) (s : BooleanOpImp)
    (hop : s.operation = .INTERSECTION)
    (h : s.subject.ncontours = 0 ∨ s.clipping.ncontours = 0 ∨
      (P.bbox s.subject).xmin > (P.bbox s.clipping).xmax ∨
      (P.bbox s.clipping).xmin > (P.bbox s.subject).xmax ∨
      (P.bbox s.subject).ymin > (P.bbox s.clipping).ymax ∨
      (P.bbox s.clipping).ymin > (P.bbox s.subject).ymax) :
    ∃ t, run P fuel s = some t ∧ t.result = s.result ∧
      (s.result.ncontours = 0 → t.result.ncontours = 0) := by
  refine ⟨s, ?_, rfl, fun h0 => h0⟩
  by_cases h1 : s.subject.ncontours * s.clipping.ncontours = 0
  · simp [run, trivialOperation, h1, hop]
  · have hs : s.subject.ncontours ≠ 0 := fun h0 => h1 (by simp [h0])
    have hc : s.clipping.ncontours ≠ 0 := fun h0 => h1 (by simp [h0])
    have h2 : (P.bbox s.subject).xmin > (P.bbox s.clipping).xmax ∨
        (P.bbox s.clipping).xmin > (P.bbox s.subject).xmax ∨
        (P.bbox s.subject).ymin > (P.bbox s.clipping).ymax ∨
        (P.bbox s.clipping).ymin > (P.bbox s.subject).ymax := by
      rcases h with h | h | h
      · exact absurd h hs
      · exact absurd h hc
      · exact h
    simp [run, trivialOperation, h1, h2, hop]

/-- An instance of `run_trivial_intersection`: an empty subject and an empty
result. -/
theorem run_trivial_intersection_witness :
    ∃ t, run exact 0 (BooleanOpImp.new emptyPolygon squareB emptyPolygon .INTERSECTION) = some t ∧
      t.result = emptyPolygon ∧ (emptyPolygon.ncontours = 0 → t.result.ncontours = 0) :=
  run_trivial_intersection exact 0 (BooleanOpImp.new emptyPolygon squareB emptyPolygon .INTERSECTION)
    rfl (Or.inl rfl)

/-- The overlap part of `possibleIntersection` always returns a code. -/
theorem overlapCase_returns (P : Primitives) (s : BooleanOpImp) (le1 le2 : Nat) :
    (overlapCase P s le1 le2).2 ≠ none := by
  unfold overlapCase overlapOrder
  by_cases h1 : (getEv s.eventHolder le1).point = (getEv s.eventHolder le2).point <;>
  by_cases h2 : otherPoint s.eventHolder le1 = otherPoint s.eventHolder le2 <;>
  by_cases h3 : P.sec s.eventHolder le1 le2 = true <;>
  by_cases h4 : P.sec s.eventHolder (getEv s.eventHolder le1).otherEvent
      (getEv s.eventHolder le2).otherEvent = true <;>
  simp [h1, h2, h3, h4] <;> split_ifs <;> simp

/-- C4: `possibleIntersection` fails exactly when the intersection primitive
reports 2 points and both events belong to the same polygon, and the state at the
failure is the state before the call: no event created or changed, nothing
written to the result. -/
theorem possibleIntersection_fails_iff (P : Primitives) (s : BooleanOpImp) (le1 le2 : Nat) :
    ((possibleIntersection P s le1 le2).2 = none ↔
      ((P.findIntersection (segment s.eventHolder le1) (segment s.eventHolder le2)).1 = 2 ∧
        (getEv s.eventHolder le1).pol = (getEv s.eventHolder le2).pol)) ∧
    ((possibleIntersection P s le1 le2).2 = none → (possibleIntersection P s le1 le2).1 = s) := by
  have hov := overlapCase_returns P s le1 le2
  unfold possibleIntersection
  simp only []
  by_cases h0 : (P.findIntersection (segment s.eventHolder le1) (segment s.eventHolder le2)).1 = 0
  · rw [if_pos h0]
    simp [h0]
  rw [if_neg h0]
  by_cases h1 : (P.findIntersection (segment s.eventHolder le1) (segment s.eventHolder le2)).1 = 1 ∧
      ((getEv s.eventHolder le1).point = (getEv s.eventHolder le2).point ∨
        otherPoint s.eventHolder le1 = otherPoint s.eventHolder le2)
  · rw [if_pos h1]
    simp [h1.1]
  rw [if_neg h1]
  by_cases h2 : (P.findIntersection (segment s.eventHolder le1) (segment s.eventHolder le2)).1 = 2 ∧
      (getEv s.eventHolder le1).pol = (getEv s.eventHolder le2).pol
  · rw [if_pos h2]
    simp [h2.1, h2.2]
  rw [if_neg h2]
  by_cases h3 : (P.findIntersection (segment s.eventHolder le1) (segment s.eventHolder le2)).1 = 1
  · rw [if_pos h3]
    simp [h3]
  rw [if_neg h3]
  exact ⟨⟨fun h => absurd h hov, fun h => absurd h h2⟩, fun h => absurd h hov⟩

/-- C9: the value of `inResult` for each edge type and operation. -/
theorem inResult_table (le : SweepEvent) :
    (le.type = .NORMAL →
      inResult .INTERSECTION le = !le.otherInOut ∧
      inResult .UNION le = le.otherInOut ∧
      (inResult .DIFFERENCE le = true ↔
        (le.pol = .SUBJECT ∧ le.otherInOut = true) ∨ (le.pol = .CLIPPING ∧ le.otherInOut = false)) ∧
      inResult .XOR le = true) ∧
    (le.type = .SAME_TRANSITION →
      ∀ op, (inResult op le = true ↔ op = .INTERSECTION ∨ op = .UNION)) ∧
    (le.type = .DIFFERENT_TRANSITION → ∀ op, (inResult op le = true ↔ op = .DIFFERENCE)) ∧
    (le.type = .NON_CONTRIBUTING → ∀ op, inResult op le = false) := by
  refine ⟨fun h => ?_, fun h op => ?_, fun h op => ?_, fun h op => ?_⟩
  · simp [inResult, h]
  · simp [inResult, h]
  · simp [inResult, h]
  · simp [inResult, h]

theorem length_modEv (evs : List SweepEvent) (i : Nat) (f : SweepEvent → SweepEvent) :
    (modEv evs i f).length = evs.length := by
  simp [modEv]

theorem getEv_modEv (evs : List SweepEvent) (i j : Nat) (f : SweepEvent → SweepEvent) :
    getEv (modEv evs i f) j = if i = j ∧ i < evs.length then f (getEv evs i) else getEv evs j := by
  by_cases h : i = j
  · subst h
    by_cases hl : i < evs.length
    · simp [getEv, modEv, List.getD_eq_getElem?_getD, hl]
    · have hn : evs[i]? = none := List.getElem?_eq_none (Nat.le_of_not_lt hl)
      simp [getEv, modEv, List.getD_eq_getElem?_getD, hl, List.getElem?_set, hn]
  · simp [getEv, modEv, List.getD_eq_getElem?_getD, h, List.getElem?_set]

theorem length_computeInOut (evs : List SweepEvent) (le : Nat) (prev : Option Nat) :
    (computeInOut evs le prev).length = evs.length := by
  cases prev with
  | none => simp [computeInOut, length_modEv]
  | some p =>
    simp only [computeInOut]
    split_ifs <;> simp [length_modEv]

theorem length_computePrevInResult (op : BooleanOpType) (evs : List SweepEvent) (le : Nat)
    (prev : Option Nat) : (computePrevInResult op evs le prev).length = evs.length := by
  cases prev <;> simp [computePrevInResult, length_modEv]

theorem inResult_congr (op : BooleanOpType) (e e' : SweepEvent) (h1 : e.type = e'.type)
    (h2 : e.otherInOut = e'.otherInOut) (h3 : e.pol = e'.pol) : inResult op e = inResult op e' := by
  simp [inResult, h1, h2, h3]

/-- C10: the fields `computeFields` gives to a left event `le` of the arena. -/
theorem computeFields_fields (s : BooleanOpImp) (le : Nat) (prev : Option Nat)
    (hle : le < s.eventHolder.length) :
    (prev = none →
      (getEv (computeFields s le prev).eventHolder le).inOut = false ∧
      (getEv (computeFields s le prev).eventHolder le).otherInOut = true) ∧
    (∀ p, prev = some p → (getEv s.eventHolder le).pol = (getEv s.eventHolder p).pol →
      (getEv (computeFields s le prev).eventHolder le).inOut = !(getEv s.eventHolder p).inOut ∧
      (getEv (computeFields s le prev).eventHolder le).otherInOut =
        (getEv s.eventHolder p).otherInOut) ∧
    (∀ p, prev = some p → (getEv s.eventHolder le).pol ≠ (getEv s.eventHolder p).pol →
      (getEv (computeFields s le prev).eventHolder le).inOut = !(getEv s.eventHolder p).otherInOut ∧
      (getEv (computeFields s le prev).eventHolder le).otherInOut =
        (if vertical s.eventHolder p then !(getEv s.eventHolder p).inOut
         else (getEv s.eventHolder p).inOut)) ∧
    (getEv (computeFields s le prev).eventHolder le).inResult =
      inResult s.operation (getEv (computeFields s le prev).eventHolder le) := by
  refine ⟨?_, ?_, ?_, ?_⟩
  · intro h
    subst h
    simp [computeFields, computeInOut, computePrevInResult, getEv_modEv, length_modEv, hle]
  · intro p h hp
    subst h
    by_cases hpl : le = p
    · subst hpl
      simp [computeFields, computeInOut, computePrevInResult, getEv_modEv, length_modEv, hle]
    · simp [computeFields, computeInOut, computePrevInResult, getEv_modEv, length_modEv, hle, hp, hpl]
  · intro p h hp
    subst h
    have hpl : le ≠ p := fun h => hp (by rw [h])
    simp [computeFields, computeInOut, computePrevInResult, getEv_modEv, length_modEv, hle, hp, hpl,
      vertical, otherPoint]
    by_cases hq : le = (getEv s.eventHolder p).otherEvent <;> simp [hq]
  · have hb : le < (computePrevInResult s.operation (computeInOut s.eventHolder le prev) le prev).length := by
      rw [length_computePrevInResult, length_computeInOut]
      exact hle
    simp only [computeFields, getEv_modEv, hb, and_self, if_true]
    exact (inResult_congr _ _ _ rfl rfl rfl).symm

/-- An instance of `computeFields_fields`: the clipping event of `twoEvents` above
the subject event. -/
theorem computeFields_fields_witness :
    (getEv (computeFields { BooleanOpImp.new emptyPolygon emptyPolygon emptyPolygon .UNION with
        eventHolder := twoEvents } 1 (some 0)).eventHolder 1).inOut = true ∧
    (getEv (computeFields { BooleanOpImp.new emptyPolygon emptyPolygon emptyPolygon .UNION with
        eventHolder := twoEvents } 1 (some 0)).eventHolder 1).otherInOut = false :=
  ((computeFields_fields { BooleanOpImp.new emptyPolygon emptyPolygon emptyPolygon .UNION with
      eventHolder := twoEvents } 1 (some 0) (by decide)).2.2.1 0 rfl (by decide))

/-- C6: the square (0,0)-(10,10) with the hole (3,3)-(7,7), minus the square
(3,3)-(7,7), on an empty result: two contours, the external outer square whose
hole list names contour 1, and the non-external square (3,3)-(7,7), each with its
four corners once; the same for either orientation of the hole of the subject. -/
theorem scenario2_difference :
    compute exact 100 holedSquare innerSquare emptyPolygon .DIFFERENCE =
      some ⟨[{ points := [⟨0, 0⟩, ⟨10, 0⟩, ⟨10, 10⟩, ⟨0, 10⟩], holes := [1], external := true },
             { points := [⟨3, 7⟩, ⟨7, 7⟩, ⟨7, 3⟩, ⟨3, 3⟩], holes := [], external := false }]⟩ ∧
    compute exact 100 holedSquareCW innerSquare emptyPolygon .DIFFERENCE =
      some ⟨[{ points := [⟨0, 0⟩, ⟨10, 0⟩, ⟨10, 10⟩, ⟨0, 10⟩], holes := [1], external := true },
             { points := [⟨3, 7⟩, ⟨7, 7⟩, ⟨7, 3⟩, ⟨3, 3⟩], holes := [], external := false }]⟩ := by
  decide!


theorem nest_push {ng : List (List Nat × Bool)} {depth holeOf : List Int}
    (inv : NestingOK ng depth holeOf) :
    NestingOK (ng ++ [([], true)]) (depth ++ [0]) (holeOf ++ [-1]) := by
  obtain ⟨hl1, hl2, hA⟩ := inv
  refine ⟨by simp [hl1], by simp [hl2], ?_⟩
  intro k hs e d h hng hdep hhol
  by_cases hk : k < ng.length
  · rw [List.getElem?_append_left hk] at hng
    rw [List.getElem?_append_left (by omega)] at hdep hhol
    obtain ⟨h1, h2, h3, h4, h5⟩ := hA k hs e d h hng hdep hhol
    refine ⟨h1, h2, h3, ?_, ?_⟩
    · intro he
      obtain ⟨h0, hs', e', hg, hm⟩ := h4 he
      have hlt : h.toNat < ng.length := by
        rcases Nat.lt_or_ge h.toNat ng.length with hh | hh
        · exact hh
        · rw [List.getElem?_eq_none hh] at hg
          cases hg
      exact ⟨h0, hs', e', by rw [List.getElem?_append_left hlt]; exact hg, hm⟩
    · intro x hx
      obtain ⟨hs', hg, hh⟩ := h5 x hx
      have hlt : x < ng.length := by
        rcases Nat.lt_or_ge x ng.length with hh | hh
        · exact hh
        · rw [List.getElem?_eq_none hh] at hg
          cases hg
      exact ⟨hs', by rw [List.getElem?_append_left hlt]; exact hg,
        by rw [List.getElem?_append_left (by omega)]; exact hh⟩
  · have hk2 : ng.length ≤ k := Nat.le_of_not_lt hk
    rw [List.getElem?_append_right hk2] at hng
    rw [List.getElem?_append_right (by omega)] at hdep hhol
    have hk0 : k - ng.length = 0 := by
      rcases Nat.eq_zero_or_pos (k - ng.length) with h0 | h0
      · exact h0
      · rw [List.getElem?_eq_none (by simp; omega)] at hng
        cases hng
    rw [hk0] at hng
    rw [hl1, hk0] at hdep
    rw [hl2, hk0] at hhol
    simp at hng hdep hhol
    obtain ⟨rfl, rfl⟩ := hng
    subst hdep hhol
    simp

theorem getElem?_lt_of_eq_some {α : Type} {l : List α} {k : Nat} {a : α} (h : l[k]? = some a) :
    k < l.length := by
  rcases Nat.lt_or_ge k l.length with hh | hh
  · exact hh
  · rw [List.getElem?_eq_none hh] at h
    cases h

theorem nest_attach {ng ng2 : List (List Nat × Bool)} {depth holeOf : List Int} {n p : Nat}
    {d : Int} {hsn : List Nat}
    (inv : NestingOK ng depth holeOf) (hn : ng.length = n + 1) (hnew : ng[n]? = some (hsn, true))
    (hp : p ≤ n) (hd : 1 ≤ d) (hlen : ng2.length = ng.length)
    (hget : ∀ (k : Nat) (hs : List Nat) (e : Bool), ng[k]? = some (hs, e) →
      ng2[k]? = some (if k = p then hs ++ [n] else hs, if k = n then false else e)) :
    NestingOK ng2 (depth.set n d) (holeOf.set n (p : Int)) := by
  obtain ⟨hl1, hl2, hA⟩ := inv
  refine ⟨by simp [hl1, hlen], by simp [hl2, hlen], ?_⟩
  intro k hs e dk hk hng hdep hhol
  have hklt : k < ng.length := by
    have := getElem?_lt_of_eq_some hng
    omega
  obtain ⟨⟨hs0, e0⟩, h0⟩ : ∃ a, ng[k]? = some a := ⟨ng[k], List.getElem?_eq_getElem hklt⟩
  obtain ⟨d0, hd0⟩ : ∃ a, depth[k]? = some a := ⟨depth[k], List.getElem?_eq_getElem (by omega)⟩
  obtain ⟨g0, hg0⟩ : ∃ a, holeOf[k]? = some a := ⟨holeOf[k], List.getElem?_eq_getElem (by omega)⟩
  obtain ⟨o1, o2, o3, o4, o5⟩ := hA k hs0 e0 d0 g0 h0 hd0 hg0
  have h2 := hget k hs0 e0 h0
  rw [h2] at hng
  simp only [Option.some.injEq, Prod.mk.injEq] at hng
  obtain ⟨hhs, he⟩ := hng
  -- facts about members of the old hole lists
  have hmem : ∀ (j : Nat) (hsj : List Nat) (ej : Bool), ng[j]? = some (hsj, ej) → ∀ x ∈ hsj,
      ∃ hs', ng2[x]? = some (hs', false) ∧ (holeOf.set n (p : Int))[x]? = some (j : Int) := by
    intro j hsj ej hj x hx
    have hjlt : j < ng.length := getElem?_lt_of_eq_some hj
    obtain ⟨_, _, _, _, q5⟩ := hA j hsj ej depth[j] holeOf[j] hj
      (List.getElem?_eq_getElem (by omega)) (List.getElem?_eq_getElem (by omega))
    obtain ⟨hs', hx1, hx2⟩ := q5 x hx
    have hxn : x ≠ n := by
      intro hxn
      rw [hxn, hnew] at hx1
      simp at hx1
    refine ⟨if x = p then hs' ++ [n] else hs', ?_, ?_⟩
    · rw [hget x hs' false hx1]
      simp [hxn]
    · rw [List.getElem?_set]
      simp [Ne.symm hxn, hx2]
  have hnew2 : ∃ hs', ng2[n]? = some (hs', false) := by
    refine ⟨if n = p then hsn ++ [n] else hsn, ?_⟩
    rw [hget n hsn true hnew]
    simp
  have hpn : (holeOf.set n (p : Int))[n]? = some (p : Int) := by
    rw [List.getElem?_set]
    simp
    omega
  by_cases hkn : k = n
  · subst hkn
    rw [h0] at hnew
    simp only [Option.some.injEq, Prod.mk.injEq] at hnew
    obtain ⟨rfl, rfl⟩ := hnew
    rw [hpn] at hhol
    rw [List.getElem?_set] at hdep
    simp at hhol he
    have hdk : dk = d := by
      have : k < depth.length := by omega
      simp [this] at hdep
      exact hdep.symm
    subst hhol he hdk
    refine ⟨by omega, ?_, ?_, ?_, ?_⟩
    · simp
      omega
    · simp
    · intro _
      refine ⟨by omega, ?_⟩
      obtain ⟨⟨hsp, ep⟩, hpp⟩ : ∃ a, ng[p]? = some a := ⟨ng[p], List.getElem?_eq_getElem (by omega)⟩
      have hq := hget p hsp ep hpp
      simp only [if_true] at hq
      exact ⟨_, _, by simpa using hq, by simp⟩
    · intro x hx
      rw [← hhs] at hx
      by_cases hkp : k = p
      · simp [hkp] at hx
        rcases hx with hx | hx
        · have := hmem k hs0 true h0 x (by simpa using hx)
          exact this
        · subst hx
          obtain ⟨hs', hh⟩ := hnew2
          exact ⟨hs', by rw [← hkp]; exact hh, by rw [← hkp]; rw [hkp] ; exact hkp ▸ hpn⟩
      · simp [hkp] at hx
        exact hmem k hs0 true h0 x hx
  · rw [List.getElem?_set] at hdep hhol
    simp only [Ne.symm hkn, if_false] at hdep hhol
    simp only [hkn, if_false] at he
    rw [hd0] at hdep
    rw [hg0] at hhol
    simp at hdep hhol
    subst hdep hhol he
    refine ⟨o1, o2, o3, ?_, ?_⟩
    · intro hf
      obtain ⟨q1, hs', e', q2, q3⟩ := o4 hf
      refine ⟨q1, _, _, hget _ hs' e' q2, ?_⟩
      split_ifs
      · simp [q3]
      · exact q3
    · intro x hx
      rw [← hhs] at hx
      by_cases hkp : k = p
      · simp [hkp] at hx
        rcases hx with hx | hx
        · exact hmem k hs0 e0 h0 x (by simpa using hx)
        · subst hx
          obtain ⟨hs', hh⟩ := hnew2
          exact ⟨hs', hh, by rw [hkp]; exact hpn⟩
      · simp [hkp] at hx
        exact hmem k hs0 e0 h0 x hx

theorem modContour_nesting {res res' : Polygon} {i : Int} {f : Contour → Contour}
    (g : List Nat × Bool → List Nat × Bool)
    (hfg : ∀ c : Contour, ((f c).holes, (f c).external) = g (c.holes, c.external))
    (h : modContour res i f = some res') :
    0 ≤ i ∧ i.toNat < res.nesting.length ∧ res'.nesting.length = res.nesting.length ∧
    ∀ (k : Nat) (a : List Nat × Bool), res.nesting[k]? = some a →
      res'.nesting[k]? = some (if k = i.toNat then g a else a) := by
  unfold modContour getAt at h
  by_cases hi : 0 ≤ i
  · simp only [hi, if_true] at h
    rw [List.get?_eq_getElem?] at h
    cases hc : res.contours[i.toNat]? with
    | none => simp [hc] at h
    | some c =>
      simp only [hc, Option.some.injEq] at h
      subst h
      have hlt : i.toNat < res.contours.length := getElem?_lt_of_eq_some hc
      refine ⟨hi, by simpa [Polygon.nesting] using hlt, by simp [Polygon.nesting], ?_⟩
      intro k a hk
      simp only [Polygon.nesting, List.getElem?_map] at hk ⊢
      rw [List.getElem?_set]
      by_cases hki : i.toNat = k
      · subst hki
        simp only [hc, Option.map_some', Option.some.injEq] at hk
        simp [hlt, hfg, hk]
      · simp [hki, Ne.symm hki, hk]
  · simp [hi] at h

theorem modContour_nesting_same {res res' : Polygon} {i : Int} {f : Contour → Contour}
    (hf : ∀ c : Contour, ((f c).holes, (f c).external) = (c.holes, c.external))
    (h : modContour res i f = some res') : res'.nesting = res.nesting := by
  obtain ⟨_, _, hl, hg⟩ := modContour_nesting id hf h
  apply List.ext_getElem? 
  intro k
  cases hk : res.nesting[k]? with
  | none =>
    have : res.nesting.length ≤ k := by
      rcases Nat.lt_or_ge k res.nesting.length with hh | hh
      · rw [List.getElem?_eq_getElem hh] at hk
        cases hk
      · exact hh
    exact List.getElem?_eq_none (by omega)
  | some a =>
    rw [hg k a hk]
    simp

theorem walkContour_nesting (r : List Nat) (initial : Point_2) (contourId : Nat) :
    ∀ (fuel pos : Nat) (c : ConnectState) (pos' : Nat) (c' : ConnectState),
      walkContour r initial contourId fuel pos c = some (pos', c') →
      c'.s.result.nesting = c.s.result.nesting ∧ c'.depth = c.depth ∧ c'.holeOf = c.holeOf := by
  intro fuel
  induction fuel with
  | zero =>
    intro pos c pos' c' h
    simp [walkContour] at h
  | succ fuel ih =>
    intro pos c pos' c' h
    unfold walkContour at h
    split at h
    · cases h
    · split at h
      · split at h
        · cases h
        · dsimp only at h
          split at h
          · split at h
            · obtain ⟨h1, h2, h3⟩ := ih _ _ _ _ h
              rename_i res1 _ hres _
              have := modContour_nesting_same (f := fun k => k.add _) (fun _ => rfl) hres
              simp at h1 h2 h3
              exact ⟨by rw [h1, this], h2, h3⟩
            · cases h
          · cases h
      · simp at h
        obtain ⟨_, rfl⟩ := h
        exact ⟨rfl, rfl, rfl⟩

theorem getAt_eq_some {α : Type} {l : List α} {i : Int} {a : α} (h : getAt l i = some a) :
    0 ≤ i ∧ l[i.toNat]? = some a := by
  unfold getAt at h
  by_cases hi : 0 ≤ i
  · simp only [hi, if_true, List.get?_eq_getElem?] at h
    exact ⟨hi, h⟩
  · simp [hi] at h

theorem setAt_eq_some {α : Type} {l l' : List α} {i : Nat} {v : α} (h : setAt l i v = some l') :
    i < l.length ∧ l' = l.set i v := by
  unfold setAt at h
  by_cases hi : i < l.length
  · simp only [hi, if_true, Option.some.injEq] at h
    exact ⟨hi, h.symm⟩
  · simp [hi] at h

theorem nest_depth {ng : List (List Nat × Bool)} {depth holeOf : List Int} {k : Nat} {d : Int}
    {hs : List Nat} {e : Bool} (inv : NestingOK ng depth holeOf) (hng : ng[k]? = some (hs, e))
    (hd : depth[k]? = some d) : 0 ≤ d ∧ (e = false → 1 ≤ d) := by
  obtain ⟨hl1, hl2, hA⟩ := inv
  have hk : k < ng.length := getElem?_lt_of_eq_some hng
  obtain ⟨o1, o2, _⟩ := hA k hs e d holeOf[k] hng hd (List.getElem?_eq_getElem (by omega))
  refine ⟨o1, fun he => ?_⟩
  have : d ≠ 0 := fun h0 => by
    have := o2.mpr h0
    rw [he] at this
    cases this
  omega

theorem attach_nesting {res res1 res2 : Polygon} {depth holeOf depth1 holeOf1 : List Int} {n : Nat}
    {p d : Int} (inv : NestingOK res.nesting depth holeOf)
    (hn : res.nesting.length = n + 1) (hnew : res.nesting[n]? = some ([], true))
    (h1 : modContour res p (fun k => k.addHole n) = some res1)
    (h2 : setAt holeOf n p = some holeOf1)
    (h3 : setAt depth n d = some depth1)
    (h4 : modContour res1 n (fun k => k.setExternal false) = some res2)
    (hd : 1 ≤ d) : NestingOK res2.nesting depth1 holeOf1 := by
  obtain ⟨hp0, hplt, hl1, hg1⟩ :=
    modContour_nesting (fun a => (a.1 ++ [n], a.2)) (fun _ => rfl) h1
  obtain ⟨_, _, hl2, hg2⟩ :=
    modContour_nesting (fun a => (a.1, false)) (fun _ => rfl) h4
  obtain ⟨_, rfl⟩ := setAt_eq_some h2
  obtain ⟨_, rfl⟩ := setAt_eq_some h3
  have hpp : p = ((p.toNat : Nat) : Int) := (Int.toNat_of_nonneg hp0).symm
  rw [hpp]
  refine nest_attach inv hn hnew (by omega) hd (by rw [hl2, hl1]) ?_
  intro k hs e hk
  have a1 := hg1 k (hs, e) hk
  have a2 := hg2 k _ a1
  rw [a2]
  simp only [Int.toNat_ofNat]
  split_ifs <;> rfl

theorem nesting_getElem? {res : Polygon} {k : Nat} {c : Contour} (h : res.contours[k]? = some c) :
    res.nesting[k]? = some (c.holes, c.external) := by
  simp only [Polygon.nesting, List.getElem?_map, h, Option.map_some']

theorem startContour_nesting {c c' : ConnectState} {e id : Nat}
    (inv : NestingOK c.s.result.nesting c.depth c.holeOf)
    (h : startContour c e = some (id, c')) :
    NestingOK c'.s.result.nesting c'.depth c'.holeOf := by
  have hpush := nest_push inv
  have hpn : (c.s.result.push_back Contour.empty).nesting = c.s.result.nesting ++ [([], true)] := by
    simp [Polygon.nesting, Polygon.push_back, Contour.empty]
  have hid : (c.s.result.push_back Contour.empty).ncontours - 1 = c.s.result.nesting.length := by
    simp [Polygon.nesting, Polygon.push_back, Polygon.ncontours]
  have hn : (c.s.result.push_back Contour.empty).nesting.length = c.s.result.nesting.length + 1 := by
    simp [hpn]
  have hnew : (c.s.result.push_back Contour.empty).nesting[c.s.result.nesting.length]? =
      some ([], true) := by
    simp [hpn]
  rw [← hpn] at hpush
  unfold startContour at h
  dsimp only at h
  rw [hid] at h
  split at h
  · simp only [Option.some.injEq, Prod.mk.injEq] at h
    obtain ⟨_, rfl⟩ := h
    exact hpush
  · split at h
    · split at h
      · split at h
        · simp only [Option.some.injEq, Prod.mk.injEq] at h
          obtain ⟨_, rfl⟩ := h
          rename_i h1 h2 h3 _ _ _ _ h4 h5 _
          obtain ⟨hp0, hplt, _, _⟩ :=
            modContour_nesting (fun a => (a.1 ++ [c.s.result.nesting.length], a.2)) (fun _ => rfl) h1
          obtain ⟨_, hd3⟩ := getAt_eq_some h3
          have hd0 := (nest_depth hpush (List.getElem?_eq_getElem hplt) hd3).1
          exact attach_nesting hpush hn hnew h1 h2 h4 h5 (by omega)
        · cases h
      · cases h
    · split at h
      · cases h
      · split at h
        · split at h
          · split at h
            · split at h
              · simp only [Option.some.injEq, Prod.mk.injEq] at h
                obtain ⟨_, rfl⟩ := h
                rename_i hlow hext _ _ _ _ _ hdep _ _ _ _ _ _ h1 h2 h3 _ _ h4 _
                obtain ⟨_, hlow2⟩ := getAt_eq_some hlow
                obtain ⟨_, hd3⟩ := getAt_eq_some hdep
                have hng := nesting_getElem? hlow2
                have hd0 := (nest_depth hpush hng hd3).2 (by simpa using hext)
                exact attach_nesting hpush hn hnew h1 h2 h3 h4 hd0
              · cases h
            · cases h
          · cases h
        · simp only [Option.some.injEq, Prod.mk.injEq] at h
          obtain ⟨_, rfl⟩ := h
          exact hpush

theorem contourStep_nesting {r : List Nat} {fuel i : Nat} {c c' : ConnectState}
    (inv : NestingOK c.s.result.nesting c.depth c.holeOf)
    (h : contourStep r fuel c i = some c') :
    NestingOK c'.s.result.nesting c'.depth c'.holeOf := by
  unfold contourStep at h
  split at h
  · simp only [Option.some.injEq] at h
    subst h
    exact inv
  · split at h
    · cases h
    · rename_i hstart
      have inv1 := startContour_nesting inv hstart
      dsimp only at h
      split at h
      · cases h
      · rename_i hadd
        have e1 := modContour_nesting_same (f := fun k => k.add _) (fun _ => rfl) hadd
        split at h
        · cases h
        · rename_i hwalk
          obtain ⟨w1, w2, w3⟩ := walkContour_nesting _ _ _ _ _ _ _ _ hwalk
          simp only at w1 w2 w3
          split at h
          · cases h
          · split at h
            · cases h
            · split at h
              · cases h
              · split at h
                · cases h
                · rename_i hres
                  simp only [Option.some.injEq] at h
                  subst h
                  simp only
                  rw [w2, w3]
                  have e3 := w1.trans e1
                  split at hres
                  · have e2 := modContour_nesting_same (f := Contour.changeOrientation)
                      (fun _ => rfl) hres
                    rw [e2, e3]
                    exact inv1
                  · simp only [Option.some.injEq] at hres
                    subst hres
                    rw [e3]
                    exact inv1

theorem contourLoop_nesting (r : List Nat) (fuel : Nat) :
    ∀ (is : List Nat) (c c' : ConnectState), NestingOK c.s.result.nesting c.depth c.holeOf →
      contourLoop r fuel is c = some c' → NestingOK c'.s.result.nesting c'.depth c'.holeOf := by
  intro is
  induction is with
  | nil =>
    intro c c' inv h
    simp only [contourLoop, Option.some.injEq] at h
    subst h
    exact inv
  | cons i is ih =>
    intro c c' inv h
    unfold contourLoop at h
    split at h
    · cases h
    · rename_i hstep
      exact ih _ _ (contourStep_nesting inv hstep) h

/-- C5, refuted as stated: for the union of the triangle (0,0),(12,0),(0,12) with
the hole (1,1),(7,1),(1,7) and the triangle (2,2),(4,2),(2,4), on an empty result,
`connectEdges` returns three contours; contour 1 is marked as a hole of contour 0
and receives the hole id 2, and the depth of contour 2 is 2. -/
theorem connectEdges_nesting_counterexample :
    sweep exact 100 (BooleanOpImp.new holedTriangle island emptyPolygon .UNION) = some islandSweep ∧
    connectEdgesLocals exact 100 islandSweep = some islandLocals ∧
    compute exact 100 holedTriangle island emptyPolygon .UNION = some islandLocals.s.result ∧
    islandLocals.s.result =
      ⟨[{ points := [⟨0, 0⟩, ⟨12, 0⟩, ⟨0, 12⟩], holes := [1], external := true },
        { points := [⟨1, 7⟩, ⟨7, 1⟩, ⟨1, 1⟩], holes := [2], external := false },
        { points := [⟨2, 2⟩, ⟨4, 2⟩, ⟨2, 4⟩], holes := [], external := false }]⟩ ∧
    islandLocals.depth = [0, 1, 2] ∧ islandLocals.holeOf = [-1, 0, 1] := by
  decide!

/-- C5, amended: in the polygon built by `connectEdges` from an empty result,
whenever it returns, a contour is external exactly when its depth is 0 and exactly
when its `holeOf` is -1; every contour marked as a hole is named in the hole list
of the contour `holeOf` gives for it, and every id in a hole list names a contour
marked as a hole whose `holeOf` is the owner of the list. The owner of a hole list
need not be external. -/
theorem connectEdges_nesting (P : Primitives) (fuel : Nat) (s : BooleanOpImp) (c : ConnectState)
    (hres : s.result.contours = []) (h : connectEdgesLocals P fuel s = some c) :
    connectEdges P fuel s = some c.s ∧ NestingOK c.s.result.nesting c.depth c.holeOf := by
  refine ⟨by simp [connectEdges, h], ?_⟩
  unfold connectEdgesLocals at h
  split at h
  · cases h
  · refine contourLoop_nesting _ _ _ _ _ ?_ h
    simp [NestingOK, Polygon.nesting, hres]

/-- An instance of `connectEdges_nesting`: the union of `holedTriangle` and
`island`. -/
theorem connectEdges_nesting_witness :
    connectEdges exact 100 islandSweep = some islandLocals.s ∧
      NestingOK islandLocals.s.result.nesting islandLocals.depth islandLocals.holeOf :=
  connectEdges_nesting exact 100 islandSweep islandLocals (by decide!) (by decide!)

/-- The union of `touchingTriangles` with itself: the two triangles are simple
contours without zero-length or overlapping edges; with subject and clip both this
polygon, UNION on an empty result returns a single contour through the six
vertices, which is not the contour set of the polygon. -/
theorem touchingTriangles_union :
    validForIdempotence touchingTriangles = true ∧
    compute exact 100 touchingTriangles touchingTriangles emptyPolygon .UNION =
      some ⟨[ring [(0, 0), (4, 0), (2, 2), (4, 4), (0, 4), (2, 2)]]⟩ ∧
    sameContours ⟨[ring [(0, 0), (4, 0), (2, 2), (4, 4), (0, 4), (2, 2)]]⟩ touchingTriangles = false := by
  decide!


/-! ### The arena under `divideSegment` -/

theorem getEv_append (evs : List SweepEvent) (e : SweepEvent) (i : Nat) :
    getEv (evs ++ [e]) i =
      if i < evs.length then getEv evs i else if i = evs.length then e else default := by
  unfold getEv
  by_cases h : i < evs.length
  · simp [List.getD_eq_getElem?_getD, List.getElem?_append_left h, h]
  · by_cases h2 : i = evs.length
    · subst h2
      simp [List.getD_eq_getElem?_getD]
    · have h3 : evs.length < i := by omega
      have : (evs ++ [e])[i]? = none := List.getElem?_eq_none (by simp; omega)
      simp [List.getD_eq_getElem?_getD, h, h2, this]

theorem getEv_divideBase (evs : List SweepEvent) (le : Nat) (p : Point_2) (i : Nat) :
    getEv (divideBase evs le p) i =
      if i < evs.length then getEv evs i
      else if i = evs.length then SweepEvent.new false p le (getEv evs le).pol .NORMAL
      else if i = evs.length + 1 then
        SweepEvent.new true p (getEv evs le).otherEvent (getEv evs le).pol .NORMAL
      else default := by
  unfold divideBase
  rw [getEv_append, getEv_append]
  simp only [List.length_append, List.length_singleton]
  split_ifs <;> first | rfl | omega

theorem length_divideBase (evs : List SweepEvent) (le : Nat) (p : Point_2) :
    (divideBase evs le p).length = evs.length + 2 := by
  simp [divideBase]

theorem getEv_modEv_left_otherEvent (evs : List SweepEvent) (i j : Nat) (b : Bool) :
    (getEv (modEv evs i (fun e => { e with left := b })) j).otherEvent = (getEv evs j).otherEvent := by
  rw [getEv_modEv]
  split_ifs with h
  · obtain ⟨rfl, _⟩ := h
    rfl
  · rfl

theorem divideSegment_eventHolder (P : Primitives) (s : BooleanOpImp) (le : Nat) (p : Point_2)
    (hle : le < s.eventHolder.length) :
    (divideSegment P s le p).eventHolder =
      modEv
        (modEv
          (if divideSwaps P s.eventHolder le p then
            modEv (modEv (divideBase s.eventHolder le p) (getEv s.eventHolder le).otherEvent
              (fun e => { e with left := true })) (s.eventHolder.length + 1)
              (fun e => { e with left := false })
          else divideBase s.eventHolder le p)
          (getEv s.eventHolder le).otherEvent
          (fun e => { e with otherEvent := s.eventHolder.length + 1 }))
        le (fun e => { e with otherEvent := s.eventHolder.length }) := by
  have h1 : getEv (s.eventHolder ++ [SweepEvent.new false p le (getEv s.eventHolder le).pol .NORMAL]) le =
      getEv s.eventHolder le := by
    rw [getEv_append, if_pos hle]
  have h2 : getEv (divideBase s.eventHolder le p) le = getEv s.eventHolder le := by
    rw [getEv_divideBase, if_pos hle]
  unfold divideSegment
  simp only [storeSweepEvent, eqPush, List.length_append, List.length_singleton, h1]
  have hb : (s.eventHolder ++ [SweepEvent.new false p le (getEv s.eventHolder le).pol .NORMAL]) ++
      [SweepEvent.new true p (getEv s.eventHolder le).otherEvent (getEv s.eventHolder le).pol .NORMAL] =
      divideBase s.eventHolder le p := rfl
  simp only [hb, h2]
  have h3 : (getEv
      (if P.sec (divideBase s.eventHolder le p) (s.eventHolder.length + 1)
            (getEv s.eventHolder le).otherEvent = true then
          modEv (modEv (divideBase s.eventHolder le p) (getEv s.eventHolder le).otherEvent
            (fun e => { e with left := true })) (s.eventHolder.length + 1)
            (fun e => { e with left := false })
        else divideBase s.eventHolder le p) le).otherEvent = (getEv s.eventHolder le).otherEvent := by
    split_ifs
    · rw [getEv_modEv_left_otherEvent, getEv_modEv_left_otherEvent, h2]
    · rw [h2]
  rw [h3]
  rfl

theorem length_divideSegment (P : Primitives) (s : BooleanOpImp) (le : Nat) (p : Point_2)
    (hle : le < s.eventHolder.length) :
    (divideSegment P s le p).eventHolder.length = s.eventHolder.length + 2 := by
  rw [divideSegment_eventHolder P s le p hle]
  simp only [length_modEv]
  split_ifs <;> simp [length_modEv, length_divideBase]

/-- The events of the arena after `divideSegment (le, p)`. -/
theorem getEv_divideSegment (P : Primitives) (s : BooleanOpImp) (le : Nat) (p : Point_2)
    (hle : le < s.eventHolder.length) (i : Nat) (hi : i < s.eventHolder.length + 2) :
    getEv (divideSegment P s le p).eventHolder i =
      { getEv (divideBase s.eventHolder le p) i with
        left :=
          if divideSwaps P s.eventHolder le p = true then
            (if i = s.eventHolder.length + 1 then false
             else if i = (getEv s.eventHolder le).otherEvent then true
             else (getEv (divideBase s.eventHolder le p) i).left)
          else (getEv (divideBase s.eventHolder le p) i).left
        otherEvent :=
          if i = le then s.eventHolder.length
          else if i = (getEv s.eventHolder le).otherEvent then s.eventHolder.length + 1
          else (getEv (divideBase s.eventHolder le p) i).otherEvent } := by
  rw [divideSegment_eventHolder P s le p hle]
  generalize (getEv s.eventHolder le).otherEvent = o
  generalize divideSwaps P s.eventHolder le p = sw
  generalize hb : divideBase s.eventHolder le p = b
  have hlb : b.length = s.eventHolder.length + 2 := by rw [← hb, length_divideBase]
  have hc : ∀ x : Nat, (i = x) = (x = i) := fun x => propext eq_comm
  by_cases hsw : sw = true <;>
  by_cases h1 : le = i <;>
  by_cases h2 : o = i <;>
  by_cases h3 : s.eventHolder.length + 1 = i <;>
  first
  | (exfalso; omega)
  | simp [getEv_modEv, length_modEv, hlb, hsw, h1, h2, h3, hi, hc]

theorem getEv_modEv_frame {α : Type} (g : SweepEvent → α) (evs : List SweepEvent) (i j : Nat)
    (f : SweepEvent → SweepEvent) (hf : ∀ e, g (f e) = g e) :
    g (getEv (modEv evs i f) j) = g (getEv evs j) := by
  rw [getEv_modEv]
  split_ifs with h
  · obtain ⟨rfl, _⟩ := h
    exact hf _
  · rfl

/-- `divideSegment` changes only the fields `left` and `otherEvent` of the events
that were in the arena. -/
theorem divideSegment_frame {α : Type} (g : SweepEvent → α)
    (hl : ∀ (e : SweepEvent) (b : Bool), g { e with left := b } = g e)
    (ho : ∀ (e : SweepEvent) (k : Nat), g { e with otherEvent := k } = g e)
    (P : Primitives) (s : BooleanOpImp) (le : Nat) (p : Point_2) (i : Nat)
    (hi : i < s.eventHolder.length) :
    g (getEv (divideSegment P s le p).eventHolder i) = g (getEv s.eventHolder i) := by
  unfold divideSegment
  simp only [eqPush, storeSweepEvent]
  rw [getEv_modEv_frame g _ _ _ _ (fun e => ho e _), getEv_modEv_frame g _ _ _ _ (fun e => ho e _)]
  have hbase : ∀ (r l : SweepEvent), getEv ((s.eventHolder ++ [r]) ++ [l]) i = getEv s.eventHolder i := by
    intro r l
    rw [getEv_append, getEv_append]
    simp only [List.length_append, List.length_singleton]
    rw [if_pos (by omega), if_pos hi]
  split_ifs
  · rw [getEv_modEv_frame g _ _ _ _ (fun e => hl e _), getEv_modEv_frame g _ _ _ _ (fun e => hl e _),
      hbase]
  · rw [hbase]

theorem divideSegment_length_le (P : Primitives) (s : BooleanOpImp) (le : Nat) (p : Point_2) :
    s.eventHolder.length ≤ (divideSegment P s le p).eventHolder.length := by
  unfold divideSegment
  simp only [eqPush, storeSweepEvent, length_modEv]
  split_ifs <;> simp [length_modEv]

theorem getEv_markOverlap_type (evs : List SweepEvent) (le1 le2 : Nat) (h1 : le1 < evs.length)
    (h2 : le2 < evs.length) (hne : le1 ≠ le2) :
    (getEv (markOverlap evs le1 le2) le1).type = .NON_CONTRIBUTING ∧
    (getEv (markOverlap evs le1 le2) le2).type =
      (if (getEv evs le1).inOut = (getEv evs le2).inOut then EdgeType.SAME_TRANSITION
       else EdgeType.DIFFERENT_TRANSITION) := by
  unfold markOverlap
  simp [getEv_modEv, length_modEv, h1, h2, hne, Ne.symm hne]

theorem length_markOverlap (evs : List SweepEvent) (le1 le2 : Nat) :
    (markOverlap evs le1 le2).length = evs.length := by
  simp [markOverlap, length_modEv]

/-- C11, amended: on two overlapping segments of different polygons that share
their left endpoint, `possibleIntersection (le1, le2)` returns 2, marks `le1`
NON_CONTRIBUTING and marks `le2` SAME_TRANSITION when the fields `inOut` of the
two events are equal and DIFFERENT_TRANSITION otherwise. -/
theorem possibleIntersection_shared_left (P : Primitives) (s : BooleanOpImp) (le1 le2 : Nat)
    (h1 : le1 < s.eventHolder.length) (h2 : le2 < s.eventHolder.length)
    (hn : (P.findIntersection (segment s.eventHolder le1) (segment s.eventHolder le2)).1 = 2)
    (hpol : (getEv s.eventHolder le1).pol ≠ (getEv s.eventHolder le2).pol)
    (hpt : (getEv s.eventHolder le1).point = (getEv s.eventHolder le2).point) :
    (possibleIntersection P s le1 le2).2 = some 2 ∧
    (getEv (possibleIntersection P s le1 le2).1.eventHolder le1).type = .NON_CONTRIBUTING ∧
    (getEv (possibleIntersection P s le1 le2).1.eventHolder le2).type =
      (if (getEv s.eventHolder le1).inOut = (getEv s.eventHolder le2).inOut then
        EdgeType.SAME_TRANSITION
       else EdgeType.DIFFERENT_TRANSITION) := by
  have hne : le1 ≠ le2 := fun h => hpol (by rw [h])
  obtain ⟨m1, m2⟩ := getEv_markOverlap_type s.eventHolder le1 le2 h1 h2 hne
  have hpi : possibleIntersection P s le1 le2 = overlapCase P s le1 le2 := by
    unfold possibleIntersection
    simp [hn, hpol]
  rw [hpi]
  unfold overlapCase overlapOrder
  simp only [hpt, if_true]
  by_cases hr : otherPoint s.eventHolder le1 = otherPoint s.eventHolder le2
  · simp only [hr, if_true, List.singleton_append]
    exact ⟨by first | rfl | trivial, m1, m2⟩
  · simp only [hr, if_false]
    by_cases hs : P.sec s.eventHolder (getEv s.eventHolder le1).otherEvent
        (getEv s.eventHolder le2).otherEvent = true
    all_goals
      simp only [hs, if_true, if_false, List.singleton_append, Bool.false_eq_true]
      refine ⟨by first | rfl | trivial, ?_, ?_⟩
      · rw [divideSegment_frame (fun e => e.type) (fun _ _ => rfl) (fun _ _ => rfl)]
        · exact m1
        · simpa [length_markOverlap] using h1
      · rw [divideSegment_frame (fun e => e.type) (fun _ _ => rfl) (fun _ _ => rfl)]
        · exact m2
        · simpa [length_markOverlap] using h2

/-- C11, refuted as stated: on two equal segments of different polygons, with `le1`
before `le2` in status order, `possibleIntersection (le1, le2)` returns 2 and marks
`le1`, the earlier one, NON_CONTRIBUTING and `le2`, the later one,
SAME_TRANSITION. -/
theorem possibleIntersection_shared_left_counterexample :
    (exact.findIntersection (segment overlapArena 0) (segment overlapArena 2)).1 = 2 ∧
    (getEv overlapArena 0).pol ≠ (getEv overlapArena 2).pol ∧
    (getEv overlapArena 0).point = (getEv overlapArena 2).point ∧
    SegmentComp exact overlapArena 0 2 = true ∧
    (possibleIntersection exact (stateOf overlapArena) 0 2).2 = some 2 ∧
    (getEv (possibleIntersection exact (stateOf overlapArena) 0 2).1.eventHolder 0).type =
      .NON_CONTRIBUTING ∧
    (getEv (possibleIntersection exact (stateOf overlapArena) 0 2).1.eventHolder 2).type =
      .SAME_TRANSITION := by
  decide!

/-- An instance of `possibleIntersection_shared_left`: the two equal segments of
`overlapArena`. -/
theorem possibleIntersection_shared_left_witness :
    (possibleIntersection exact (stateOf overlapArena) 0 2).2 = some 2 ∧
    (getEv (possibleIntersection exact (stateOf overlapArena) 0 2).1.eventHolder 0).type =
      .NON_CONTRIBUTING ∧
    (getEv (possibleIntersection exact (stateOf overlapArena) 0 2).1.eventHolder 2).type =
      (if (getEv (stateOf overlapArena).eventHolder 0).inOut =
          (getEv (stateOf overlapArena).eventHolder 2).inOut then
        EdgeType.SAME_TRANSITION
       else EdgeType.DIFFERENT_TRANSITION) :=
  possibleIntersection_shared_left exact (stateOf overlapArena) 0 2 (by decide) (by decide)
    (by decide!) (by decide) (by decide!)

theorem otherPoint_divideSegment (P : Primitives) (s : BooleanOpImp) (le : Nat) (p : Point_2)
    (i : Nat) (hle : le < s.eventHolder.length) (hi : i < s.eventHolder.length)
    (hoi : (getEv s.eventHolder i).otherEvent < s.eventHolder.length) (h1 : i ≠ le)
    (h2 : i ≠ (getEv s.eventHolder le).otherEvent) :
    otherPoint (divideSegment P s le p).eventHolder i = otherPoint s.eventHolder i := by
  unfold otherPoint
  have ho : (getEv (divideSegment P s le p).eventHolder i).otherEvent =
      (getEv s.eventHolder i).otherEvent := by
    rw [getEv_divideSegment P s le p hle i (by omega)]
    simp only [h1, h2, if_false]
    rw [getEv_divideBase, if_pos hi]
  rw [ho]
  exact divideSegment_frame (fun e => e.point) (fun _ _ => rfl) (fun _ _ => rfl) P s le p _ hoi

/-- C12: when the intersection primitive reports no point, or one point while the
segments have equal left or equal right endpoints, `possibleIntersection` returns
0 and the state is unchanged; when it reports one point `ip` otherwise,
`possibleIntersection` returns 1 and the state is the one reached by calling
`divideSegment (le1, ip)` if `ip` is no endpoint of the segment of `le1`, then
`divideSegment (le2, ip)` if `ip` is no endpoint of the segment of `le2`. -/
theorem possibleIntersection_single_point (P : Primitives) (s : BooleanOpImp) (le1 le2 : Nat)
    (h1 : le1 < s.eventHolder.length) (h2 : le2 < s.eventHolder.length)
    (ho2 : (getEv s.eventHolder le2).otherEvent < s.eventHolder.length)
    (hpart : le2 ≠ (getEv s.eventHolder le1).otherEvent) :
    ((P.findIntersection (segment s.eventHolder le1) (segment s.eventHolder le2)).1 = 0 →
      possibleIntersection P s le1 le2 = (s, some 0)) ∧
    ((P.findIntersection (segment s.eventHolder le1) (segment s.eventHolder le2)).1 = 1 →
      ((getEv s.eventHolder le1).point = (getEv s.eventHolder le2).point ∨
        otherPoint s.eventHolder le1 = otherPoint s.eventHolder le2) →
      possibleIntersection P s le1 le2 = (s, some 0)) ∧
    ((P.findIntersection (segment s.eventHolder le1) (segment s.eventHolder le2)).1 = 1 →
      ¬((getEv s.eventHolder le1).point = (getEv s.eventHolder le2).point ∨
        otherPoint s.eventHolder le1 = otherPoint s.eventHolder le2) →
      possibleIntersection P s le1 le2 =
        ((if (getEv s.eventHolder le2).point ≠
                (P.findIntersection (segment s.eventHolder le1) (segment s.eventHolder le2)).2.1 ∧
              otherPoint s.eventHolder le2 ≠
                (P.findIntersection (segment s.eventHolder le1) (segment s.eventHolder le2)).2.1 then
            divideSegment P
              (if (getEv s.eventHolder le1).point ≠
                    (P.findIntersection (segment s.eventHolder le1) (segment s.eventHolder le2)).2.1 ∧
                  otherPoint s.eventHolder le1 ≠
                    (P.findIntersection (segment s.eventHolder le1) (segment s.eventHolder le2)).2.1 then
                divideSegment P s le1
                  (P.findIntersection (segment s.eventHolder le1) (segment s.eventHolder le2)).2.1
               else s)
              le2 (P.findIntersection (segment s.eventHolder le1) (segment s.eventHolder le2)).2.1
          else
            (if (getEv s.eventHolder le1).point ≠
                  (P.findIntersection (segment s.eventHolder le1) (segment s.eventHolder le2)).2.1 ∧
                otherPoint s.eventHolder le1 ≠
                  (P.findIntersection (segment s.eventHolder le1) (segment s.eventHolder le2)).2.1 then
              divideSegment P s le1
                (P.findIntersection (segment s.eventHolder le1) (segment s.eventHolder le2)).2.1
             else s)),
          some 1)) := by
  refine ⟨?_, ?_, ?_⟩
  · intro h0
    unfold possibleIntersection
    simp [h0]
  · intro hn hor
    unfold possibleIntersection
    simp only [hn, hor]
    simp
  · intro hn hor
    have hne : le1 ≠ le2 := fun h => hor (Or.inl (by rw [h]))
    unfold possibleIntersection
    simp only [hn, hor]
    generalize (P.findIntersection (segment s.eventHolder le1) (segment s.eventHolder le2)).2.1 = ip
    simp only [one_ne_zero, if_false, OfNat.one_ne_ofNat, false_and, and_false, if_true]
    by_cases hd1 : (getEv s.eventHolder le1).point ≠ ip ∧ otherPoint s.eventHolder le1 ≠ ip
    · simp only [hd1, if_true, ne_eq, not_false_eq_true, and_self]
      have e1 : (getEv (divideSegment P s le1 ip).eventHolder le2).point =
          (getEv s.eventHolder le2).point :=
        divideSegment_frame (fun e => e.point) (fun _ _ => rfl) (fun _ _ => rfl) P s le1 ip le2 h2
      have e2 := otherPoint_divideSegment P s le1 ip le2 h1 h2 ho2 (Ne.symm hne) hpart
      rw [e1, e2]
    · simp only [hd1, if_false]

/-- An instance of `possibleIntersection_single_point`: the two diagonals of
`crossArena` cross in one point, which is an endpoint of neither, and the call
returns 1. -/
theorem possibleIntersection_single_point_witness :
    (exact.findIntersection (segment (stateOf crossArena).eventHolder 0)
      (segment (stateOf crossArena).eventHolder 2)).1 = 1 ∧
    (possibleIntersection exact (stateOf crossArena) 0 2).2 = some 1 :=
  ⟨by decide!,
   congrArg Prod.snd
    ((possibleIntersection_single_point exact (stateOf crossArena) 0 2 (by decide) (by decide)
      (by decide) (by decide)).2.2 (by decide!) (by decide!))⟩

/-! ### The fields of the events after `divideSegment` -/

theorem divideSegment_otherEvent (P : Primitives) (s : BooleanOpImp) (le : Nat) (p : Point_2)
    (hle : le < s.eventHolder.length) (i : Nat) (hi : i < s.eventHolder.length + 2) :
    (getEv (divideSegment P s le p).eventHolder i).otherEvent =
      if i = le then s.eventHolder.length
      else if i = (getEv s.eventHolder le).otherEvent then s.eventHolder.length + 1
      else if i < s.eventHolder.length then (getEv s.eventHolder i).otherEvent
      else if i = s.eventHolder.length then le
      else (getEv s.eventHolder le).otherEvent := by
  rw [getEv_divideSegment P s le p hle i hi]
  simp only []
  rw [getEv_divideBase]
  split_ifs <;> first | rfl | (exfalso; omega)

theorem divideSegment_point (P : Primitives) (s : BooleanOpImp) (le : Nat) (p : Point_2)
    (hle : le < s.eventHolder.length) (i : Nat) (hi : i < s.eventHolder.length + 2) :
    (getEv (divideSegment P s le p).eventHolder i).point =
      if i < s.eventHolder.length then (getEv s.eventHolder i).point else p := by
  rw [getEv_divideSegment P s le p hle i hi]
  simp only []
  rw [getEv_divideBase]
  split_ifs <;> first | rfl | (exfalso; omega)

theorem divideSegment_pol (P : Primitives) (s : BooleanOpImp) (le : Nat) (p : Point_2)
    (hle : le < s.eventHolder.length) (i : Nat) (hi : i < s.eventHolder.length + 2) :
    (getEv (divideSegment P s le p).eventHolder i).pol =
      if i < s.eventHolder.length then (getEv s.eventHolder i).pol
      else (getEv s.eventHolder le).pol := by
  rw [getEv_divideSegment P s le p hle i hi]
  simp only []
  rw [getEv_divideBase]
  split_ifs <;> first | rfl | (exfalso; omega)

theorem divideSegment_left (P : Primitives) (s : BooleanOpImp) (le : Nat) (p : Point_2)
    (hle : le < s.eventHolder.length) (i : Nat) (hi : i < s.eventHolder.length + 2)
    (hsw : divideSwaps P s.eventHolder le p = false) :
    (getEv (divideSegment P s le p).eventHolder i).left =
      if i < s.eventHolder.length then (getEv s.eventHolder i).left
      else if i = s.eventHolder.length then false else true := by
  rw [getEv_divideSegment P s le p hle i hi]
  simp only [hsw, Bool.false_eq_true, if_false]
  rw [getEv_divideBase]
  split_ifs <;> rfl

theorem pqInsert_perm (after : Nat → Nat → Bool) (e : Nat) (l : List Nat) :
    (pqInsert after e l).Perm (e :: l) := by
  induction l with
  | nil => exact List.Perm.refl _
  | cons x xs ih =>
    unfold pqInsert
    split_ifs
    · exact List.Perm.refl _
    · exact (List.Perm.cons x ih).trans (List.Perm.swap e x xs)

theorem divideSegment_eq (P : Primitives) (s : BooleanOpImp) (le : Nat) (p : Point_2) :
    (divideSegment P s le p).eq.Perm
      (s.eventHolder.length :: (s.eventHolder.length + 1) :: s.eq) := by
  unfold divideSegment
  simp only [eqPush, storeSweepEvent, List.length_append, List.length_singleton]
  exact (pqInsert_perm _ _ _).trans (List.Perm.cons _ (pqInsert_perm _ _ _))

theorem pairing_step (n le : Nat) (f g : Nat → Nat) (hle : le < n)
    (hf : ∀ i, i < n → f i < n ∧ f i ≠ i ∧ f (f i) = i)
    (hg : ∀ i, i < n + 2 → g i =
      if i = le then n else if i = f le then n + 1 else if i < n then f i
      else if i = n then le else f le) :
    ∀ i, i < n + 2 → g i < n + 2 ∧ g i ≠ i ∧ g (g i) = i := by
  obtain ⟨ho, hne, hoo⟩ := hf le hle
  have gle : g le = n := by rw [hg le (by omega), if_pos rfl]
  have go : g (f le) = n + 1 := by rw [hg (f le) (by omega), if_neg hne, if_pos rfl]
  have gn : g n = le := by
    rw [hg n (by omega), if_neg (by omega), if_neg (by omega), if_neg (by omega), if_pos rfl]
  have gn1 : g (n + 1) = f le := by
    rw [hg (n + 1) (by omega), if_neg (by omega), if_neg (by omega), if_neg (by omega),
      if_neg (by omega)]
  intro i hi
  by_cases h1 : i = le
  · subst h1
    rw [gle, gn]
    exact ⟨by omega, by omega, rfl⟩
  by_cases h2 : i = f le
  · subst h2
    rw [go, gn1]
    exact ⟨by omega, by omega, rfl⟩
  by_cases h3 : i < n
  · obtain ⟨a, b, c⟩ := hf i h3
    have gi : g i = f i := by rw [hg i hi, if_neg h1, if_neg h2, if_pos h3]
    have n1 : f i ≠ le := fun h => h2 (by rw [← c, h])
    have n2 : f i ≠ f le := fun h => h1 (by rw [← c, h, hoo])
    have gfi : g (f i) = f (f i) := by rw [hg (f i) (by omega), if_neg n1, if_neg n2, if_pos a]
    rw [gi, gfi]
    exact ⟨by omega, b, c⟩
  by_cases h4 : i = n
  · subst h4
    rw [gn, gle]
    exact ⟨by omega, by omega, rfl⟩
  · have h5 : i = n + 1 := by omega
    subst h5
    rw [gn1, go]
    exact ⟨by omega, by omega, rfl⟩

/-- C14: when every event of the arena is paired with another event of the arena
and pairing is mutual, then after `divideSegment (le, p)` the same holds: the
arena has two more events, which are pushed to the event queue; the first, `r`,
is at `p` and paired with `le`, the second, `l`, is at `p` and paired with the
former partner of `le`; the points of `le` and of its former partner and the
pairing of every other event are as before; both new events have the polygon tag
of `le`. -/
theorem divideSegment_pairing (P : Primitives) (s : BooleanOpImp) (le : Nat) (p : Point_2)
    (hle : le < s.eventHolder.length)
    (hpair : ∀ i, i < s.eventHolder.length →
      (getEv s.eventHolder i).otherEvent < s.eventHolder.length ∧
      (getEv s.eventHolder i).otherEvent ≠ i ∧
      (getEv s.eventHolder (getEv s.eventHolder i).otherEvent).otherEvent = i) :
    (divideSegment P s le p).eventHolder.length = s.eventHolder.length + 2 ∧
    (divideSegment P s le p).eq.Perm
      (s.eventHolder.length :: (s.eventHolder.length + 1) :: s.eq) ∧
    (∀ i, i < s.eventHolder.length + 2 →
      (getEv (divideSegment P s le p).eventHolder i).otherEvent < s.eventHolder.length + 2 ∧
      (getEv (divideSegment P s le p).eventHolder i).otherEvent ≠ i ∧
      (getEv (divideSegment P s le p).eventHolder
        (getEv (divideSegment P s le p).eventHolder i).otherEvent).otherEvent = i) ∧
    ((getEv (divideSegment P s le p).eventHolder s.eventHolder.length).point = p ∧
      (getEv (divideSegment P s le p).eventHolder s.eventHolder.length).otherEvent = le ∧
      (getEv (divideSegment P s le p).eventHolder le).otherEvent = s.eventHolder.length) ∧
    ((getEv (divideSegment P s le p).eventHolder (s.eventHolder.length + 1)).point = p ∧
      (getEv (divideSegment P s le p).eventHolder (s.eventHolder.length + 1)).otherEvent =
        (getEv s.eventHolder le).otherEvent ∧
      (getEv (divideSegment P s le p).eventHolder (getEv s.eventHolder le).otherEvent).otherEvent =
        s.eventHolder.length + 1) ∧
    (getEv (divideSegment P s le p).eventHolder le).point = (getEv s.eventHolder le).point ∧
    (getEv (divideSegment P s le p).eventHolder (getEv s.eventHolder le).otherEvent).point =
      (getEv s.eventHolder (getEv s.eventHolder le).otherEvent).point ∧
    (∀ i, i < s.eventHolder.length → i ≠ le → i ≠ (getEv s.eventHolder le).otherEvent →
      (getEv (divideSegment P s le p).eventHolder i).otherEvent =
        (getEv s.eventHolder i).otherEvent) ∧
    (getEv (divideSegment P s le p).eventHolder s.eventHolder.length).pol =
      (getEv s.eventHolder le).pol ∧
    (getEv (divideSegment P s le p).eventHolder (s.eventHolder.length + 1)).pol =
      (getEv s.eventHolder le).pol := by
  obtain ⟨ho, hne, hoo⟩ := hpair le hle
  have hstep := pairing_step s.eventHolder.length le (fun i => (getEv s.eventHolder i).otherEvent)
    (fun i => (getEv (divideSegment P s le p).eventHolder i).otherEvent) hle hpair
    (fun i hi => divideSegment_otherEvent P s le p hle i hi)
  refine ⟨length_divideSegment P s le p hle, divideSegment_eq P s le p, hstep, ⟨?_, ?_, ?_⟩,
    ⟨?_, ?_, ?_⟩, ?_, ?_, ?_, ?_, ?_⟩
  · rw [divideSegment_point P s le p hle _ (by omega), if_neg (by omega)]
  · rw [divideSegment_otherEvent P s le p hle _ (by omega), if_neg (by omega), if_neg (by omega),
      if_neg (by omega), if_pos rfl]
  · rw [divideSegment_otherEvent P s le p hle _ (by omega), if_pos rfl]
  · rw [divideSegment_point P s le p hle _ (by omega), if_neg (by omega)]
  · rw [divideSegment_otherEvent P s le p hle _ (by omega), if_neg (by omega), if_neg (by omega),
      if_neg (by omega), if_neg (by omega)]
  · rw [divideSegment_otherEvent P s le p hle _ (by omega), if_neg hne, if_pos rfl]
  · rw [divideSegment_point P s le p hle _ (by omega), if_pos hle]
  · rw [divideSegment_point P s le p hle _ (by omega), if_pos ho]
  · intro i hi h1 h2
    rw [divideSegment_otherEvent P s le p hle _ (by omega), if_neg h1, if_neg h2, if_pos hi]
  · rw [divideSegment_pol P s le p hle _ (by omega), if_neg (by omega)]
  · rw [divideSegment_pol P s le p hle _ (by omega), if_neg (by omega)]

/-- An instance of `divideSegment_pairing`: the diagonal of `crossArena` from (0,0)
to (4,4) divided at (2,2). -/
theorem divideSegment_pairing_witness :
    (∀ i, i < (stateOf crossArena).eventHolder.length →
      (getEv (stateOf crossArena).eventHolder i).otherEvent <
        (stateOf crossArena).eventHolder.length ∧
      (getEv (stateOf crossArena).eventHolder i).otherEvent ≠ i ∧
      (getEv (stateOf crossArena).eventHolder
        (getEv (stateOf crossArena).eventHolder i).otherEvent).otherEvent = i) ∧
    (divideSegment exact (stateOf crossArena) 0 ⟨2, 2⟩).eventHolder.length =
      (stateOf crossArena).eventHolder.length + 2 :=
  ⟨by decide, (divideSegment_pairing exact (stateOf crossArena) 0 ⟨2, 2⟩ (by decide) (by decide)).1⟩

/-! ### The roles of the events after `divideSegment` -/

theorem SweepEventComp_lexLt (evs : List SweepEvent) (a b : Nat)
    (h : lexLt (getEv evs a).point (getEv evs b).point = true) : SweepEventComp evs a b = false := by
  unfold lexLt at h
  simp only [Bool.or_eq_true, Bool.and_eq_true, decide_eq_true_eq] at h
  unfold SweepEventComp
  rcases h with h | ⟨h1, h2⟩
  · rw [if_neg (not_lt.mpr (le_of_lt h)), if_pos h]
  · rw [if_neg (by rw [h1]; exact lt_irrefl _), if_neg (by rw [h1]; exact lt_irrefl _),
      if_pos (ne_of_lt h2)]
    simp only [gt_iff_lt, decide_eq_false_iff_not, not_lt]
    exact le_of_lt h2

/-- C15: for a left event `le` whose partner is a right event, a point `p` after
the point of `le` and before the point of the partner in the order of the sweep,
and a sweep comparator that never places an event after one whose point is later
in that order: after `divideSegment (le, p)` the events `le` and `r` are paired,
`le` is flagged left and `r` right, and `le` is not processed after `r`; the
events `l` and the former partner of `le` are paired, `l` is flagged left and the
former partner right, and `l` is not processed after the former partner. -/
theorem divideSegment_roles (P : Primitives) (s : BooleanOpImp) (le : Nat) (p : Point_2)
    (hle : le < s.eventHolder.length)
    (ho : (getEv s.eventHolder le).otherEvent < s.eventHolder.length)
    (hl : (getEv s.eventHolder le).left = true)
    (hr : (getEv s.eventHolder (getEv s.eventHolder le).otherEvent).left = false)
    (hsec : ∀ (evs : List SweepEvent) (a b : Nat),
      lexLt (getEv evs a).point (getEv evs b).point = true → P.sec evs a b = false)
    (h1 : lexLt (getEv s.eventHolder le).point p = true)
    (h2 : lexLt p (getEv s.eventHolder (getEv s.eventHolder le).otherEvent).point = true) :
    ((getEv (divideSegment P s le p).eventHolder le).left = true ∧
      (getEv (divideSegment P s le p).eventHolder s.eventHolder.length).left = false ∧
      (getEv (divideSegment P s le p).eventHolder le).otherEvent = s.eventHolder.length ∧
      (getEv (divideSegment P s le p).eventHolder s.eventHolder.length).otherEvent = le ∧
      P.sec (divideSegment P s le p).eventHolder le s.eventHolder.length = false) ∧
    ((getEv (divideSegment P s le p).eventHolder (s.eventHolder.length + 1)).left = true ∧
      (getEv (divideSegment P s le p).eventHolder (getEv s.eventHolder le).otherEvent).left = false ∧
      (getEv (divideSegment P s le p).eventHolder (s.eventHolder.length + 1)).otherEvent =
        (getEv s.eventHolder le).otherEvent ∧
      (getEv (divideSegment P s le p).eventHolder (getEv s.eventHolder le).otherEvent).otherEvent =
        s.eventHolder.length + 1 ∧
      P.sec (divideSegment P s le p).eventHolder (s.eventHolder.length + 1)
        (getEv s.eventHolder le).otherEvent = false) := by
  have hne : (getEv s.eventHolder le).otherEvent ≠ le := by
    intro h
    rw [h, hl] at hr
    cases hr
  have hsw : divideSwaps P s.eventHolder le p = false := by
    unfold divideSwaps
    apply hsec
    rw [getEv_divideBase, if_neg (by omega), if_neg (by omega), if_pos rfl, getEv_divideBase,
      if_pos ho]
    exact h2
  refine ⟨⟨?_, ?_, ?_, ?_, ?_⟩, ⟨?_, ?_, ?_, ?_, ?_⟩⟩
  · rw [divideSegment_left P s le p hle _ (by omega) hsw, if_pos hle, hl]
  · rw [divideSegment_left P s le p hle _ (by omega) hsw, if_neg (by omega), if_pos rfl]
  · rw [divideSegment_otherEvent P s le p hle _ (by omega), if_pos rfl]
  · rw [divideSegment_otherEvent P s le p hle _ (by omega), if_neg (by omega), if_neg (by omega),
      if_neg (by omega), if_pos rfl]
  · apply hsec
    rw [divideSegment_point P s le p hle _ (by omega), if_pos hle,
      divideSegment_point P s le p hle _ (by omega), if_neg (by omega)]
    exact h1
  · rw [divideSegment_left P s le p hle _ (by omega) hsw, if_neg (by omega), if_neg (by omega)]
  · rw [divideSegment_left P s le p hle _ (by omega) hsw, if_pos ho, hr]
  · rw [divideSegment_otherEvent P s le p hle _ (by omega), if_neg (by omega), if_neg (by omega),
      if_neg (by omega), if_neg (by omega)]
  · rw [divideSegment_otherEvent P s le p hle _ (by omega), if_neg hne, if_pos rfl]
  · apply hsec
    rw [divideSegment_point P s le p hle _ (by omega), if_neg (by omega),
      divideSegment_point P s le p hle _ (by omega), if_pos ho]
    exact h2

/-- An instance of `divideSegment_roles`: the diagonal of `crossArena` from (0,0) to
(4,4) divided at (2,2), with the exact comparator. -/
theorem divideSegment_roles_witness :
    (getEv (divideSegment exact (stateOf crossArena) 0 ⟨2, 2⟩).eventHolder 5).left = true ∧
    (getEv (divideSegment exact (stateOf crossArena) 0 ⟨2, 2⟩).eventHolder 1).left = false ∧
    exact.sec (divideSegment exact (stateOf crossArena) 0 ⟨2, 2⟩).eventHolder 5 1 = false :=
  have h := (divideSegment_roles exact (stateOf crossArena) 0 ⟨2, 2⟩ (by decide) (by decide)
    (by decide) (by decide) SweepEventComp_lexLt (by decide!) (by decide!)).2
  ⟨h.1, h.2.1, h.2.2.2.2⟩

/-! ### Overlapping segments -/

theorem lexLt_iff (p q : Point_2) :
    lexLt p q = true ↔ (p.x < q.x ∨ (p.x = q.x ∧ p.y < q.y)) := by
  simp [lexLt]

theorem lexLt_ne (p q : Point_2) (h : lexLt p q = true) : p ≠ q := by
  rw [lexLt_iff] at h
  intro e
  subst e
  rcases h with h | ⟨_, h⟩ <;> exact lt_irrefl _ h

theorem lexLt_asymm (p q : Point_2) (h : lexLt p q = true) : lexLt q p = false := by
  rw [lexLt_iff] at h
  rw [← Bool.not_eq_true, lexLt_iff]
  rintro (h2 | ⟨h2, h3⟩)
  · rcases h with h | ⟨h, _⟩
    · exact lt_asymm h h2
    · rw [h] at h2
      exact lt_irrefl _ h2
  · rcases h with h | ⟨_, h⟩
    · rw [h2] at h
      exact lt_irrefl _ h
    · exact lt_asymm h h3

theorem lexLt_total (p q : Point_2) (h : p ≠ q) : lexLt p q = true ∨ lexLt q p = true := by
  rw [lexLt_iff, lexLt_iff]
  rcases lt_trichotomy p.x q.x with hx | hx | hx
  · exact Or.inl (Or.inl hx)
  · rcases lt_trichotomy p.y q.y with hy | hy | hy
    · exact Or.inl (Or.inr ⟨hx, hy⟩)
    · exfalso
      apply h
      cases p
      cases q
      simp only at hx hy
      rw [hx, hy]
    · exact Or.inr (Or.inr ⟨hx.symm, hy⟩)
  · exact Or.inr (Or.inl hx)

theorem lexLt_trans (p q r : Point_2) (h1 : lexLt p q = true) (h2 : lexLt q r = true) :
    lexLt p r = true := by
  rw [lexLt_iff] at *
  rcases h1 with h1 | ⟨h1, h1'⟩ <;> rcases h2 with h2 | ⟨h2, h2'⟩
  · exact Or.inl (lt_trans h1 h2)
  · exact Or.inl (h2 ▸ h1)
  · exact Or.inl (h1 ▸ h2)
  · exact Or.inr ⟨h1.trans h2, lt_trans h1' h2'⟩

theorem SweepEventComp_points (evs : List SweepEvent) (a b : Nat)
    (h : (getEv evs a).point ≠ (getEv evs b).point) :
    SweepEventComp evs a b = lexLt (getEv evs b).point (getEv evs a).point := by
  rcases lexLt_total _ _ h with h1 | h1
  · rw [SweepEventComp_lexLt evs a b h1, lexLt_asymm _ _ h1]
  · rw [h1]
    rw [lexLt_iff] at h1
    unfold SweepEventComp
    rcases h1 with h1 | ⟨h1, h2⟩
    · rw [if_pos h1]
    · rw [if_neg (by rw [h1]; exact lt_irrefl _), if_neg (by rw [h1]; exact lt_irrefl _),
        if_pos (ne_of_gt h2)]
      simp only [gt_iff_lt, decide_eq_true_eq]
      exact h2

theorem divideSegment_front (P : Primitives) (s : BooleanOpImp) (a b : Nat) (t : PolygonType)
    (pa pb x : Point_2) (hseg : IsSegment s.eventHolder a b t pa pb)
    (hsec : ∀ (evs : List SweepEvent) (i j : Nat),
      lexLt (getEv evs i).point (getEv evs j).point = true → P.sec evs i j = false)
    (hx : lexLt x pb = true) :
    IsSegment (divideSegment P s a x).eventHolder a s.eventHolder.length t pa x ∧
    IsSegment (divideSegment P s a x).eventHolder (s.eventHolder.length + 1) b t x pb := by
  obtain ⟨ha, hb, hla, hlb, hoa, hob, hta, htb, hpa, hpb⟩ := hseg
  have hne : b ≠ a := by
    intro h
    rw [h, hla] at hlb
    cases hlb
  have hsw : divideSwaps P s.eventHolder a x = false := by
    unfold divideSwaps
    apply hsec
    rw [getEv_divideBase, if_neg (by omega), if_neg (by omega), if_pos rfl, getEv_divideBase,
      hoa, if_pos hb, hpb]
    exact hx
  have hlen := length_divideSegment P s a x ha
  refine ⟨⟨by omega, by omega, ?_, ?_, ?_, ?_, ?_, ?_, ?_, ?_⟩,
    ⟨by omega, by omega, ?_, ?_, ?_, ?_, ?_, ?_, ?_, ?_⟩⟩
  · rw [divideSegment_left P s a x ha _ (by omega) hsw, if_pos ha, hla]
  · rw [divideSegment_left P s a x ha _ (by omega) hsw, if_neg (by omega), if_pos rfl]
  · rw [divideSegment_otherEvent P s a x ha _ (by omega), if_pos rfl]
  · rw [divideSegment_otherEvent P s a x ha _ (by omega), if_neg (by omega), hoa,
      if_neg (by omega), if_neg (by omega), if_pos rfl]
  · rw [divideSegment_pol P s a x ha _ (by omega), if_pos ha, hta]
  · rw [divideSegment_pol P s a x ha _ (by omega), if_neg (by omega), hta]
  · rw [divideSegment_point P s a x ha _ (by omega), if_pos ha, hpa]
  · rw [divideSegment_point P s a x ha _ (by omega), if_neg (by omega)]
  · rw [divideSegment_left P s a x ha _ (by omega) hsw, if_neg (by omega), if_neg (by omega)]
  · rw [divideSegment_left P s a x ha _ (by omega) hsw, if_pos hb, hlb]
  · rw [divideSegment_otherEvent P s a x ha _ (by omega), if_neg (by omega), hoa,
      if_neg (by omega), if_neg (by omega), if_neg (by omega)]
  · rw [divideSegment_otherEvent P s a x ha _ (by omega), if_neg hne, hoa, if_pos rfl]
  · rw [divideSegment_pol P s a x ha _ (by omega), if_neg (by omega), hta]
  · rw [divideSegment_pol P s a x ha _ (by omega), if_pos hb, htb]
  · rw [divideSegment_point P s a x ha _ (by omega), if_neg (by omega)]
  · rw [divideSegment_point P s a x ha _ (by omega), if_pos hb, hpb]

theorem divideSegment_keeps (P : Primitives) (s : BooleanOpImp) (a b : Nat) (t : PolygonType)
    (pa pb x : Point_2) (hseg : IsSegment s.eventHolder a b t pa pb)
    (hsec : ∀ (evs : List SweepEvent) (i j : Nat),
      lexLt (getEv evs i).point (getEv evs j).point = true → P.sec evs i j = false)
    (hx : lexLt x pb = true)
    (c d : Nat) (u : PolygonType) (pc pd : Point_2) (hcd : IsSegment s.eventHolder c d u pc pd)
    (hca : c ≠ a) :
    IsSegment (divideSegment P s a x).eventHolder c d u pc pd := by
  obtain ⟨ha, hb, hla, hlb, hoa, hob, hta, htb, hpa, hpb⟩ := hseg
  obtain ⟨hc, hd, hlc, hld, hoc, hod, htc, htd, hpc, hpd⟩ := hcd
  have hcb : c ≠ b := by
    intro h
    rw [h, hlb] at hlc
    cases hlc
  have hda : d ≠ a := by
    intro h
    rw [h, hla] at hld
    cases hld
  have hdb : d ≠ b := by
    intro h
    apply hca
    rw [← hod, h, hob]
  have hsw : divideSwaps P s.eventHolder a x = false := by
    unfold divideSwaps
    apply hsec
    rw [getEv_divideBase, if_neg (by omega), if_neg (by omega), if_pos rfl, getEv_divideBase,
      hoa, if_pos hb, hpb]
    exact hx
  have hlen := length_divideSegment P s a x ha
  refine ⟨by omega, by omega, ?_, ?_, ?_, ?_, ?_, ?_, ?_, ?_⟩
  · rw [divideSegment_left P s a x ha _ (by omega) hsw, if_pos hc, hlc]
  · rw [divideSegment_left P s a x ha _ (by omega) hsw, if_pos hd, hld]
  · rw [divideSegment_otherEvent P s a x ha _ (by omega), if_neg hca, hoa, if_neg hcb, if_pos hc,
      hoc]
  · rw [divideSegment_otherEvent P s a x ha _ (by omega), if_neg hda, hoa, if_neg hdb, if_pos hd,
      hod]
  · rw [divideSegment_pol P s a x ha _ (by omega), if_pos hc, htc]
  · rw [divideSegment_pol P s a x ha _ (by omega), if_pos hd, htd]
  · rw [divideSegment_point P s a x ha _ (by omega), if_pos hc, hpc]
  · rw [divideSegment_point P s a x ha _ (by omega), if_pos hd, hpd]

theorem getEv_markOverlap_frame {α : Type} (g : SweepEvent → α)
    (hg : ∀ (e : SweepEvent) (k : EdgeType), g { e with type := k } = g e)
    (evs : List SweepEvent) (le1 le2 i : Nat) :
    g (getEv (markOverlap evs le1 le2) i) = g (getEv evs i) := by
  unfold markOverlap
  simp only []
  rw [getEv_modEv_frame g _ _ _ _ (fun e => hg e _), getEv_modEv_frame g _ _ _ _ (fun e => hg e _)]

theorem markOverlap_keeps (evs : List SweepEvent) (le1 le2 c d : Nat) (u : PolygonType)
    (pc pd : Point_2) (hcd : IsSegment evs c d u pc pd) :
    IsSegment (markOverlap evs le1 le2) c d u pc pd := by
  unfold IsSegment
  rw [length_markOverlap,
    getEv_markOverlap_frame (fun e => e.left) (fun _ _ => rfl),
    getEv_markOverlap_frame (fun e => e.left) (fun _ _ => rfl),
    getEv_markOverlap_frame (fun e => e.otherEvent) (fun _ _ => rfl),
    getEv_markOverlap_frame (fun e => e.otherEvent) (fun _ _ => rfl),
    getEv_markOverlap_frame (fun e => e.pol) (fun _ _ => rfl),
    getEv_markOverlap_frame (fun e => e.pol) (fun _ _ => rfl),
    getEv_markOverlap_frame (fun e => e.point) (fun _ _ => rfl),
    getEv_markOverlap_frame (fun e => e.point) (fun _ _ => rfl)]
  exact hcd

theorem divideSegment_shifted (P : Primitives) (s : BooleanOpImp) (a ra b rb : Nat)
    (ta tb : PolygonType) (La Ra Lb Rb : Point_2)
    (hsa : IsSegment s.eventHolder a ra ta La Ra) (hsb : IsSegment s.eventHolder b rb tb Lb Rb)
    (hab : a ≠ b)
    (hsec : ∀ (evs : List SweepEvent) (i j : Nat),
      lexLt (getEv evs i).point (getEv evs j).point = true → P.sec evs i j = false)
    (h1 : lexLt Lb Ra = true) (h2 : lexLt Ra Rb = true) :
    IsSegment (divideSegment P (divideSegment P s a Lb) b Ra).eventHolder
      (s.eventHolder.length + 1) ra ta Lb Ra ∧
    IsSegment (divideSegment P (divideSegment P s a Lb) b Ra).eventHolder
      b (s.eventHolder.length + 2) tb Lb Ra ∧
    (divideSegment P (divideSegment P s a Lb) b Ra).eventHolder.length =
      s.eventHolder.length + 4 := by
  have hlen := length_divideSegment P s a Lb hsa.1
  have F := divideSegment_front P s a ra ta La Ra Lb hsa hsec h1
  have K := divideSegment_keeps P s a ra ta La Ra Lb hsa hsec h1 b rb tb Lb Rb hsb (Ne.symm hab)
  have F2 := divideSegment_front P (divideSegment P s a Lb) b rb tb Lb Rb Ra K hsec h2
  have K2 := divideSegment_keeps P (divideSegment P s a Lb) b rb tb Lb Rb Ra K hsec h2
    (s.eventHolder.length + 1) ra ta Lb Ra F.2 (by have := hsb.1; omega)
  rw [hlen] at F2
  refine ⟨K2, F2.1, ?_⟩
  rw [length_divideSegment P _ b Ra K.1, hlen]

theorem divideSegment_contained (P : Primitives) (s : BooleanOpImp) (a ra b rb : Nat)
    (ta tb : PolygonType) (La Ra Lb Rb : Point_2)
    (hsa : IsSegment s.eventHolder a ra ta La Ra) (hsb : IsSegment s.eventHolder b rb tb Lb Rb)
    (hab : a ≠ b)
    (hsec : ∀ (evs : List SweepEvent) (i j : Nat),
      lexLt (getEv evs i).point (getEv evs j).point = true → P.sec evs i j = false)
    (h1 : lexLt Lb Ra = true) (h2 : lexLt Rb Ra = true) :
    IsSegment (divideSegment P (divideSegment P s a Lb) (s.eventHolder.length + 1) Rb).eventHolder
      (s.eventHolder.length + 1) (s.eventHolder.length + 2) ta Lb Rb ∧
    IsSegment (divideSegment P (divideSegment P s a Lb) (s.eventHolder.length + 1) Rb).eventHolder
      b rb tb Lb Rb ∧
    (divideSegment P (divideSegment P s a Lb) (s.eventHolder.length + 1) Rb).eventHolder.length =
      s.eventHolder.length + 4 := by
  have hlen := length_divideSegment P s a Lb hsa.1
  have F := divideSegment_front P s a ra ta La Ra Lb hsa hsec h1
  have K := divideSegment_keeps P s a ra ta La Ra Lb hsa hsec h1 b rb tb Lb Rb hsb (Ne.symm hab)
  have F2 := divideSegment_front P (divideSegment P s a Lb) (s.eventHolder.length + 1) ra ta Lb Ra Rb
    F.2 hsec h2
  have K2 := divideSegment_keeps P (divideSegment P s a Lb) (s.eventHolder.length + 1) ra ta Lb Ra Rb
    F.2 hsec h2 b rb tb Lb Rb K (by have := hsb.1; omega)
  rw [hlen] at F2
  refine ⟨F2.1, K2, ?_⟩
  rw [length_divideSegment P _ _ Rb F.2.1, hlen]

/-- C13: for two segments of different polygons, each with a left and a right
event that are partners of each other, the left endpoint of each before the right
endpoint of the other, for which the intersection primitive reports an overlap,
and a sweep comparator that orders events with distinct points by x, then y: after `possibleIntersection (le1, le2)`
each polygon has a left and a right event, partners of each other, from the later
of the two left endpoints to the earlier of the two right endpoints; the arena
has grown by no event when the segments are equal, by the two events of one call
of `divideSegment` when they share exactly one endpoint, and by the four events
of two calls otherwise. -/
theorem possibleIntersection_overlap (P : Primitives) (s : BooleanOpImp) (le1 le2 r1 r2 : Nat)
    (t1 t2 : PolygonType) (L1 R1 L2 R2 : Point_2)
    (hs1 : IsSegment s.eventHolder le1 r1 t1 L1 R1)
    (hs2 : IsSegment s.eventHolder le2 r2 t2 L2 R2)
    (ht : t1 ≠ t2)
    (hn : (P.findIntersection (segment s.eventHolder le1) (segment s.eventHolder le2)).1 = 2)
    (hsec : ∀ (evs : List SweepEvent) (a b : Nat),
      (getEv evs a).point ≠ (getEv evs b).point →
      P.sec evs a b = lexLt (getEv evs b).point (getEv evs a).point)
    (ho1 : lexLt L1 R2 = true) (ho2 : lexLt L2 R1 = true) :
    (∃ a b, IsSegment (possibleIntersection P s le1 le2).1.eventHolder a b t1
      (if lexLt L1 L2 = true then L2 else L1) (if lexLt R1 R2 = true then R1 else R2)) ∧
    (∃ a b, IsSegment (possibleIntersection P s le1 le2).1.eventHolder a b t2
      (if lexLt L1 L2 = true then L2 else L1) (if lexLt R1 R2 = true then R1 else R2)) ∧
    (possibleIntersection P s le1 le2).1.eventHolder.length =
      s.eventHolder.length +
        (if L1 = L2 ∧ R1 = R2 then 0 else if L1 = L2 ∨ R1 = R2 then 2 else 4) := by
  have hsec2 : ∀ (evs : List SweepEvent) (i j : Nat),
      lexLt (getEv evs i).point (getEv evs j).point = true → P.sec evs i j = false := by
    intro evs i j h
    rw [hsec evs i j (lexLt_ne _ _ h), lexLt_asymm _ _ h]
  have hs1c := hs1
  have hs2c := hs2
  obtain ⟨ha1, hb1, hla1, hlb1, hoa1, hob1, hta1, htb1, hpa1, hpb1⟩ := hs1c
  obtain ⟨ha2, hb2, hla2, hlb2, hoa2, hob2, hta2, htb2, hpa2, hpb2⟩ := hs2c
  have hpol : (getEv s.eventHolder le1).pol ≠ (getEv s.eventHolder le2).pol := by
    rw [hta1, hta2]
    exact ht
  have hne : le1 ≠ le2 := fun h => hpol (by rw [h])
  have op1 : otherPoint s.eventHolder le1 = R1 := by
    unfold otherPoint
    rw [hoa1, hpb1]
  have op2 : otherPoint s.eventHolder le2 = R2 := by
    unfold otherPoint
    rw [hoa2, hpb2]
  have hpi : possibleIntersection P s le1 le2 = overlapCase P s le1 le2 := by
    unfold possibleIntersection
    simp [hn, hpol]
  rw [hpi]
  unfold overlapCase overlapOrder
  simp only [hpa1, hpa2, op1, op2, hoa1, hoa2]
  have m1 := markOverlap_keeps s.eventHolder le1 le2 le1 r1 t1 L1 R1 hs1
  have m2 := markOverlap_keeps s.eventHolder le1 le2 le2 r2 t2 L2 R2 hs2
  by_cases hL : L1 = L2
  · subst hL
    by_cases hR : R1 = R2
    · subst hR
      simp only [if_true, ite_self, and_self, List.singleton_append]
      exact ⟨⟨le1, r1, m1⟩, ⟨le2, r2, m2⟩, by rw [length_markOverlap]; rfl⟩
    · have hsr : P.sec s.eventHolder r1 r2 = lexLt R2 R1 := by
        rw [hsec s.eventHolder r1 r2 (by rw [hpb1, hpb2]; exact hR), hpb1, hpb2]
      by_cases hlt : lexLt R1 R2 = true
      · have hgt : lexLt R2 R1 = false := lexLt_asymm _ _ hlt
        simp only [hR, hsr, hgt, hlt, if_true, if_false, ite_self, List.singleton_append,
          Bool.false_eq_true, true_and, and_false, true_or]
        rw [m2.2.2.2.2.2.1, m1.2.2.2.2.2.2.2.2.2]
        have F := divideSegment_front P { s with eventHolder := markOverlap s.eventHolder le1 le2 }
          le2 r2 t2 L1 R2 R1 m2 hsec2 hlt
        have K := divideSegment_keeps P { s with eventHolder := markOverlap s.eventHolder le1 le2 }
          le2 r2 t2 L1 R2 R1 m2 hsec2 hlt le1 r1 t1 L1 R1 m1 hne
        refine ⟨⟨le1, r1, K⟩, ⟨le2, _, F.1⟩, ?_⟩
        rw [length_divideSegment P _ le2 R1 m2.1]
        simp only [length_markOverlap]
      · have hgt : lexLt R2 R1 = true := by
          rcases lexLt_total R1 R2 hR with h | h
          · exact absurd h hlt
          · exact h
        simp only [hR, hsr, hgt, hlt, if_true, if_false, ite_self, List.singleton_append,
          Bool.false_eq_true, true_and, and_false, true_or]
        rw [m1.2.2.2.2.2.1, m2.2.2.2.2.2.2.2.2.2]
        have F := divideSegment_front P { s with eventHolder := markOverlap s.eventHolder le1 le2 }
          le1 r1 t1 L1 R1 R2 m1 hsec2 hgt
        have K := divideSegment_keeps P { s with eventHolder := markOverlap s.eventHolder le1 le2 }
          le1 r1 t1 L1 R1 R2 m1 hsec2 hgt le2 r2 t2 L1 R2 m2 (Ne.symm hne)
        refine ⟨⟨le1, _, F.1⟩, ⟨le2, r2, K⟩, ?_⟩
        rw [length_divideSegment P _ le1 R2 m1.1]
        simp only [length_markOverlap]
  · have hsl : P.sec s.eventHolder le1 le2 = lexLt L2 L1 := by
      rw [hsec s.eventHolder le1 le2 (by rw [hpa1, hpa2]; exact hL), hpa1, hpa2]
    by_cases hR : R1 = R2
    · subst hR
      by_cases hlt : lexLt L1 L2 = true
      · have hgt : lexLt L2 L1 = false := lexLt_asymm _ _ hlt
        simp only [hL, hsl, hgt, hlt, if_true, if_false, ite_self, List.cons_append,
          List.nil_append, Bool.false_eq_true, false_and, and_true, or_true, hpa2]
        have F := divideSegment_front P s le1 r1 t1 L1 R1 L2 hs1 hsec2 ho2
        have K := divideSegment_keeps P s le1 r1 t1 L1 R1 L2 hs1 hsec2 ho2 le2 r2 t2 L2 R1 hs2
          (Ne.symm hne)
        exact ⟨⟨_, r1, F.2⟩, ⟨le2, r2, K⟩, length_divideSegment P s le1 L2 ha1⟩
      · have hgt : lexLt L2 L1 = true := by
          rcases lexLt_total L1 L2 hL with h | h
          · exact absurd h hlt
          · exact h
        simp only [hL, hsl, hgt, hlt, if_true, if_false, ite_self, List.cons_append,
          List.nil_append, Bool.false_eq_true, false_and, and_true, or_true, hpa1]
        have F := divideSegment_front P s le2 r2 t2 L2 R1 L1 hs2 hsec2 ho1
        have K := divideSegment_keeps P s le2 r2 t2 L2 R1 L1 hs2 hsec2 ho1 le1 r1 t1 L1 R1 hs1 hne
        exact ⟨⟨le1, r1, K⟩, ⟨_, r2, F.2⟩, length_divideSegment P s le2 L1 ha2⟩
    · have hsr : P.sec s.eventHolder r1 r2 = lexLt R2 R1 := by
        rw [hsec s.eventHolder r1 r2 (by rw [hpb1, hpb2]; exact hR), hpb1, hpb2]
      by_cases hlt : lexLt L1 L2 = true
      · have hgt : lexLt L2 L1 = false := lexLt_asymm _ _ hlt
        have F := divideSegment_front P s le1 r1 t1 L1 R1 L2 hs1 hsec2 ho2
        have K := divideSegment_keeps P s le1 r1 t1 L1 R1 L2 hs1 hsec2 ho2 le2 r2 t2 L2 R2 hs2
          (Ne.symm hne)
        by_cases hrt : lexLt R1 R2 = true
        · have hrg : lexLt R2 R1 = false := lexLt_asymm _ _ hrt
          simp only [hL, hR, hsl, hsr, hgt, hlt, hrt, hrg, if_true, if_false, List.cons_append,
            List.nil_append, Bool.false_eq_true, false_and, and_false, or_self, hpa2, hob2,
            ne_eq, hne, not_false_eq_true]
          rw [F.2.2.2.2.2.2.2.2.2.2]
          obtain ⟨A, B, C⟩ := divideSegment_shifted P s le1 r1 le2 r2 t1 t2 L1 R1 L2 R2 hs1 hs2 hne
            hsec2 ho2 hrt
          exact ⟨⟨_, _, A⟩, ⟨_, _, B⟩, C⟩
        · have hrg : lexLt R2 R1 = true := by
            rcases lexLt_total R1 R2 hR with h | h
            · exact absurd h hrt
            · exact h
          simp only [hL, hR, hsl, hsr, hgt, hlt, hrt, hrg, if_true, if_false, List.cons_append,
            List.nil_append, Bool.false_eq_true, false_and, and_false, or_self, hpa2, hob1,
            ne_eq, not_true_eq_false]
          rw [F.2.2.2.2.2.2.1, K.2.2.2.2.2.2.2.2.2]
          obtain ⟨A, B, C⟩ := divideSegment_contained P s le1 r1 le2 r2 t1 t2 L1 R1 L2 R2 hs1 hs2
            hne hsec2 ho2 hrg
          exact ⟨⟨_, _, A⟩, ⟨_, _, B⟩, C⟩
      · have hgt : lexLt L2 L1 = true := by
          rcases lexLt_total L1 L2 hL with h | h
          · exact absurd h hlt
          · exact h
        have F := divideSegment_front P s le2 r2 t2 L2 R2 L1 hs2 hsec2 ho1
        have K := divideSegment_keeps P s le2 r2 t2 L2 R2 L1 hs2 hsec2 ho1 le1 r1 t1 L1 R1 hs1 hne
        by_cases hrt : lexLt R1 R2 = true
        · have hrg : lexLt R2 R1 = false := lexLt_asymm _ _ hrt
          simp only [hL, hR, hsl, hsr, hgt, hlt, hrt, hrg, if_true, if_false, List.cons_append,
            List.nil_append, Bool.false_eq_true, false_and, and_false, or_self, hpa1, hob2,
            ne_eq, not_true_eq_false]
          rw [F.2.2.2.2.2.2.1, K.2.2.2.2.2.2.2.2.2]
          obtain ⟨A, B, C⟩ := divideSegment_contained P s le2 r2 le1 r1 t2 t1 L2 R2 L1 R1 hs2 hs1
            (Ne.symm hne) hsec2 ho1 hrt
          exact ⟨⟨_, _, B⟩, ⟨_, _, A⟩, C⟩
        · have hrg : lexLt R2 R1 = true := by
            rcases lexLt_total R1 R2 hR with h | h
            · exact absurd h hrt
            · exact h
          simp only [hL, hR, hsl, hsr, hgt, hlt, hrt, hrg, if_true, if_false, List.cons_append,
            List.nil_append, Bool.false_eq_true, false_and, and_false, or_self, hpa1, hob1,
            ne_eq, Ne.symm hne, not_false_eq_true]
          rw [F.2.2.2.2.2.2.2.2.2.2]
          obtain ⟨A, B, C⟩ := divideSegment_shifted P s le2 r2 le1 r1 t2 t1 L2 R2 L1 R1 hs2 hs1
            (Ne.symm hne) hsec2 ho1 hrg
          exact ⟨⟨_, _, B⟩, ⟨_, _, A⟩, C⟩

/-- An instance of `possibleIntersection_overlap`: the segments of `shiftedArena`,
from (0,0) to (4,0) and from (2,0) to (6,0), overlap from (2,0) to (4,0), and two
calls of `divideSegment` add four events. -/
theorem possibleIntersection_overlap_witness :
    (exact.findIntersection (segment (stateOf shiftedArena).eventHolder 0)
      (segment (stateOf shiftedArena).eventHolder 2)).1 = 2 ∧
    (possibleIntersection exact (stateOf shiftedArena) 0 2).1.eventHolder.length =
      (stateOf shiftedArena).eventHolder.length +
        (if (⟨0, 0⟩ : Point_2) = ⟨2, 0⟩ ∧ (⟨4, 0⟩ : Point_2) = ⟨6, 0⟩ then 0
         else if (⟨0, 0⟩ : Point_2) = ⟨2, 0⟩ ∨ (⟨4, 0⟩ : Point_2) = ⟨6, 0⟩ then 2 else 4) :=
  ⟨by decide!,
   (possibleIntersection_overlap exact (stateOf shiftedArena) 0 2 1 3 .SUBJECT .CLIPPING
    ⟨0, 0⟩ ⟨4, 0⟩ ⟨2, 0⟩ ⟨6, 0⟩ (by decide!) (by decide!) (by decide) (by decide!)
    SweepEventComp_points (by decide!) (by decide!)).2.2⟩

/-! ### The status-line comparator -/

theorem signedArea_collinear (A B C D : Point_2) (hAB : A ≠ B) (h1 : signedArea A B C = 0)
    (h2 : signedArea A B D = 0) : signedArea C D A = 0 ∧ signedArea C D B = 0 := by
  unfold signedArea at *
  have hA : (C.x - A.x) * (D.y - A.y) - (D.x - A.x) * (C.y - A.y) = 0 := by
    by_cases hx : B.x - A.x = 0
    · have hy : B.y - A.y ≠ 0 := by
        intro hy
        apply hAB
        cases A
        cases B
        simp only at hx hy
        congr 1
        · linarith
        · linarith
      have h : (B.y - A.y) * ((C.x - A.x) * (D.y - A.y) - (D.x - A.x) * (C.y - A.y)) = 0 := by
        linear_combination (C.y - A.y) * h2 - (D.y - A.y) * h1
      rcases mul_eq_zero.mp h with h | h
      · exact absurd h hy
      · exact h
    · have h : (B.x - A.x) * ((C.x - A.x) * (D.y - A.y) - (D.x - A.x) * (C.y - A.y)) = 0 := by
        linear_combination (C.x - A.x) * h2 - (D.x - A.x) * h1
      rcases mul_eq_zero.mp h with h | h
      · exact absurd h hx
      · exact h
  exact ⟨hA, by linear_combination hA + h1 - h2⟩

theorem signedArea_collinear_iff (A B C D : Point_2) (hAB : A ≠ B) (hCD : C ≠ D) :
    (signedArea A B C ≠ 0 ∨ signedArea A B D ≠ 0) ↔
      (signedArea C D A ≠ 0 ∨ signedArea C D B ≠ 0) := by
  constructor
  · intro h
    by_contra hc
    push_neg at hc
    obtain ⟨a, b⟩ := signedArea_collinear C D A B hCD hc.1 hc.2
    rcases h with h | h
    · exact h a
    · exact h b
  · intro h
    by_contra hc
    push_neg at hc
    obtain ⟨a, b⟩ := signedArea_collinear A B C D hAB hc.1 hc.2
    rcases h with h | h
    · exact h a
    · exact h b

theorem PolygonType.lt_total (t u : PolygonType) (h : t ≠ u) :
    PolygonType.lt t u = !PolygonType.lt u t := by
  cases t <;> cases u <;> first | rfl | exact absurd rfl h

/-- C16, amended: with a signed area that is zero exactly when the exact one is,
`below` the test of the exact signed area and `above` its negation, and a sweep
comparator that holds in exactly one direction between two distinct events `a`
and `b`: `SegmentComp (a, a)` is false, and for two distinct left events `a` and
`b` whose segments have two distinct endpoints each, exactly one of
`SegmentComp (a, b)` and `SegmentComp (b, a)` is true. -/
theorem SegmentComp_strict_total (P : Primitives) (evs : List SweepEvent) (a b : Nat)
    (hzero : ∀ p q r : Point_2, P.signedArea p q r = 0 ↔ signedArea p q r = 0)
    (hbel : ∀ (l : List SweepEvent) (e : Nat) (p : Point_2), P.below l e p = below l e p)
    (habv : ∀ (l : List SweepEvent) (e : Nat) (p : Point_2), P.above l e p = !P.below l e p)
    (hsec : a ≠ b → P.sec evs a b = !P.sec evs b a) :
    SegmentComp P evs a a = false ∧
    (a ≠ b → (getEv evs a).left = true → (getEv evs b).left = true →
      (getEv evs a).point ≠ otherPoint evs a → (getEv evs b).point ≠ otherPoint evs b →
      SegmentComp P evs a b = !SegmentComp P evs b a) := by
  refine ⟨by simp [SegmentComp], ?_⟩
  intro hab hla hlb hda hdb
  unfold SegmentComp
  simp only [ne_eq, hzero, habv, hbel, below, hla, hlb, if_neg hab, if_neg (Ne.symm hab), if_true]
  have hs := hsec hab
  generalize P.sec evs a b = sab at hs ⊢
  generalize P.sec evs b a = sba at hs ⊢
  have hpol := PolygonType.lt_total (getEv evs a).pol (getEv evs b).pol
  generalize (getEv evs a).pol = ta at hpol ⊢
  generalize (getEv evs b).pol = tb at hpol ⊢
  generalize otherPoint evs a = o1 at hda ⊢
  generalize otherPoint evs b = o2 at hdb ⊢
  generalize (getEv evs a).point = p1 at hda ⊢
  generalize (getEv evs b).point = p2 at hdb ⊢
  have hiff := signedArea_collinear_iff p1 o1 p2 o2 hda hdb
  simp only [ne_eq] at hiff
  by_cases hcol : ¬signedArea p1 o1 p2 = 0 ∨ ¬signedArea p1 o1 o2 = 0
  · rw [if_pos hcol, if_pos (hiff.mp hcol)]
    by_cases hp : p1 = p2
    · subst hp
      rw [if_pos rfl, if_pos rfl]
      have h0 : signedArea p1 o1 p1 = 0 := by
        unfold signedArea
        ring
      have hne : signedArea p1 o1 o2 ≠ 0 := by
        rcases hcol with h | h
        · exact absurd h0 h
        · exact h
      have hanti : signedArea p1 o2 o1 = - signedArea p1 o1 o2 := by
        unfold signedArea
        ring
      rw [hanti]
      rcases lt_or_gt_of_ne hne with h | h
      · have h2 : ¬ signedArea p1 o1 o2 > 0 := not_lt.mpr (le_of_lt h)
        have h3 : - signedArea p1 o1 o2 > 0 := by linarith
        simp [h2, h3]
      · have h3 : ¬ - signedArea p1 o1 o2 > 0 := by
          intro h4
          linarith
        simp [h, h3]
    · rw [if_neg hp, if_neg (Ne.symm hp)]
      by_cases hx : p1.x = p2.x
      · rw [if_pos hx, if_pos hx.symm]
        have hy : p1.y ≠ p2.y := by
          intro hy
          apply hp
          cases p1
          cases p2
          simp only at hx hy
          rw [hx, hy]
        rcases lt_or_gt_of_ne hy with h | h
        · have h2 : ¬ p2.y < p1.y := not_lt.mpr (le_of_lt h)
          simp [h, h2]
        · have h2 : ¬ p1.y < p2.y := not_lt.mpr (le_of_lt h)
          simp [h, h2]
      · rw [if_neg hx, if_neg (Ne.symm hx)]
        subst hs
        cases sba <;> simp
  · rw [if_neg hcol, if_neg (fun h => hcol (hiff.mpr h))]
    by_cases ht : ta = tb
    · subst ht
      simp only [not_true_eq_false, if_false]
      by_cases hp : p1 = p2
      · subst hp
        simp only [if_true]
        rcases Nat.lt_or_gt_of_ne hab with h | h
        · have h2 : ¬ b < a := by omega
          simp [h, h2]
        · have h2 : ¬ a < b := by omega
          simp [h, h2]
      · rw [if_neg hp, if_neg (Ne.symm hp)]
        exact hs
    · rw [if_pos ht, if_pos (Ne.symm ht)]
      exact hpol ht

/-- C16, refuted as stated: with the signed area in double precision, the left
events of the segments of `nearArena`, from (0,0) to (1,0) and from (-2^53, 1) to
(5,0), are distinct, their segments have distinct endpoints, `above` is the
negation of `below` and the sweep comparator holds in exactly one direction
between any two of the four events; the first segment finds both endpoints of the second on its line,
the second does not find the endpoints of the first on its line, and
`SegmentComp` is false in both directions. With the exact signed area it is true
from the first to the second. -/
theorem SegmentComp_strict_total_counterexample :
    ((getEv nearArena 0).left = true ∧ (getEv nearArena 2).left = true ∧
      (getEv nearArena 0).point ≠ otherPoint nearArena 0 ∧
      (getEv nearArena 2).point ≠ otherPoint nearArena 2 ∧
      doubleOrder.sec nearArena 0 2 = true ∧ doubleOrder.sec nearArena 2 0 = false ∧
      doubleOrder.signedArea (getEv nearArena 0).point (otherPoint nearArena 0)
        (getEv nearArena 2).point = 0 ∧
      doubleOrder.signedArea (getEv nearArena 0).point (otherPoint nearArena 0)
        (otherPoint nearArena 2) = 0 ∧
      doubleOrder.signedArea (getEv nearArena 2).point (otherPoint nearArena 2)
        (getEv nearArena 0).point = -5 ∧
      SegmentComp doubleOrder nearArena 0 2 = false ∧
      SegmentComp doubleOrder nearArena 2 0 = false ∧
      SegmentComp exact nearArena 0 2 = true ∧
      (∀ x, x < 4 → ∀ y, y < 4 → x ≠ y →
        doubleOrder.sec nearArena x y = !doubleOrder.sec nearArena y x)) ∧
    (∀ (l : List SweepEvent) (e : Nat) (p : Point_2),
      doubleOrder.above l e p = !doubleOrder.below l e p) :=
  ⟨by decide!, fun _ _ _ => rfl⟩

/-- An instance of `SegmentComp_strict_total`: the two diagonals of `crossArena`
with the exact primitives; the one that starts at (0,0) precedes the one that
starts at (0,4). -/
theorem SegmentComp_strict_total_witness :
    SegmentComp exact crossArena 0 2 = !SegmentComp exact crossArena 2 0 :=
  (SegmentComp_strict_total exact crossArena 0 2 (fun _ _ _ => Iff.rfl) (fun _ _ _ => rfl)
    (fun _ _ _ => rfl) (fun _ => by decide!)).2 (by decide) (by decide) (by decide) (by decide!)
    (by decide!)

/-! ### The field `prevInResult` -/

theorem computeInOut_frame {α : Type} (g : SweepEvent → α)
    (h1 : ∀ (e : SweepEvent) (b : Bool), g { e with inOut := b } = g e)
    (h2 : ∀ (e : SweepEvent) (b : Bool), g { e with otherInOut := b } = g e)
    (evs : List SweepEvent) (le : Nat) (prev : Option Nat) (j : Nat) :
    g (getEv (computeInOut evs le prev) j) = g (getEv evs j) := by
  cases prev with
  | none =>
    simp only [computeInOut]
    rw [getEv_modEv_frame g _ _ _ _ (fun e => h2 e _), getEv_modEv_frame g _ _ _ _ (fun e => h1 e _)]
  | some p =>
    simp only [computeInOut]
    split_ifs <;>
    rw [getEv_modEv_frame g _ _ _ _ (fun e => h2 e _), getEv_modEv_frame g _ _ _ _ (fun e => h1 e _)]

theorem length_divideSegment_all (P : Primitives) (s : BooleanOpImp) (le : Nat) (p : Point_2) :
    (divideSegment P s le p).eventHolder.length = s.eventHolder.length + 2 := by
  unfold divideSegment
  simp only [eqPush, storeSweepEvent, length_modEv]
  split_ifs <;> simp [length_modEv]

theorem divideSegment_sl (P : Primitives) (s : BooleanOpImp) (le : Nat) (p : Point_2) :
    (divideSegment P s le p).sl = s.sl ∧
    (divideSegment P s le p).sortedEvents = s.sortedEvents := by
  simp [divideSegment, eqPush, storeSweepEvent]

theorem divideSegment_new_prevInResult (P : Primitives) (s : BooleanOpImp) (le : Nat) (p : Point_2)
    (i : Nat) (hi : s.eventHolder.length ≤ i) :
    (getEv (divideSegment P s le p).eventHolder i).prevInResult = none := by
  have hl : ∀ (e : SweepEvent) (b : Bool),
      (fun x : SweepEvent => x.prevInResult) { e with left := b } = e.prevInResult := fun _ _ => rfl
  have ho : ∀ (e : SweepEvent) (k : Nat),
      (fun x : SweepEvent => x.prevInResult) { e with otherEvent := k } = e.prevInResult :=
    fun _ _ => rfl
  have hbase : ∀ (r l : SweepEvent), r.prevInResult = none → l.prevInResult = none →
      (getEv ((s.eventHolder ++ [r]) ++ [l]) i).prevInResult = none := by
    intro r l hr hl
    rw [getEv_append, getEv_append]
    simp only [List.length_append, List.length_singleton]
    split_ifs <;> first | exact hr | exact hl | rfl | (exfalso; omega)
  unfold divideSegment
  simp only [eqPush, storeSweepEvent]
  rw [getEv_modEv_frame (fun x => x.prevInResult) _ _ _ _ (fun e => ho e _),
    getEv_modEv_frame (fun x => x.prevInResult) _ _ _ _ (fun e => ho e _)]
  split_ifs
  · rw [getEv_modEv_frame (fun x => x.prevInResult) _ _ _ _ (fun e => hl e _),
      getEv_modEv_frame (fun x => x.prevInResult) _ _ _ _ (fun e => hl e _)]
    exact hbase _ _ rfl rfl
  · exact hbase _ _ rfl rfl

theorem divideSegment_unwritten (P : Primitives) (s : BooleanOpImp) (le : Nat) (p : Point_2)
    (h : Unwritten s) : Unwritten (divideSegment P s le p) := by
  obtain ⟨h1, h2, h3, h4, h5⟩ := h
  obtain ⟨esl, elog⟩ := divideSegment_sl P s le p
  have hlen := length_divideSegment_all P s le p
  have hperm := divideSegment_eq P s le p
  refine ⟨?_, ?_, ?_, ?_, ?_⟩
  · intro e he
    rw [elog] at he
    by_cases hlt : e < s.eventHolder.length
    · rw [divideSegment_frame (fun x => x.prevInResult) (fun _ _ => rfl) (fun _ _ => rfl) P s le p e
        hlt]
      exact h1 e he
    · exact divideSegment_new_prevInResult P s le p e (by omega)
  · intro e he
    rw [esl] at he
    rw [elog]
    exact h2 e he
  · rw [hperm.nodup_iff]
    refine List.nodup_cons.mpr ⟨?_, List.nodup_cons.mpr ⟨?_, h3⟩⟩
    · intro hm
      rcases List.mem_cons.mp hm with hm | hm
      · omega
      · have := (h4 _ hm).1
        omega
    · intro hm
      have := (h4 _ hm).1
      omega
  · intro e he
    rw [elog, hlen]
    rcases List.mem_cons.mp (hperm.mem_iff.mp he) with hm | hm
    · subst hm
      exact ⟨by omega, fun hx => absurd (h5 _ hx) (by omega)⟩
    · rcases List.mem_cons.mp hm with hm | hm
      · subst hm
        exact ⟨by omega, fun hx => absurd (h5 _ hx) (by omega)⟩
      · exact ⟨by have := (h4 e hm).1; omega, (h4 e hm).2⟩
  · intro e he
    rw [elog] at he
    rw [hlen]
    have := h5 e he
    omega

theorem unwritten_eventHolder (s : BooleanOpImp) (evs : List SweepEvent) (h : Unwritten s)
    (hlen : evs.length = s.eventHolder.length)
    (hfield : ∀ e, e ∉ s.sortedEvents → (getEv evs e).prevInResult = none) :
    Unwritten { s with eventHolder := evs } := by
  obtain ⟨_, h2, h3, h4, h5⟩ := h
  refine ⟨hfield, h2, h3, ?_, ?_⟩
  · intro e he
    simp only [hlen]
    exact h4 e he
  · intro e he
    simp only [hlen]
    exact h5 e he

theorem markOverlap_unwritten (s : BooleanOpImp) (le1 le2 : Nat) (h : Unwritten s) :
    Unwritten { s with eventHolder := markOverlap s.eventHolder le1 le2 } := by
  apply unwritten_eventHolder s _ h (length_markOverlap _ _ _)
  intro e he
  rw [getEv_markOverlap_frame (fun x => x.prevInResult) (fun _ _ => rfl)]
  exact h.1 e he

theorem length_computeFields (s : BooleanOpImp) (le : Nat) (prev : Option Nat) :
    (computeFields s le prev).eventHolder.length = s.eventHolder.length := by
  simp only [computeFields, length_modEv, length_computePrevInResult, length_computeInOut]

theorem computeFields_other (s : BooleanOpImp) (le : Nat) (prev : Option Nat) (e : Nat)
    (h : e ≠ le) :
    (getEv (computeFields s le prev).eventHolder e).prevInResult =
      (getEv s.eventHolder e).prevInResult := by
  unfold computeFields
  simp only []
  rw [getEv_modEv, if_neg (fun hh => h hh.1.symm)]
  unfold computePrevInResult
  cases prev with
  | none =>
    simp only []
    exact computeInOut_frame (fun x => x.prevInResult) (fun _ _ => rfl) (fun _ _ => rfl) _ _ _ _
  | some p =>
    simp only []
    rw [getEv_modEv, if_neg (fun hh => h hh.1.symm)]
    exact computeInOut_frame (fun x => x.prevInResult) (fun _ _ => rfl) (fun _ _ => rfl) _ _ _ _

theorem computeFields_unwritten (s : BooleanOpImp) (le : Nat) (prev : Option Nat)
    (h : Unwritten s) (hle : le ∈ s.sortedEvents) : Unwritten (computeFields s le prev) := by
  have e1 : computeFields s le prev =
      { s with eventHolder := (computeFields s le prev).eventHolder } := rfl
  rw [e1]
  apply unwritten_eventHolder s _ h (length_computeFields s le prev)
  intro e he
  have hne : e ≠ le := fun hh => he (hh ▸ hle)
  rw [computeFields_other s le prev e hne]
  exact h.1 e he

theorem keeps_refl (s : BooleanOpImp) : KeepsUnwritten s s := ⟨fun h => h, rfl, rfl⟩

theorem keeps_trans {s t u : BooleanOpImp} (h1 : KeepsUnwritten s t) (h2 : KeepsUnwritten t u) :
    KeepsUnwritten s u :=
  ⟨fun h => h2.1 (h1.1 h), h2.2.1.trans h1.2.1, h2.2.2.trans h1.2.2⟩

theorem keeps_divideSegment (P : Primitives) (s : BooleanOpImp) (le : Nat) (p : Point_2) :
    KeepsUnwritten s (divideSegment P s le p) :=
  ⟨divideSegment_unwritten P s le p, (divideSegment_sl P s le p).1, (divideSegment_sl P s le p).2⟩

theorem keeps_markOverlap (s : BooleanOpImp) (le1 le2 : Nat) :
    KeepsUnwritten s { s with eventHolder := markOverlap s.eventHolder le1 le2 } :=
  ⟨markOverlap_unwritten s le1 le2, rfl, rfl⟩

theorem keeps_computeFields (s : BooleanOpImp) (le : Nat) (prev : Option Nat)
    (hle : le ∈ s.sortedEvents) : KeepsUnwritten s (computeFields s le prev) :=
  ⟨fun h => computeFields_unwritten s le prev h hle, rfl, rfl⟩

theorem keeps_overlapCase (P : Primitives) (s : BooleanOpImp) (le1 le2 : Nat) :
    KeepsUnwritten s (overlapCase P s le1 le2).1 := by
  unfold overlapCase
  simp only []
  split
  · exact keeps_markOverlap s le1 le2
  · exact keeps_trans (keeps_markOverlap s le1 le2) (keeps_divideSegment P _ _ _)
  · exact keeps_divideSegment P _ _ _
  · split_ifs
    · exact keeps_trans (keeps_divideSegment P _ _ _) (keeps_divideSegment P _ _ _)
    · exact keeps_trans (keeps_divideSegment P _ _ _) (keeps_divideSegment P _ _ _)
  · exact keeps_refl s

theorem keeps_possibleIntersection (P : Primitives) (s : BooleanOpImp) (le1 le2 : Nat) :
    KeepsUnwritten s (possibleIntersection P s le1 le2).1 := by
  unfold possibleIntersection
  simp only []
  split_ifs
  · exact keeps_refl s
  · exact keeps_refl s
  · exact keeps_refl s
  · exact keeps_trans (keeps_divideSegment P _ _ _) (keeps_divideSegment P _ _ _)
  · exact keeps_divideSegment P _ _ _
  · exact keeps_divideSegment P _ _ _
  · exact keeps_refl s
  · exact keeps_overlapCase P s le1 le2

theorem mem_slInsert (lt : Nat → Nat → Bool) (k : Nat) (sl : List Nat) :
    ∀ (j : Option Nat) (e : Nat), e ∈ (slInsert lt k j sl).1 → e = k ∨ e ∈ sl := by
  induction sl with
  | nil =>
    intro j e he
    cases j with
    | none =>
      simp only [slInsert, List.mem_singleton] at he
      exact Or.inl he
    | some j =>
      simp only [slInsert] at he
      split_ifs at he
      · simp only [List.mem_singleton] at he
        exact Or.inl he
      · exact Or.inr he
  | cons x xs ih =>
    intro j e he
    have hrec : e ∈ x :: (slInsert lt k (some x) xs).1 → e = k ∨ e ∈ x :: xs := by
      intro h
      rcases List.mem_cons.mp h with h | h
      · exact Or.inr (List.mem_cons.mpr (Or.inl h))
      · rcases ih (some x) e h with h | h
        · exact Or.inl h
        · exact Or.inr (List.mem_cons.mpr (Or.inr h))
    cases j with
    | none =>
      simp only [slInsert] at he
      split_ifs at he
      · rcases List.mem_cons.mp he with h | h
        · exact Or.inl h
        · exact Or.inr h
      · exact hrec he
    | some j =>
      simp only [slInsert] at he
      split_ifs at he
      · rcases List.mem_cons.mp he with h | h
        · exact Or.inl h
        · exact Or.inr h
      · exact Or.inr he
      · exact hrec he

theorem mem_of_slPrev (sl : List Nat) (i p : Nat) (h : slPrev sl i = some p) : p ∈ sl := by
  unfold slPrev at h
  split_ifs at h
  exact List.get?_mem h

theorem mem_of_slNext (sl : List Nat) (i n : Nat) (h : slNext sl i = some n) : n ∈ sl := by
  unfold slNext at h
  exact List.get?_mem h

theorem unwritten_pop (s : BooleanOpImp) (se : Nat) (rest : List Nat) (h : Unwritten s)
    (heq : s.eq = se :: rest) :
    Unwritten { s with sortedEvents := s.sortedEvents ++ [se], eq := rest } := by
  obtain ⟨h1, h2, h3, h4, h5⟩ := h
  rw [heq] at h3 h4
  obtain ⟨hse, hrest⟩ := List.nodup_cons.mp h3
  refine ⟨?_, ?_, hrest, ?_, ?_⟩
  · intro e he
    exact h1 e (fun hm => he (List.mem_append.mpr (Or.inl hm)))
  · intro e he
    exact List.mem_append.mpr (Or.inl (h2 e he))
  · intro e he
    refine ⟨(h4 e (List.mem_cons.mpr (Or.inr he))).1, ?_⟩
    intro hm
    rcases List.mem_append.mp hm with hm | hm
    · exact (h4 e (List.mem_cons.mpr (Or.inr he))).2 hm
    · simp only [List.mem_singleton] at hm
      exact hse (hm ▸ he)
  · intro e he
    rcases List.mem_append.mp he with hm | hm
    · exact h5 e hm
    · simp only [List.mem_singleton] at hm
      rw [hm]
      exact (h4 se (List.mem_cons.mpr (Or.inl rfl))).1

theorem processLeft_unwritten (P : Primitives) (s t : BooleanOpImp) (se : Nat)
    (h : Unwritten s) (hse : se ∈ s.sortedEvents) (hr : processLeft P s se = some t) :
    Unwritten t := by
  unfold processLeft at hr
  simp only [] at hr
  generalize hins : slInsert (SegmentComp P s.eventHolder) se none s.sl = ins at hr
  have hmem : ∀ e, e ∈ ins.1 → e ∈ s.sortedEvents := by
    intro e he
    rw [← hins] at he
    rcases mem_slInsert _ _ _ _ _ he with h1 | h1
    · rw [h1]
      exact hse
    · exact h.2.1 e h1
  have hU1 : Unwritten
      ({ s with sl := ins.1,
                eventHolder := modEv s.eventHolder se (fun e => { e with posSL := some ins.2 }) } :
        BooleanOpImp) := by
    obtain ⟨h1, h2, h3, h4, h5⟩ := h
    refine ⟨?_, hmem, h3, ?_, ?_⟩
    · intro e he
      have := getEv_modEv_frame (fun x => x.prevInResult) s.eventHolder se e
        (fun e => { e with posSL := some ins.2 }) (fun _ => rfl)
      simp only [] at this
      rw [this]
      exact h1 e he
    · intro e he
      simp only [length_modEv]
      exact h4 e he
    · intro e he
      simp only [length_modEv]
      exact h5 e he
  generalize hs1 :
      ({ s with sl := ins.1,
                eventHolder := modEv s.eventHolder se (fun e => { e with posSL := some ins.2 }) } :
        BooleanOpImp) = s1 at hr hU1
  have hsl1 : s1.sl = ins.1 := by rw [← hs1]
  have hlog1 : s1.sortedEvents = s.sortedEvents := by rw [← hs1]
  have hse1 : se ∈ s1.sortedEvents := by rw [hlog1]; exact hse
  have hmem1 : ∀ e, e ∈ s1.sl → e ∈ s1.sortedEvents := hU1.2.1
  rw [hsl1] at hmem1
  have k2 := keeps_computeFields s1 se (slPrev ins.1 (ins.1.indexOf ins.2)) hse1
  generalize computeFields s1 se (slPrev ins.1 (ins.1.indexOf ins.2)) = s2 at hr k2
  -- the neighbour above
  have hs3 : ∀ s4, (match slNext ins.1 (ins.1.indexOf ins.2) with
      | none => some s2
      | some n =>
        match possibleIntersection P s2 se n with
        | (_, none) => none
        | (t, some code) =>
          if code = 2 then
            some (computeFields (computeFields t se (slPrev ins.1 (ins.1.indexOf ins.2))) n
              (some ins.2))
          else some t) = some s4 → KeepsUnwritten s1 s4 := by
    intro s4 h4
    split at h4
    · cases h4
      exact k2
    · rename_i n hn
      have hnmem : n ∈ s1.sortedEvents := hmem1 n (mem_of_slNext _ _ _ hn)
      have k3 := keeps_possibleIntersection P s2 se n
      split at h4
      · cases h4
      · rename_i t code hpi
        rw [hpi] at k3
        simp only [] at k3
        have k23 := keeps_trans k2 k3
        split_ifs at h4
        · cases h4
          have ka := keeps_computeFields t se (slPrev ins.1 (ins.1.indexOf ins.2))
            (by rw [k23.2.2]; exact hse1)
          have kb := keeps_computeFields
            (computeFields t se (slPrev ins.1 (ins.1.indexOf ins.2))) n (some ins.2)
            (by rw [ka.2.2, k23.2.2]; exact hnmem)
          exact keeps_trans k23 (keeps_trans ka kb)
        · cases h4
          exact k23
  split at hr
  · cases hr
  · rename_i s4 h4
    have k4 := hs3 s4 h4
    split at hr
    · cases hr
      exact k4.1 hU1
    · rename_i p hp
      have hpmem : p ∈ s1.sortedEvents := hmem1 p (mem_of_slPrev _ _ _ hp)
      have k5 := keeps_possibleIntersection P s4 p se
      split at hr
      · cases hr
      · rename_i u code hpi
        rw [hpi] at k5
        simp only [] at k5
        have k45 := keeps_trans k4 k5
        split_ifs at hr
        · cases hr
          have ka := keeps_computeFields u p (slPrev u.sl (ins.1.indexOf ins.2 - 1))
            (by rw [k45.2.2]; exact hpmem)
          have kb := keeps_computeFields
            (computeFields u p (slPrev u.sl (ins.1.indexOf ins.2 - 1))) se
            (slPrev ins.1 (ins.1.indexOf ins.2)) (by rw [ka.2.2, k45.2.2]; exact hse1)
          exact (keeps_trans k45 (keeps_trans ka kb)).1 hU1
        · cases hr
          exact k45.1 hU1

theorem processRight_unwritten (P : Primitives) (s t : BooleanOpImp) (se0 : Nat)
    (h : Unwritten s) (hr : processRight P s se0 = some t) : Unwritten t := by
  unfold processRight at hr
  simp only [] at hr
  split at hr
  · cases hr
  · rename_i it _
    split_ifs at hr
    have hU1 : Unwritten { s with sl := s.sl.eraseIdx (s.sl.indexOf it) } := by
      obtain ⟨h1, h2, h3, h4, h5⟩ := h
      exact ⟨h1, fun e he => h2 e (List.mem_of_mem_eraseIdx he), h3, h4, h5⟩
    split at hr
    · rename_i p n _ _
      have k := keeps_possibleIntersection P
        { s with sl := s.sl.eraseIdx (s.sl.indexOf it) } p n
      split at hr
      · cases hr
      · rename_i u code hpi
        rw [hpi] at k
        cases hr
        exact k.1 hU1
    · cases hr
      exact hU1

theorem sweepLoop_unwritten (P : Primitives) (m x : ℚ) :
    ∀ (fuel : Nat) (s t : BooleanOpImp), Unwritten s → sweepLoop P m x fuel s = some t →
      Unwritten t := by
  intro fuel
  induction fuel with
  | zero =>
    intro s t _ hr
    cases hr
  | succ fuel ih =>
    intro s t h hr
    unfold sweepLoop at hr
    split at hr
    · cases hr
      exact h
    · rename_i se rest heq
      split_ifs at hr
      · cases hr
        exact h
      · have hpop := unwritten_pop s se rest h heq
        have hse : se ∈ ({ s with sortedEvents := s.sortedEvents ++ [se], eq := rest } :
            BooleanOpImp).sortedEvents := List.mem_append.mpr (Or.inr (List.mem_singleton.mpr rfl))
        simp only [] at hr
        split at hr
        · cases hr
        · rename_i s2 hs2
          apply ih s2 t _ hr
          split_ifs at hs2
          · exact processLeft_unwritten P _ s2 se hpop hse hs2
          · exact processRight_unwritten P _ s2 se hpop hs2

theorem sweepLoop_atLoopHead (P : Primitives) (m x : ℚ) (s0 : BooleanOpImp) :
    ∀ (fuel : Nat) (s t : BooleanOpImp), AtLoopHead P m x s0 s →
      sweepLoop P m x fuel s = some t → AtLoopHead P m x s0 t := by
  intro fuel
  induction fuel with
  | zero =>
    intro s t _ hr
    cases hr
  | succ fuel ih =>
    intro s t h hr
    unfold sweepLoop at hr
    split at hr
    · cases hr
      exact h
    · rename_i se rest heq
      split_ifs at hr with hexit
      · cases hr
        exact h
      · simp only [] at hr
        split at hr
        · cases hr
        · rename_i s2 hs2
          exact ih s2 t (AtLoopHead.next s s2 se rest h heq hexit hs2) hr

theorem bubblePass_perm (after : Nat → Nat → Bool) (rest : List Nat) :
    ∀ a, (bubblePass after a rest).1.Perm (a :: rest) := by
  induction rest with
  | nil =>
    intro a
    exact List.Perm.refl _
  | cons b rest ih =>
    intro a
    unfold bubblePass
    split_ifs
    · exact (List.Perm.cons b (ih a)).trans (List.Perm.swap a b rest)
    · exact List.Perm.cons a (ih b)

theorem bubblePass_sorted (after : Nat → Nat → Bool) (rest : List Nat) :
    ∀ a, (bubblePass after a rest).2 = true →
      (bubblePass after a rest).1 = a :: rest ∧
      List.Chain' (fun x y => after x y = false) (a :: rest) := by
  induction rest with
  | nil =>
    intro a _
    exact ⟨rfl, List.chain'_singleton a⟩
  | cons b rest ih =>
    intro a
    unfold bubblePass
    split_ifs with h
    · intro hf
      cases hf
    · intro hf
      obtain ⟨e, c⟩ := ih b hf
      refine ⟨?_, List.chain'_cons.mpr ⟨by simpa using h, c⟩⟩
      simp only
      rw [e]

theorem bubblePass_inversions (after : Nat → Nat → Bool)
    (hasym : ∀ a b, after a b = true → after b a = false) (rest : List Nat) :
    ∀ a, inversions after (bubblePass after a rest).1 ≤ inversions after (a :: rest) ∧
      ((bubblePass after a rest).2 = false →
        inversions after (bubblePass after a rest).1 < inversions after (a :: rest)) := by
  induction rest with
  | nil =>
    intro a
    refine ⟨le_refl _, ?_⟩
    intro h
    cases h
  | cons b rest ih =>
    intro a
    unfold bubblePass
    split_ifs with h
    · have hc := (bubblePass_perm after rest a).countP_eq (fun x => after b x)
      have hba := hasym a b h
      have hlt : inversions after (b :: (bubblePass after a rest).1) <
          inversions after (a :: b :: rest) := by
        have i1 := (ih a).1
        simp only [inversions, List.countP_cons, hba, h, if_true] at i1 ⊢
        simp only [hc, List.countP_cons, hba]
        simp only [Bool.false_eq_true, if_false]
        omega
      exact ⟨le_of_lt hlt, fun _ => hlt⟩
    · have hc := (bubblePass_perm after rest b).countP_eq (fun x => after a x)
      obtain ⟨i1, i2⟩ := ih b
      constructor
      · simp only [inversions] at i1 ⊢
        rw [hc]
        omega
      · intro hf
        have i3 := i2 hf
        simp only [inversions] at i3 ⊢
        rw [hc]
        omega

theorem inversions_le (after : Nat → Nat → Bool) (l : List Nat) :
    inversions after l ≤ l.length * l.length := by
  induction l with
  | nil => exact le_refl _
  | cons a l ih =>
    have h := List.countP_le_length (fun b => after a b) (l := l)
    simp only [inversions, List.length_cons]
    nlinarith

theorem stabilize_sorts (after : Nat → Nat → Bool)
    (hasym : ∀ a b, after a b = true → after b a = false) :
    ∀ (fuel : Nat) (l : List Nat), inversions after l < fuel →
      ∃ r, stabilize after fuel l = some r ∧ r.Perm l ∧
        List.Chain' (fun x y => after x y = false) r := by
  intro fuel
  induction fuel with
  | zero =>
    intro l h
    omega
  | succ fuel ih =>
    intro l h
    cases l with
    | nil => exact ⟨[], rfl, List.Perm.refl _, List.chain'_nil⟩
    | cons a rest =>
      unfold stabilize
      by_cases hf : (bubblePass after a rest).2 = true
      · rw [if_pos hf]
        obtain ⟨e, c⟩ := bubblePass_sorted after rest a hf
        exact ⟨_, rfl, bubblePass_perm after rest a, by rw [e]; exact c⟩
      · rw [if_neg hf]
        have hlt := (bubblePass_inversions after hasym rest a).2 (by simpa using hf)
        obtain ⟨r, h1, h2, h3⟩ := ih (bubblePass after a rest).1 (by omega)
        exact ⟨r, h1, h2.trans (bubblePass_perm after rest a), h3⟩

/-- C18: when the sweep comparator never holds in both directions between two
events, the stabilisation loop of `connectEdges` ends within as many runs as the
square of the number of filtered events plus one, and the array `resultEvents` it
leaves is a permutation of the filtered events of `sortedEvents` (the left events
with `inResult` and the right events whose partner has it) in which no event is
directly followed by one that the comparator places before it. -/
theorem resultEventsOf_sorted (P : Primitives) (s : BooleanOpImp) (fuel : Nat)
    (hasym : ∀ a b, P.sec s.eventHolder a b = true → P.sec s.eventHolder b a = false)
    (hfuel : (s.sortedEvents.filter (inResultEvents s.eventHolder)).length *
      (s.sortedEvents.filter (inResultEvents s.eventHolder)).length < fuel) :
    ∃ r, resultEventsOf P fuel s = some r ∧
      r.Perm (s.sortedEvents.filter (inResultEvents s.eventHolder)) ∧
      List.Chain' (fun x y => P.sec s.eventHolder x y = false) r := by
  unfold resultEventsOf
  exact stabilize_sorts (P.sec s.eventHolder) hasym fuel _
    (lt_of_le_of_lt (inversions_le _ _) hfuel)

theorem signedArea_swap (p q r : Point_2) : signedArea p r q = - signedArea p q r := by
  unfold signedArea
  ring

theorem signedArea_swap_ends (p q r : Point_2) : signedArea r q p = - signedArea p q r := by
  unfold signedArea
  ring

theorem signedArea_rotate (p q r : Point_2) : signedArea q p r = - signedArea p q r := by
  unfold signedArea
  ring

theorem SweepEventComp_asymm (evs : List SweepEvent) (a b : Nat)
    (h : SweepEventComp evs a b = true) : SweepEventComp evs b a = false := by
  unfold SweepEventComp above below at *
  generalize (getEv evs a).point = p at *
  generalize (getEv evs b).point = q at *
  generalize otherPoint evs a = oa at *
  generalize otherPoint evs b = ob at *
  generalize (getEv evs a).left = la at *
  generalize (getEv evs b).left = lb at *
  generalize (getEv evs a).pol = ta at *
  generalize (getEv evs b).pol = tb at *
  rcases lt_trichotomy p.x q.x with hx | hx | hx
  · simp [hx, not_lt.mpr (le_of_lt hx)] at h
  · rcases lt_trichotomy p.y q.y with hy | hy | hy
    · simp [hx, hy, ne_of_lt hy, not_lt.mpr (le_of_lt hy)] at h
    · have hpq : p = q := by
        cases p
        cases q
        simp only at hx hy
        rw [hx, hy]
      subst hpq
      simp only [gt_iff_lt, lt_self_iff_false, if_false, ne_eq, not_true_eq_false] at h ⊢
      by_cases hl : la = lb
      · subst hl
        simp only [not_true_eq_false, if_false] at h ⊢
        by_cases har : signedArea p oa ob = 0
        · have har2 : signedArea p ob oa = 0 := by rw [signedArea_swap, har, neg_zero]
          simp only [har, har2, not_true_eq_false, if_false] at h ⊢
          cases ta <;> cases tb <;> first | rfl | cases h
        · have har2 : ¬ signedArea p ob oa = 0 := by
            rw [signedArea_swap]
            simpa using har
          simp only [har, har2, not_false_eq_true, if_true] at h ⊢
          cases la
          · simp only [Bool.false_eq_true, if_false, Bool.not_eq_true', decide_eq_false_iff_not,
              not_lt, Bool.not_eq_false', decide_eq_true_eq] at h ⊢
            have e1 : signedArea ob p oa = - signedArea oa p ob := signedArea_swap_ends _ _ _
            have e2 : signedArea oa p ob = - signedArea p oa ob := signedArea_rotate _ _ _
            rcases lt_or_gt_of_ne har with h3 | h3
            · linarith
            · linarith
          · simp only [if_true, Bool.not_eq_true', decide_eq_false_iff_not, not_lt,
              Bool.not_eq_false', decide_eq_true_eq] at h ⊢
            have e1 : signedArea p ob oa = - signedArea p oa ob := signedArea_swap _ _ _
            rcases lt_or_gt_of_ne har with h3 | h3
            · linarith
            · linarith
      · have hl2 : ¬ lb = la := fun e => hl e.symm
        simp only [hl, hl2, not_false_eq_true, if_true] at h ⊢
        subst h
        cases lb
        · rfl
        · exact absurd rfl hl
    · simp [hx, hy, ne_of_lt hy, not_lt.mpr (le_of_lt hy)]
  · simp [hx, not_lt.mpr (le_of_lt hx)]

/-- An instance of `resultEventsOf_sorted`: the four events of `loggedState`,
logged in the order 2, 0, 3, 1. -/
theorem resultEventsOf_sorted_witness :
    ∃ r, resultEventsOf exact 17 loggedState = some r ∧
      r.Perm (loggedState.sortedEvents.filter (inResultEvents loggedState.eventHolder)) ∧
      List.Chain' (fun x y => exact.sec loggedState.eventHolder x y = false) r :=
  resultEventsOf_sorted exact loggedState 17 (fun a b => SweepEventComp_asymm _ a b) (by decide)

/-! ### The positions assigned by `connectEdges` -/

theorem assignPosStep_frame {α : Type} (g : SweepEvent → α)
    (hg : ∀ (e : SweepEvent) (k : Nat), g { e with pos := k } = g e)
    (r : List Nat) (E : List SweepEvent) (k x : Nat) :
    g (getEv (assignPosStep r E k) x) = g (getEv E x) := by
  unfold assignPosStep
  simp only []
  split_ifs
  · rw [getEv_modEv_frame g _ _ _ _ (fun e => hg e _), getEv_modEv_frame g _ _ _ _ (fun e => hg e _),
      getEv_modEv_frame g _ _ _ _ (fun e => hg e _)]
  · rw [getEv_modEv_frame g _ _ _ _ (fun e => hg e _)]

theorem length_assignPosStep (r : List Nat) (E : List SweepEvent) (k : Nat) :
    (assignPosStep r E k).length = E.length := by
  unfold assignPosStep
  simp only []
  split_ifs <;> simp [length_modEv]

theorem assignPosStep_left (r : List Nat) (E : List SweepEvent) (k x : Nat)
    (he : r.getD k 0 < E.length) (hl : (getEv E (r.getD k 0)).left = true) :
    (getEv (assignPosStep r E k) x).pos = if x = r.getD k 0 then k else (getEv E x).pos := by
  unfold assignPosStep
  generalize r.getD k 0 = e at *
  simp only [getEv_modEv, he, and_self, if_true, hl, Bool.not_true, Bool.false_eq_true, if_false,
    and_true]
  by_cases hx : x = e
  · subst hx
    simp
  · simp [hx, Ne.symm hx]

theorem assignPosStep_right (r : List Nat) (E : List SweepEvent) (k x : Nat)
    (he : r.getD k 0 < E.length) (hl : (getEv E (r.getD k 0)).left = false)
    (ho : (getEv E (r.getD k 0)).otherEvent < E.length)
    (hne : (getEv E (r.getD k 0)).otherEvent ≠ r.getD k 0) :
    (getEv (assignPosStep r E k) x).pos =
      if x = (getEv E (r.getD k 0)).otherEvent then k
      else if x = r.getD k 0 then (getEv E (getEv E (r.getD k 0)).otherEvent).pos
      else (getEv E x).pos := by
  unfold assignPosStep
  generalize r.getD k 0 = e at *
  generalize hoe : (getEv E e).otherEvent = o at *
  simp only [getEv_modEv, length_modEv, he, ho, and_self, and_true, if_true, hl, Bool.not_false, hoe,
    Ne.symm hne, hne, if_false]
  by_cases hx : x = o
  · subst hx
    simp
  · by_cases hx2 : x = e
    · subst hx2
      simp [hx, Ne.symm hx]
    · simp [hx, hx2, Ne.symm hx, Ne.symm hx2]

theorem assignPos_invariant (r : List Nat) (evs : List SweepEvent)
    (hnd : ∀ i j, i < r.length → j < r.length → r.getD i 0 = r.getD j 0 → i = j)
    (hval : ∀ i, i < r.length → r.getD i 0 < evs.length)
    (hpair : ∀ i, i < r.length → ∃ j, j < r.length ∧
      r.getD j 0 = (getEv evs (r.getD i 0)).otherEvent ∧
      (getEv evs (r.getD j 0)).otherEvent = r.getD i 0 ∧
      (getEv evs (r.getD j 0)).left = !(getEv evs (r.getD i 0)).left ∧
      ((getEv evs (r.getD i 0)).left = true → i < j)) :
    ∀ k, k ≤ r.length →
      ((List.range k).foldl (assignPosStep r) evs).length = evs.length ∧
      (∀ x, (getEv ((List.range k).foldl (assignPosStep r) evs) x).left = (getEv evs x).left) ∧
      (∀ x, (getEv ((List.range k).foldl (assignPosStep r) evs) x).otherEvent =
        (getEv evs x).otherEvent) ∧
      (∀ i j, i < r.length → j < r.length → (getEv evs (r.getD i 0)).left = true →
        r.getD j 0 = (getEv evs (r.getD i 0)).otherEvent →
        (j < k → (getEv ((List.range k).foldl (assignPosStep r) evs) (r.getD i 0)).pos = j ∧
          (getEv ((List.range k).foldl (assignPosStep r) evs) (r.getD j 0)).pos = i) ∧
        (i < k → k ≤ j →
          (getEv ((List.range k).foldl (assignPosStep r) evs) (r.getD i 0)).pos = i)) := by
  intro k
  induction k with
  | zero =>
    intro _
    refine ⟨rfl, fun _ => rfl, fun _ => rfl, ?_⟩
    intro i j _ _ _ _
    exact ⟨fun h => absurd h (Nat.not_lt_zero _), fun h => absurd h (Nat.not_lt_zero _)⟩
  | succ k ih =>
    intro hk
    obtain ⟨ilen, ileft, iother, ipos⟩ := ih (by omega)
    rw [List.range_succ, List.foldl_append, List.foldl_cons, List.foldl_nil]
    generalize (List.range k).foldl (assignPosStep r) evs = E at *
    have hkn : k < r.length := by omega
    have he : r.getD k 0 < E.length := by
      rw [ilen]
      exact hval k hkn
    refine ⟨by rw [length_assignPosStep, ilen], ?_, ?_, ?_⟩
    · intro x
      rw [assignPosStep_frame (fun e => e.left) (fun _ _ => rfl), ileft]
    · intro x
      rw [assignPosStep_frame (fun e => e.otherEvent) (fun _ _ => rfl), iother]
    · intro i j hi hj hli hij
      obtain ⟨j1, hj1, e1, o1, l1, lt1⟩ := hpair i hi
      have hjj : j1 = j := hnd j1 j hj1 hj (by rw [e1, hij])
      subst hjj
      have hlj : (getEv evs (r.getD j1 0)).left = false := by
        rw [l1, hli]
        rfl
      have hilt : i < j1 := lt1 hli
      obtain ⟨h1, h2⟩ := ipos i j1 hi hj hli hij
      by_cases hlk : (getEv evs (r.getD k 0)).left = true
      · have hjk : j1 ≠ k := by
          intro h
          rw [h, hlk] at hlj
          cases hlj
        have ejk : r.getD j1 0 ≠ r.getD k 0 := fun h => hjk (hnd j1 k hj hkn h)
        have hlE : (getEv E (r.getD k 0)).left = true := by rw [ileft, hlk]
        rw [assignPosStep_left r E k _ he hlE, assignPosStep_left r E k _ he hlE, if_neg ejk]
        constructor
        · intro hjlt
          have hik : i ≠ k := by omega
          have eik : r.getD i 0 ≠ r.getD k 0 := fun h => hik (hnd i k hi hkn h)
          rw [if_neg eik]
          exact h1 (by omega)
        · intro hik hkj
          by_cases hik2 : i = k
          · subst hik2
            rw [if_pos rfl]
          · have eik : r.getD i 0 ≠ r.getD k 0 := fun h => hik2 (hnd i k hi hkn h)
            rw [if_neg eik]
            exact h2 (by omega) (by omega)
      · have hlk2 : (getEv evs (r.getD k 0)).left = false := by simpa using hlk
        obtain ⟨i0, hi0, e0, o0, l0, _⟩ := hpair k hkn
        have hl0 : (getEv evs (r.getD i0 0)).left = true := by
          rw [l0, hlk2]
          rfl
        obtain ⟨j0, hj0, e00, _, _, lt0⟩ := hpair i0 hi0
        have hj0k : j0 = k := hnd j0 k hj0 hkn (by rw [e00, o0])
        subst hj0k
        have hi0k : i0 < j0 := lt0 hl0
        have hlE : (getEv E (r.getD j0 0)).left = false := by rw [ileft, hlk2]
        have hoE : (getEv E (r.getD j0 0)).otherEvent = r.getD i0 0 := by rw [iother, e0]
        have ei0k : r.getD i0 0 ≠ r.getD j0 0 := fun h => (by omega : i0 ≠ j0) (hnd i0 j0 hi0 hkn h)
        have hoval : (getEv E (r.getD j0 0)).otherEvent < E.length := by
          rw [hoE, ilen]
          exact hval i0 hi0
        have hone : (getEv E (r.getD j0 0)).otherEvent ≠ r.getD j0 0 := by
          rw [hoE]
          exact ei0k
        have hpos0 := (ipos i0 j0 hi0 hkn hl0 o0.symm).2 hi0k (le_refl _)
        have hik : i ≠ j0 := by
          intro h
          rw [h, hlk2] at hli
          cases hli
        have eik : r.getD i 0 ≠ r.getD j0 0 := fun h => hik (hnd i j0 hi hkn h)
        have hji0 : j1 ≠ i0 := by
          intro h
          rw [h, hl0] at hlj
          cases hlj
        have eji0 : r.getD j1 0 ≠ r.getD i0 0 := fun h => hji0 (hnd j1 i0 hj hi0 h)
        rw [assignPosStep_right r E j0 _ he hlE hoval hone,
          assignPosStep_right r E j0 _ he hlE hoval hone, hoE, if_neg eji0]
        by_cases hii0 : i = i0
        · subst hii0
          have hjk : j1 = j0 := hnd j1 j0 hj hkn (hij.trans o0)
          subst hjk
          rw [if_pos rfl, if_pos rfl]
          exact ⟨fun _ => ⟨rfl, hpos0⟩, fun _ h => absurd h (by omega)⟩
        · have eii0 : r.getD i 0 ≠ r.getD i0 0 := fun h => hii0 (hnd i i0 hi hi0 h)
          have hjk : j1 ≠ j0 := by
            intro h
            apply eii0
            rw [← o1, h, ← e0]
          have ejk : r.getD j1 0 ≠ r.getD j0 0 := fun h => hjk (hnd j1 j0 hj hkn h)
          rw [if_neg eii0, if_neg eik, if_neg ejk]
          exact ⟨fun h => h1 (by omega), fun ha hb => h2 (by omega) (by omega)⟩

theorem nodup_getD_inj (r : List Nat) (hnd : r.Nodup) (i j : Nat) (hi : i < r.length)
    (hj : j < r.length) (h : r.getD i 0 = r.getD j 0) : i = j := by
  rw [List.getD_eq_getElem r 0 hi, List.getD_eq_getElem r 0 hj] at h
  exact (List.Nodup.getElem_inj_iff hnd).mp h

/-- C19: for an array `resultEvents` of distinct events of the arena in which
every event has its partner, each the partner of the other, one of the two
flagged left and the other not, the one flagged left at the smaller index: after
the loop of `connectEdges` that assigns `pos`, the field `pos` of every event of
the array is an index of the array, and the event at that index is its
partner. -/
theorem assignPos_links (r : List Nat) (evs : List SweepEvent) (hnd : r.Nodup)
    (hval : ∀ i, i < r.length → r.getD i 0 < evs.length)
    (hpair : ∀ i, i < r.length → ∃ j, j < r.length ∧
      r.getD j 0 = (getEv evs (r.getD i 0)).otherEvent ∧
      (getEv evs (r.getD j 0)).otherEvent = r.getD i 0 ∧
      (getEv evs (r.getD j 0)).left = !(getEv evs (r.getD i 0)).left ∧
      ((getEv evs (r.getD i 0)).left = true → i < j)) :
    ∀ i, i < r.length →
      (getEv (assignPos r evs) (r.getD i 0)).pos < r.length ∧
      r.getD (getEv (assignPos r evs) (r.getD i 0)).pos 0 =
        (getEv (assignPos r evs) (r.getD i 0)).otherEvent := by
  intro i hi
  obtain ⟨_, _, iother, ipos⟩ :=
    assignPos_invariant r evs (nodup_getD_inj r hnd) hval hpair r.length (le_refl _)
  unfold assignPos
  rw [iother]
  obtain ⟨j, hj, e1, o1, l1, _⟩ := hpair i hi
  by_cases hl : (getEv evs (r.getD i 0)).left = true
  · have h := ((ipos i j hi hj hl e1).1 hj).1
    rw [h]
    exact ⟨hj, e1⟩
  · have hl2 : (getEv evs (r.getD i 0)).left = false := by simpa using hl
    have hlj : (getEv evs (r.getD j 0)).left = true := by
      rw [l1, hl2]
      rfl
    have h := ((ipos j i hj hi hlj o1.symm).1 hi).2
    rw [h]
    exact ⟨hj, e1⟩

/-- An instance of `assignPos_links`: the four events of `crossArena` in the order
0, 2, 1, 3, at index 2, which holds the right event 1. -/
theorem assignPos_links_witness :
    (getEv (assignPos [0, 2, 1, 3] crossArena) ([0, 2, 1, 3].getD 2 0)).pos <
      [0, 2, 1, 3].length ∧
    [0, 2, 1, 3].getD (getEv (assignPos [0, 2, 1, 3] crossArena) ([0, 2, 1, 3].getD 2 0)).pos 0 =
      (getEv (assignPos [0, 2, 1, 3] crossArena) ([0, 2, 1, 3].getD 2 0)).otherEvent :=
  assignPos_links [0, 2, 1, 3] crossArena (by decide) (by decide) (by decide) 2 (by decide)

/-! ### The member `nextPos` -/

theorem nextPosForward_some (r : List Nat) (evs : List SweepEvent) (processed : List Bool)
    (pt : Point_2) :
    ∀ (fuel newPos m : Nat), newPos + fuel = r.length →
      nextPosForward r evs processed pt newPos fuel = some m →
      newPos ≤ m ∧ m < r.length ∧ processed.getD m false = false ∧
      (getEv evs (r.getD m 0)).point = pt ∧
      (∀ j, newPos ≤ j → j < m → processed.getD j false = true) := by
  intro fuel
  induction fuel with
  | zero =>
    intro newPos m _ h
    cases h
  | succ fuel ih =>
    intro newPos m hlen h
    unfold nextPosForward at h
    by_cases hp : (getEv evs (r.getD newPos 0)).point = pt
    · rw [if_pos hp] at h
      by_cases hpr : processed.getD newPos false = true
      · rw [if_neg (by rw [hpr]; simp)] at h
        obtain ⟨a, b, c, d, e⟩ := ih (newPos + 1) m (by omega) h
        refine ⟨by omega, b, c, d, ?_⟩
        intro j hj1 hj2
        by_cases hj : j = newPos
        · rw [hj]
          exact hpr
        · exact e j (by omega) hj2
      · have hpr2 : processed.getD newPos false = false := by simpa using hpr
        rw [if_pos (by rw [hpr2]; rfl)] at h
        cases h
        exact ⟨le_refl _, by omega, hpr2, hp, fun j h1 h2 => absurd h2 (by omega)⟩
    · rw [if_neg hp] at h
      cases h

theorem nextPosForward_none (r : List Nat) (evs : List SweepEvent) (processed : List Bool)
    (pt : Point_2) :
    ∀ (fuel newPos : Nat), newPos + fuel = r.length →
      nextPosForward r evs processed pt newPos fuel = none →
      ∃ b, newPos ≤ b ∧ b ≤ r.length ∧
        (∀ j, newPos ≤ j → j < b → processed.getD j false = true) ∧
        (b < r.length → (getEv evs (r.getD b 0)).point ≠ pt) := by
  intro fuel
  induction fuel with
  | zero =>
    intro newPos hlen _
    exact ⟨newPos, le_refl _, by omega, fun j h1 h2 => absurd h2 (by omega),
      fun h => absurd h (by omega)⟩
  | succ fuel ih =>
    intro newPos hlen h
    unfold nextPosForward at h
    by_cases hp : (getEv evs (r.getD newPos 0)).point = pt
    · rw [if_pos hp] at h
      by_cases hpr : processed.getD newPos false = true
      · rw [if_neg (by rw [hpr]; simp)] at h
        obtain ⟨b, b1, b2, b3, b4⟩ := ih (newPos + 1) (by omega) h
        refine ⟨b, by omega, b2, ?_, b4⟩
        intro j hj1 hj2
        by_cases hj : j = newPos
        · rw [hj]
          exact hpr
        · exact b3 j (by omega) hj2
      · have hpr2 : processed.getD newPos false = false := by simpa using hpr
        rw [if_pos (by rw [hpr2]; rfl)] at h
        cases h
    · exact ⟨newPos, le_refl _, by omega, fun j h1 h2 => absurd h2 (by omega), fun _ => hp⟩

theorem nextPosBackward_spec (processed : List Bool) :
    ∀ p, (∃ k, k < p ∧ processed.getD k false = false) →
      ∃ m, nextPosBackward processed p = some m ∧ m < p ∧ processed.getD m false = false ∧
        ∀ k, k < p → processed.getD k false = false → k ≤ m := by
  intro p
  induction p with
  | zero =>
    rintro ⟨k, hk, _⟩
    omega
  | succ p ih =>
    rintro ⟨k, hk, hu⟩
    unfold nextPosBackward
    by_cases hpr : processed.getD p false = true
    · rw [if_pos hpr]
      have hkp : k ≠ p := by
        intro h
        rw [h, hpr] at hu
        cases hu
      obtain ⟨m, m1, m2, m3, m4⟩ := ih ⟨k, by omega, hu⟩
      refine ⟨m, m1, by omega, m3, ?_⟩
      intro k2 hk2 hu2
      have : k2 ≠ p := by
        intro h
        rw [h, hpr] at hu2
        cases hu2
      exact m4 k2 (by omega) hu2
    · rw [if_neg hpr]
      exact ⟨p, rfl, by omega, by simpa using hpr, fun k2 hk2 _ => by omega⟩

/-- C20: for an array `resultEvents` in which the events at one point are at
contiguous indices, flags `processed`, and an index `pos` of the array such that
another index holds an event at the point of `resultEvents[pos]` that is not
processed: `nextPos (pos)` returns an index of the array, other than `pos`, of an
event at that point that is not processed; it is the smallest such index above
`pos` when there is one, and otherwise the largest index below `pos` that is not
processed. -/
theorem nextPos_spec (r : List Nat) (evs : List SweepEvent) (processed : List Bool) (pos : Nat)
    (hbetween : ∀ k, k < r.length → ∀ j, j < k → ∀ i, i < j →
      (getEv evs (r.getD i 0)).point = (getEv evs (r.getD k 0)).point →
      (getEv evs (r.getD j 0)).point = (getEv evs (r.getD i 0)).point)
    (hpos : pos < r.length)
    (hex : ∃ k, k < r.length ∧ k ≠ pos ∧ processed.getD k false = false ∧
      (getEv evs (r.getD k 0)).point = (getEv evs (r.getD pos 0)).point) :
    ∃ m, nextPos pos r evs processed = some m ∧ m < r.length ∧ m ≠ pos ∧
      processed.getD m false = false ∧
      (getEv evs (r.getD m 0)).point = (getEv evs (r.getD pos 0)).point ∧
      ((∃ k, pos < k ∧ k < r.length ∧ processed.getD k false = false ∧
          (getEv evs (r.getD k 0)).point = (getEv evs (r.getD pos 0)).point) →
        pos < m ∧ ∀ k, pos < k → k < r.length → processed.getD k false = false →
          (getEv evs (r.getD k 0)).point = (getEv evs (r.getD pos 0)).point → m ≤ k) ∧
      ((¬ ∃ k, pos < k ∧ k < r.length ∧ processed.getD k false = false ∧
          (getEv evs (r.getD k 0)).point = (getEv evs (r.getD pos 0)).point) →
        m < pos ∧ ∀ k, k < pos → processed.getD k false = false → k ≤ m) := by
  have hcont : ∀ i j k, i ≤ j → j ≤ k → k < r.length →
      (getEv evs (r.getD i 0)).point = (getEv evs (r.getD k 0)).point →
      (getEv evs (r.getD j 0)).point = (getEv evs (r.getD i 0)).point := by
    intro i j k hij hjk hk h
    by_cases h1 : i = j
    · rw [h1]
    · by_cases h2 : j = k
      · rw [h2, h]
      · exact hbetween k hk j (by omega) i (by omega) h
  unfold nextPos
  cases hf : nextPosForward r evs processed (getEv evs (r.getD pos 0)).point (pos + 1)
      (r.length - (pos + 1)) with
  | some m =>
    obtain ⟨a, b, c, d, e⟩ := nextPosForward_some r evs processed _ _ (pos + 1) m (by omega) hf
    refine ⟨m, rfl, b, by omega, c, d, ?_, ?_⟩
    · intro _
      refine ⟨by omega, ?_⟩
      intro k hk1 hk2 hk3 _
      by_contra hlt
      have := e k (by omega) (by omega)
      rw [this] at hk3
      cases hk3
    · intro hno
      exact absurd ⟨m, by omega, b, c, d⟩ hno
  | none =>
    obtain ⟨b, b1, b2, b3, b4⟩ := nextPosForward_none r evs processed _ _ (pos + 1) (by omega) hf
    have hno : ¬ ∃ k, pos < k ∧ k < r.length ∧ processed.getD k false = false ∧
        (getEv evs (r.getD k 0)).point = (getEv evs (r.getD pos 0)).point := by
      rintro ⟨k, k1, k2, k3, k4⟩
      by_cases hkb : k < b
      · have := b3 k (by omega) hkb
        rw [this] at k3
        cases k3
      · exact b4 (by omega) (hcont pos b k (by omega) (by omega) k2 k4.symm)
    obtain ⟨k, k1, k2, k3, k4⟩ := hex
    have hklt : k < pos := by
      by_contra h
      exact hno ⟨k, by omega, k1, k3, k4⟩
    obtain ⟨m, m1, m2, m3, m4⟩ := nextPosBackward_spec processed pos ⟨k, hklt, k3⟩
    have hkm := m4 k hklt k3
    have hpt : (getEv evs (r.getD m 0)).point = (getEv evs (r.getD pos 0)).point := by
      rw [hcont k m pos hkm (by omega) hpos k4, k4]
    exact ⟨m, m1, by omega, by omega, m3, hpt, fun h => absurd h hno, fun _ => ⟨m2, m4⟩⟩

/-- An instance of `nextPos_spec`: the events of `overlapArena` in the order 0, 2,
1, 3, the first of them processed; from index 0 the next index is found. -/
theorem nextPos_spec_witness :
    ∃ m, nextPos 0 [0, 2, 1, 3] overlapArena [true, false, false, false] = some m ∧
      m < [0, 2, 1, 3].length :=
  (nextPos_spec [0, 2, 1, 3] overlapArena [true, false, false, false] 0 (by decide!) (by decide)
    ⟨1, by decide, by decide, by decide, by decide!⟩).imp (fun _ h => ⟨h.1, h.2.1⟩)

end polyclip
